import Mathlib

/-! # Offset broker (`pubsub_with_offset_to_replay_messages copy.go`)

A shallow embedding of the in-process publish/subscribe broker with an
offset-indexed, replayable topic log.

Modelling decisions:

* `Data interface{}` is a type parameter `δ`: the broker never inspects it.
* `Offset int64` is an `Int`.  `nextOffset` always equals the length of a Go
  slice, which is itself bounded by `2^63 - 1`, so the counter cannot wrap.
* `map[string]*Topic` is an association list searched from the front; a topic
  is only ever reached through the map, so mutation through the `*Topic`
  pointer is a write-back into the list (`storeTopic`).
* `chan Message` is a reference: the same channel can be registered in several
  subscriptions.  Channels live in a heap (`State.heap`), a subscription holds
  `some c` (index into the heap) or `none` (Go's nil channel).
* A run-time panic (send on / close of a closed channel, slice index out of
  range) is the result `Res.panic`.
* Every broker method is one atomic step; the locks are not modelled.
* A non-blocking send succeeds iff the channel's buffer has a free slot.  The
  listener goroutine of a subscriber shows up as separate `receive` steps, so a
  run "with no receive in between" is a run without such steps.
-/

namespace OffsetBroker

/-- Result of running Go code: it returns a value, or it panics. -/
inductive Res (α : Type) where
  | ok (a : α)
  | panic (msg : String)
deriving DecidableEq, Repr

/-- Go `type Message struct { Topic string; Data interface{}; Offset int64 }`. -/
structure Message (δ : Type) where
  Topic : String
  Data : δ
  Offset : Int
deriving DecidableEq, Repr

/-- A Go buffered channel `make(chan Message, cap)`: the buffered messages
(head is received first), the capacity, and whether `close` was called. -/
structure Chan (δ : Type) where
  buf : List (Message δ)
  cap : Nat
  closed : Bool
deriving DecidableEq, Repr

/-- Go `type Subscription struct { subscriberID string; channel chan Message }`.
`channel = none` is the nil channel. -/
structure Subscription where
  subscriberID : String
  channel : Option Nat
deriving DecidableEq, Repr

/-- Go `type Topic struct { name; subscriptions; messages; nextOffset; mu }`. -/
structure Topic (δ : Type) where
  name : String
  subscriptions : List Subscription
  messages : List (Message δ)
  nextOffset : Int
deriving DecidableEq, Repr

/-- Go `type PubSub struct { topics map[string]*Topic; mu }`. -/
structure PubSub (δ : Type) where
  topics : List (String × Topic δ)
deriving DecidableEq, Repr

/-- The broker together with the heap of channels its subscriptions refer to. -/
structure State (δ : Type) where
  ps : PubSub δ
  heap : List (Chan δ)
deriving DecidableEq, Repr

/-- What a broker method leaves behind: the new state and the returned `error`
(`none` is Go's `nil`), unless it panicked. -/
abbrev Outcome (δ : Type) := Res (State δ × Option String)

variable {δ : Type}

/-- Map read `topic, ok := ps.topics[topicName]`. -/
def lookupTopic : List (String × Topic δ) → String → Option (Topic δ)
  | [], _ => none
  | (k, t) :: rest, name => if k = name then some t else lookupTopic rest name

/-- Mutation of the topic behind the pointer stored under `name`. -/
def storeTopic : List (String × Topic δ) → String → Topic δ → List (String × Topic δ)
  | [], _, _ => []
  | (k, t) :: rest, name, t' =>
    if k = name then (k, t') :: rest else (k, t) :: storeTopic rest name t'

/-- The topic registered under `name`, if any. -/
def State.topic (s : State δ) (name : String) : Option (Topic δ) :=
  lookupTopic s.ps.topics name

/-- Go `NewPubSub()`: an empty registry. -/
def NewPubSub : PubSub δ := ⟨[]⟩

/-- The state right after `NewPubSub()`: no topic, no channel made yet. -/
def initState : State δ := ⟨NewPubSub, []⟩

/-- Go `select { case ch <- msg: ; default: }`.
A nil channel is never ready, so `default` runs; a closed channel panics;
an open channel takes the message iff its buffer has a free slot. -/
def trySend (heap : List (Chan δ)) (ch : Option Nat) (msg : Message δ) : Res (List (Chan δ)) :=
  match ch with
  | none => .ok heap
  | some c =>
    match heap[c]? with
    | none => .panic "invalid channel reference"
    | some q =>
      if q.closed then .panic "send on closed channel"
      else if q.buf.length < q.cap then .ok (heap.set c { q with buf := q.buf ++ [msg] })
      else .ok heap

/-- Go `close(ch)` on a non-nil channel. -/
def closeChan (heap : List (Chan δ)) (c : Nat) : Res (List (Chan δ)) :=
  match heap[c]? with
  | none => .panic "invalid channel reference"
  | some q =>
    if q.closed then .panic "close of closed channel"
    else .ok (heap.set c { q with closed := true })

/-- Go `PubSub.CreateTopic`. -/
def CreateTopic (s : State δ) (topicName : String) : Outcome δ :=
  match lookupTopic s.ps.topics topicName with
  | some _ => .ok (s, some "Topic already exists")
  | none =>
    let topic : Topic δ :=
      { name := topicName, subscriptions := [], messages := [], nextOffset := 0 }
    .ok (⟨⟨s.ps.topics ++ [(topicName, topic)]⟩, s.heap⟩, none)

/-- Go `PubSub.Subscribe`. -/
def Subscribe (s : State δ) (topicName subscriberID : String) (ch : Option Nat) : Outcome δ :=
  match lookupTopic s.ps.topics topicName with
  | none => .ok (s, some "Topic does not exist")
  | some topic =>
    let subscription : Subscription := { subscriberID := subscriberID, channel := ch }
    let topic' := { topic with subscriptions := topic.subscriptions ++ [subscription] }
    .ok (⟨⟨storeTopic s.ps.topics topicName topic'⟩, s.heap⟩, none)

/-- The `for _, sub := range topic.subscriptions` loop of `Unsubscribe`,
carrying `(updatedSubscriptions, removedChannel)`. -/
def unsubscribeLoop (subscriberID : String) :
    List Subscription → List Subscription × Option Nat → List Subscription × Option Nat
  | [], acc => acc
  | sub :: rest, (updatedSubscriptions, removedChannel) =>
    if sub.subscriberID ≠ subscriberID then
      unsubscribeLoop subscriberID rest (updatedSubscriptions ++ [sub], removedChannel)
    else
      unsubscribeLoop subscriberID rest (updatedSubscriptions, sub.channel)

/-- Go `PubSub.Unsubscribe`. -/
def Unsubscribe (s : State δ) (topicName subscriberID : String) : Outcome δ :=
  match lookupTopic s.ps.topics topicName with
  | none => .ok (s, some "Topic does not exist")
  | some topic =>
    let r := unsubscribeLoop subscriberID topic.subscriptions ([], none)
    let topics' := storeTopic s.ps.topics topicName { topic with subscriptions := r.1 }
    match r.2 with
    | some c =>
      match closeChan s.heap c with
      | .panic m => .panic m
      | .ok heap' => .ok (⟨⟨topics'⟩, heap'⟩, none)
    | none => .ok (⟨⟨topics'⟩, s.heap⟩, some "Subscriber not found")

/-- The `for _, sub := range subscriptions { select ... }` loop of `Publish`. -/
def publishLoop (msg : Message δ) : List Subscription → List (Chan δ) → Res (List (Chan δ))
  | [], heap => .ok heap
  | sub :: rest, heap =>
    match trySend heap sub.channel msg with
    | .panic m => .panic m
    | .ok heap' => publishLoop msg rest heap'

/-- Go `PubSub.Publish`. -/
def Publish (s : State δ) (topicName : String) (data : δ) : Outcome δ :=
  match lookupTopic s.ps.topics topicName with
  | none => .ok (s, some "Topic does not exist")
  | some topic =>
    let msg : Message δ := { Topic := topicName, Data := data, Offset := topic.nextOffset }
    let topic' :=
      { topic with messages := topic.messages ++ [msg], nextOffset := topic.nextOffset + 1 }
    let subscriptions := topic'.subscriptions
    match publishLoop msg subscriptions s.heap with
    | .panic m => .panic m
    | .ok heap' => .ok (⟨⟨storeTopic s.ps.topics topicName topic'⟩, heap'⟩, none)

/-- The search loop of `ResetOffset`: the channel of the first subscription
whose ID matches (`break` on the first match), nil when there is none. -/
def findChannel (subscriberID : String) : List Subscription → Option Nat
  | [] => none
  | sub :: rest =>
    if sub.subscriberID = subscriberID then sub.channel else findChannel subscriberID rest

/-- The replay loop `for i := newOffset; i < int64(len(topic.messages)); i++`.
`fuel` bounds the number of condition checks; running out of it is reported
as a panic of its own, which `ResetOffset` never reaches. -/
def replayLoop (messages : List (Message δ)) (target : Nat) :
    Nat → Int → List (Chan δ) → Res (List (Chan δ))
  | 0, _, _ => .panic "out of fuel"
  | fuel + 1, i, heap =>
    if i < (messages.length : Int) then
      if i < 0 then .panic "index out of range"
      else
        match messages[i.toNat]? with
        | none => .panic "index out of range"
        | some msg =>
          match trySend heap (some target) msg with
          | .panic m => .panic m
          | .ok heap' => replayLoop messages target fuel (i + 1) heap'
    else .ok heap

/-- Go `PubSub.ResetOffset`. -/
def ResetOffset (s : State δ) (topicName subscriberID : String) (newOffset : Int) : Outcome δ :=
  match lookupTopic s.ps.topics topicName with
  | none => .ok (s, some "Topic does not exist")
  | some topic =>
    match findChannel subscriberID topic.subscriptions with
    | none => .ok (s, some "Subscriber not found")
    | some target =>
      let fuel := ((topic.messages.length : Int) - newOffset).toNat + 1
      match replayLoop topic.messages target fuel newOffset s.heap with
      | .panic m => .panic m
      | .ok heap' => .ok (⟨s.ps, heap'⟩, none)

/-- Go `type Subscriber struct { id; channel; handler; broker }`, client side.
The handler is not part of the broker's state. -/
structure Subscriber where
  id : String
  channel : Option Nat
deriving DecidableEq, Repr

/-- Go `NewSubscriber`: makes the subscriber's own channel
`make(chan Message, 10)`. -/
def NewSubscriber (s : State δ) (id : String) : State δ × Subscriber :=
  (⟨s.ps, s.heap ++ [{ buf := [], cap := 10, closed := false }]⟩,
   { id := id, channel := some s.heap.length })

/-- Go `Subscriber.SubscribeTo`. -/
def Subscriber.SubscribeTo (sub : Subscriber) (s : State δ) (topicName : String) : Outcome δ :=
  Subscribe s topicName sub.id sub.channel

/-- Go `Subscriber.UnsubscribeFrom`. -/
def Subscriber.UnsubscribeFrom (sub : Subscriber) (s : State δ) (topicName : String) :
    Outcome δ :=
  Unsubscribe s topicName sub.id

/-- One atomic step of a program using the broker: a broker method, or one of
the two things client code does with a channel (make one, receive from one). -/
inductive Op (δ : Type) where
  | createTopic (topicName : String)
  | subscribe (topicName subscriberID : String) (ch : Option Nat)
  | unsubscribe (topicName subscriberID : String)
  | publish (topicName : String) (data : δ)
  | resetOffset (topicName subscriberID : String) (newOffset : Int)
  | makeChan (cap : Nat)
  | receive (c : Nat)
deriving DecidableEq, Repr

/-- One receive `msg := <-ch` by the listener that ranges over channel `c`:
the head of the buffer is taken; nothing happens on an empty buffer. -/
def recvChan (heap : List (Chan δ)) (c : Nat) : List (Chan δ) :=
  match heap[c]? with
  | none => heap
  | some q => heap.set c { q with buf := q.buf.tail }

/-- Runs one step.  A channel handed to `Subscribe` is nil or was made
before: a Go program cannot hold a reference to a channel that does not
exist, so such a step is not taken. -/
def step (s : State δ) : Op δ → Outcome δ
  | .createTopic topicName => CreateTopic s topicName
  | .subscribe topicName subscriberID ch =>
    match ch with
    | none => Subscribe s topicName subscriberID none
    | some c =>
      if c < s.heap.length then Subscribe s topicName subscriberID (some c)
      else .panic "invalid channel reference"
  | .unsubscribe topicName subscriberID => Unsubscribe s topicName subscriberID
  | .publish topicName data => Publish s topicName data
  | .resetOffset topicName subscriberID newOffset =>
    ResetOffset s topicName subscriberID newOffset
  | .makeChan cap => .ok (⟨s.ps, s.heap ++ [{ buf := [], cap := cap, closed := false }]⟩, none)
  | .receive c => .ok (⟨s.ps, recvChan s.heap c⟩, none)

/-- Runs the steps in order and collects the returned errors; `none` when a
step panics (the program has crashed). -/
def run (s : State δ) : List (Op δ) → Option (State δ × List (Option String))
  | [] => some (s, [])
  | op :: ops =>
    match step s op with
    | .panic _ => none
    | .ok (s', err) =>
      match run s' ops with
      | none => none
      | some (s'', errs) => some (s'', err :: errs)

/-- The states reachable from `NewPubSub()`, with the history of the steps
taken and the error each returned, most recent first. -/
inductive Reach : List (Op δ × Option String) → State δ → Prop where
  | init : Reach [] initState
  | next {tr : List (Op δ × Option String)} {s s' : State δ} {op : Op δ} {err : Option String} :
      Reach tr s → step s op = .ok (s', err) → Reach ((op, err) :: tr) s'

/-- Is this history entry a successful `Publish` to `name`? -/
def isPublishOk (name : String) : Op δ × Option String → Bool
  | (.publish topicName _, none) => decide (topicName = name)
  | _ => false

/-- Number of successful `Publish` calls to `name` in a history. -/
def publishCount (name : String) (tr : List (Op δ × Option String)) : Nat :=
  tr.countP (isPublishOk name)

/-- The log invariant: the offsets in the log are `0, 1, 2, ...` and
`nextOffset` is the length of the log. -/
def LogOK (t : Topic δ) : Prop :=
  t.messages.map (fun m => m.Offset)
      = (List.range t.messages.length).map (fun (i : Nat) => (i : Int))
    ∧ t.nextOffset = (t.messages.length : Int)


/-- Between two states, the log and `nextOffset` registered under `name` are
the same, or the topic has just been created with an empty log. -/
def LogFrame (s s' : State δ) (name : String) : Prop :=
  (s.topic name = none ∧ s'.topic name = none) ∨
  (s.topic name = none ∧ s'.topic name = some ⟨name, [], [], 0⟩) ∨
  (∃ t t', s.topic name = some t ∧ s'.topic name = some t' ∧
    t'.messages = t.messages ∧ t'.nextOffset = t.nextOffset)

/-- Scenario 1 of the specification: create topic "t1", subscribe "sub1"
through a channel of capacity 10, publish three messages, receive nothing. -/
def scenario1Ops : List (Op String) :=
  [.createTopic "t1", .makeChan 10, .subscribe "t1" "sub1" (some 0),
   .publish "t1" "m0", .publish "t1" "m1", .publish "t1" "m2"]

/-- The log of "t1" after scenario 1. -/
def scenario1Log : List (Message String) :=
  [⟨"t1", "m0", 0⟩, ⟨"t1", "m1", 1⟩, ⟨"t1", "m2", 2⟩]

/-- The topic "t1" after scenario 1. -/
def scenario1Topic : Topic String :=
  { name := "t1", subscriptions := [⟨"sub1", some 0⟩], messages := scenario1Log, nextOffset := 3 }

/-- The state after scenario 1: all three messages are logged and buffered. -/
def scenario1 : State String :=
  ⟨⟨[("t1", scenario1Topic)]⟩, [{ buf := scenario1Log, cap := 10, closed := false }]⟩

/-- The history of scenario 1, most recent step first; every call returned nil. -/
def scenario1Trace : List (Op String × Option String) :=
  (scenario1Ops.zip (List.replicate 6 none)).reverse

/-- The delivery rule as the specification words it, for one subscription:
the message goes to the tail of the subscription's channel if the channel has
a free slot, and the channel is left unchanged if it is full. -/
def deliverSpec (msg : Message δ) (heap : List (Chan δ)) (sub : Subscription) : List (Chan δ) :=
  match sub.channel with
  | none => heap
  | some c =>
    match heap[c]? with
    | none => heap
    | some q =>
      if q.buf.length < q.cap then heap.set c { q with buf := q.buf ++ [msg] } else heap

/-- The specification's fan-out: `deliverSpec` for each subscription, in list
order. -/
def fanOutSpec (msg : Message δ) (subs : List Subscription) (heap : List (Chan δ)) :
    List (Chan δ) :=
  subs.foldl (deliverSpec msg) heap

/-- Every channel registered in `subs` is open (a nil channel, which is never
ready to take a message, is allowed). -/
def AllOpen (heap : List (Chan δ)) (subs : List Subscription) : Prop :=
  ∀ sub ∈ subs, ∀ c, sub.channel = some c → (heap[c]?).map (fun q => q.closed) = some false

/-- Number of subscriptions in `subs` registered with channel `c`. -/
def subscribedTimes (c : Nat) (subs : List Subscription) : Nat :=
  (subs.map (fun sub => sub.channel)).count (some c)

/-- Total number of messages buffered in the channels. -/
def buffered (heap : List (Chan δ)) : Nat :=
  (heap.map (fun q => q.buf.length)).sum

/-- A topic "t1" with one logged message and two subscriptions: channel 0
(capacity 1) is full, channel 1 (capacity 10) has free slots. -/
def fanOutDemo : State String :=
  ⟨⟨[("t1", { name := "t1", subscriptions := [⟨"slow", some 0⟩, ⟨"fast", some 1⟩],
              messages := [⟨"t1", "m0", 0⟩], nextOffset := 1 })]⟩,
   [{ buf := [⟨"t1", "m0", 0⟩], cap := 1, closed := false },
    { buf := [⟨"t1", "m0", 0⟩], cap := 10, closed := false }]⟩

/-- The topic of `fanOutDemo`. -/
def fanOutDemoTopic : Topic String :=
  { name := "t1", subscriptions := [⟨"slow", some 0⟩, ⟨"fast", some 1⟩],
    messages := [⟨"t1", "m0", 0⟩], nextOffset := 1 }

/-- The state after: `CreateTopic("a")`, `CreateTopic("b")`,
`sub := NewSubscriber("s1", ..)`, `sub.SubscribeTo("a")`, `sub.SubscribeTo("b")`,
`sub.UnsubscribeFrom("a")`.  The subscriber's one channel has been closed by
the unsubscribe and is still registered under topic "b". -/
def closedButSubscribed : State String :=
  ⟨⟨[("a", { name := "a", subscriptions := [], messages := [], nextOffset := 0 }),
     ("b", { name := "b", subscriptions := [⟨"s1", some 0⟩], messages := [], nextOffset := 0 })]⟩,
   [{ buf := [], cap := 10, closed := true }]⟩

/-- The replay set as the specification words it: the logged messages with
`Offset` in `[k, n)`, where `n` is the length of the log, in log order. -/
def replaySpec (t : Topic δ) (k : Int) : List (Message δ) :=
  t.messages.filter (fun m => decide (k ≤ m.Offset ∧ m.Offset < (t.messages.length : Int)))

/-- The messages that consecutive publishes of `ds` to topic `n` create when
the first of them gets offset `start`. -/
def stamp (n : String) : Int → List δ → List (Message δ)
  | _, [] => []
  | start, d :: ds => ⟨n, d, start⟩ :: stamp n (start + 1) ds

/-- A topic "t1" with an empty log and the single subscription "sub2". -/
def capacityOneTopic : Topic String :=
  { name := "t1", subscriptions := [⟨"sub2", some 0⟩], messages := [], nextOffset := 0 }

/-- The topic `capacityOneTopic` with the channel of "sub2": capacity 1, empty
(scenario 3 of the specification). -/
def capacityOneDemo : State String :=
  ⟨⟨[("t1", capacityOneTopic)]⟩, [{ buf := [], cap := 1, closed := false }]⟩

/-- The state of scenario 1 right before its three publishes. -/
def scenario1Start : State String :=
  ⟨⟨[("t1", { name := "t1", subscriptions := [⟨"sub1", some 0⟩], messages := [],
              nextOffset := 0 })]⟩,
   [{ buf := [], cap := 10, closed := false }]⟩

/-- A topic "t1" with two subscriptions under the same ID "s", on two
different open channels, and a third subscription "other". -/
def duplicateIdTopic : Topic String :=
  { name := "t1", subscriptions := [⟨"s", some 0⟩, ⟨"other", some 2⟩, ⟨"s", some 1⟩],
    messages := [], nextOffset := 0 }

/-- The topic `duplicateIdTopic` with its three open channels. -/
def duplicateIdDemo : State String :=
  ⟨⟨[("t1", duplicateIdTopic)]⟩,
   [{ buf := [], cap := 10, closed := false }, { buf := [], cap := 10, closed := false },
    { buf := [], cap := 10, closed := false }]⟩

/-- The state `Unsubscribe("t1", "s")` would leave from `duplicateIdDemo` if it
removed only the first matching subscription and closed that one's channel. -/
def duplicateIdFirstOnly : State String :=
  ⟨⟨[("t1", { duplicateIdTopic with subscriptions := [⟨"other", some 2⟩, ⟨"s", some 1⟩] })]⟩,
   [{ buf := [], cap := 10, closed := true }, { buf := [], cap := 10, closed := false },
    { buf := [], cap := 10, closed := false }]⟩

/-- A topic "t1" without subscriptions, and one open empty channel of
capacity 10 (as `NewSubscriber` makes it). -/
def freshTopicDemo : State String :=
  ⟨⟨[("t1", { name := "t1", subscriptions := [], messages := [], nextOffset := 0 })]⟩,
   [{ buf := [], cap := 10, closed := false }]⟩

/-- Two channel heaps that differ at most in the buffered contents of channel
`a`: the same channels everywhere else, and at `a` the same capacity and the
same open/closed state. -/
def AgreeOff (a : Nat) (h1 h2 : List (Chan δ)) : Prop :=
  h1.length = h2.length ∧
  (∀ c, c ≠ a → h1[c]? = h2[c]?) ∧
  (h1[a]?).map (fun q => (q.cap, q.closed)) = (h2[a]?).map (fun q => (q.cap, q.closed))

/-- Two runs of a loop over such heaps end alike: both panic with the same
message, or both return heaps that still differ at most in the contents of
channel `a`. -/
def ResAgree (a : Nat) : Res (List (Chan δ)) → Res (List (Chan δ)) → Prop
  | .ok x, .ok y => AgreeOff a x y
  | .panic m, .panic m' => m = m'
  | _, _ => False

/-- The state `fanOutDemo` with the channel of "slow" (channel 0) empty
instead of full. -/
def fanOutDemoEmptyA : State String :=
  ⟨fanOutDemo.ps,
   [{ buf := [], cap := 1, closed := false },
    { buf := [⟨"t1", "m0", 0⟩], cap := 10, closed := false }]⟩

/-- Scenario 5 of the specification: the state of scenario 1 after
`Unsubscribe("t1", "sub1")`.  The topic has no subscription left and the
channel of "sub1", still holding its three messages, is closed. -/
def scenario1Unsubscribed : State String :=
  ⟨⟨[("t1", { scenario1Topic with subscriptions := [] })]⟩,
   [{ buf := scenario1Log, cap := 10, closed := true }]⟩

/-- The state after `CreateTopic("t1")`, `sub := NewSubscriber("a", ..)`,
`sub.SubscribeTo("t1")` and `Subscribe("t1", "b", sub.channel)`: one open
channel registered under the two IDs "a" and "b". -/
def sharedChannelDemo : State String :=
  ⟨⟨[("t1", { name := "t1", subscriptions := [⟨"a", some 0⟩, ⟨"b", some 0⟩],
              messages := [], nextOffset := 0 })]⟩,
   [{ buf := [], cap := 10, closed := false }]⟩

/-- The state after `CreateTopic("a")`, `CreateTopic("b")`,
`sub := NewSubscriber("s1", ..)`, `sub.SubscribeTo("a")`, `sub.SubscribeTo("b")`,
`Publish("b", "x")` and `sub.UnsubscribeFrom("a")`: the log of "b" holds one
message, and the subscription of "s1" on "b" holds the channel that the
unsubscribe has closed. -/
def replayClosedDemo : State String :=
  ⟨⟨[("a", { name := "a", subscriptions := [], messages := [], nextOffset := 0 }),
     ("b", { name := "b", subscriptions := [⟨"s1", some 0⟩], messages := [⟨"b", "x", 0⟩],
             nextOffset := 1 })]⟩,
   [{ buf := [⟨"b", "x", 0⟩], cap := 10, closed := true }]⟩

/-- The state after: `CreateTopic("a")`, `CreateTopic("b")`, subscriber "sub1"
(channel 0) subscribed to "a", subscriber "sub2" (channel 1) subscribed to "a"
and "b", `Unsubscribe("b", "sub2")`, `Unsubscribe("a", "sub1")`.  Both calls
returned nil; "a" still holds the subscription of "sub2", whose channel the
first unsubscribe closed. -/
def afterUnsubscribeDemo : State String :=
  ⟨⟨[("a", { name := "a", subscriptions := [⟨"sub2", some 1⟩], messages := [],
             nextOffset := 0 }),
     ("b", { name := "b", subscriptions := [], messages := [], nextOffset := 0 })]⟩,
   [{ buf := [], cap := 10, closed := true }, { buf := [], cap := 10, closed := true }]⟩

end OffsetBroker

/-! # Worker pool (`worker_pool/proper_worker_pool.go`, `pubsub/pubsub_with_worker_pool.go`) -/

namespace Pool

/-!
Modelling decisions for the worker pool:

* `Task` is a Go interface; it is a type class here, `Execute` being the pair
  `(output, error)` the method returns (`none` is Go's `nil`).
* Go's `int` is taken to be 64 bits wide; arithmetic on it wraps (`wrapInt`).
* A channel is its buffer, its capacity and its closed flag.  A blocking
  send or receive that cannot proceed in the current state is the result
  `Step.blocked`: the goroutine stays where it is until another one acts.
* The `sync.WaitGroup` is its counter `wg`; `Done` on a zero counter panics.
* In `Sys`, `SubmitJob` (the `select` and the `wg.Add(1)` that follows) is one
  atomic step; `Conc` takes the two statements apart, so that a worker can
  reach `wg.Done()` before the `Add`, and lets the send succeed by hand-off to
  a worker blocked in its receive, as on a queue of capacity 0.  A worker goes
  through three steps per job: it takes the job from the queue, it executes
  the task and sends the `Result`, it calls `wg.Done()`.
* `Sys.accepted` and `Sys.emitted` are history variables: the jobs `SubmitJob`
  accepted and the `Result`s the workers sent, in order.  They stay when a
  collector receives the `Result`s from the result queue.
-/

/-- Result of a step of Go code: it completes, it cannot proceed in this
state, or it panics. -/
inductive Step (α : Type) where
  | ok (a : α)
  | blocked
  | panic (msg : String)
deriving DecidableEq, Repr

/-- Go `type Task interface { Execute() (interface{}, error) }`. -/
class Task (τ : Type) (ω : outParam Type) where
  Execute : τ → Option ω × Option String

/-- A Go `int` value after an arithmetic operation: the result wraps around
in 64-bit two's complement (`2^63 = 9223372036854775808`,
`2^64 = 18446744073709551616`). -/
def wrapInt (x : Int) : Int :=
  (x + 9223372036854775808) % 18446744073709551616 - 9223372036854775808

/-- Go `type SquareTask struct { Number int }`. -/
structure SquareTask where
  Number : Int
deriving DecidableEq, Repr

/-- Go `SquareTask.Execute`. -/
def SquareTask.Execute (t : SquareTask) : Option Int × Option String :=
  if t.Number.tmod 7 = 0 then
    (none, some ("unlucky number " ++ toString t.Number))
  else
    (some (wrapInt (t.Number * t.Number)), none)

instance : Task SquareTask Int := ⟨SquareTask.Execute⟩

/-- Go `type Job struct { ID int; Task Task; Priority int; Attempts int }`. -/
structure Job (τ : Type) where
  ID : Int
  Task : τ
  Priority : Int
  Attempts : Int
deriving DecidableEq, Repr

/-- Go `type Result struct { JobID int; Err error; Output interface{} }`. -/
structure Result (ω : Type) where
  JobID : Int
  Err : Option String
  Output : Option ω
deriving DecidableEq, Repr

/-- A Go buffered channel: buffered values (head is received first),
capacity, closed flag. -/
structure Chan (α : Type) where
  buf : List α
  cap : Nat
  closed : Bool
deriving DecidableEq, Repr

/-- Go `type WorkerPool struct { NoOfWorkers; JobsChannel; ResultsChannel; wg }`. -/
structure WorkerPool (τ ω : Type) where
  NoOfWorkers : Int
  JobsChannel : Chan (Job τ)
  ResultsChannel : Chan (Result ω)
  wg : Int
deriving DecidableEq, Repr

/-- Go `NewWorkerPool(numWorkers, jobQueuesize)`; `jobQueuesize` is not
negative (`make` panics otherwise). -/
def NewWorkerPool {τ ω : Type} (numWorkers : Int) (jobQueuesize : Nat) : WorkerPool τ ω :=
  { NoOfWorkers := numWorkers,
    JobsChannel := { buf := [], cap := jobQueuesize, closed := false },
    ResultsChannel := { buf := [], cap := jobQueuesize, closed := false },
    wg := 0 }

/-- Go `WorkerPool.SubmitJob`: a non-blocking send of the job, then
`wg.Add(1)`.  The send case of a `select` on a closed channel panics.  This is
the call taken as one step, on a queue at which no worker is blocked in its
receive; `Conc.send` and `Conc.add` are its two statements one by one, with
the hand-off of the job to a blocked worker. -/
def WorkerPool.SubmitJob {τ ω : Type} (w : WorkerPool τ ω) (job : Job τ) :
    Step (WorkerPool τ ω × Option String) :=
  if w.JobsChannel.closed then .panic "send on closed channel"
  else if w.JobsChannel.buf.length < w.JobsChannel.cap then
    .ok ({ w with JobsChannel := { w.JobsChannel with buf := w.JobsChannel.buf ++ [job] },
                  wg := w.wg + 1 }, none)
  else .ok (w, some "job queue is full or pool is shut down")

/-- Go `WorkerPool.Shutdown`: `close(wp.JobsChannel)`. -/
def WorkerPool.Shutdown {τ ω : Type} (w : WorkerPool τ ω) : Step (WorkerPool τ ω) :=
  if w.JobsChannel.closed then .panic "close of closed channel"
  else .ok { w with JobsChannel := { w.JobsChannel with closed := true } }

/-- Go `WorkerPool.Wait`: returns once the counter is zero. -/
def WorkerPool.Wait {τ ω : Type} (w : WorkerPool τ ω) : Step (WorkerPool τ ω) :=
  if w.wg = 0 then .ok w else .blocked

/-- Where a worker goroutine stands in `WorkerPool.worker`. -/
inductive Worker (τ : Type) where
  | idle
  | running (job : Job τ)
  | emitted (job : Job τ)
  | stopped
deriving DecidableEq, Repr

/-- The `Result` a worker builds for a job:
`Result{JobID: job.ID, Err: err, Output: output}` with
`output, err := job.Task.Execute()`. -/
def resultOf {τ ω : Type} [Task τ ω] (job : Job τ) : Result ω :=
  { JobID := job.ID, Err := (Task.Execute job.Task).2, Output := (Task.Execute job.Task).1 }

/-- A pool with its worker goroutines and its history. -/
structure Sys (τ ω : Type) where
  pool : WorkerPool τ ω
  workers : List (Worker τ)
  accepted : List (Job τ)
  emitted : List (Result ω)
deriving DecidableEq, Repr

/-- The steps of a program around a pool. -/
inductive Action (τ : Type) where
  | start
  | submit (job : Job τ)
  | take (i : Nat)
  | emit (i : Nat)
  | done (i : Nat)
  | collect
  | shutdown
deriving DecidableEq, Repr

/-- A pool right after `NewWorkerPool`: no worker started yet. -/
def Sys.new {τ ω : Type} (numWorkers : Int) (jobQueuesize : Nat) : Sys τ ω :=
  { pool := NewWorkerPool numWorkers jobQueuesize, workers := [], accepted := [], emitted := [] }

/-- Go `WorkerPool.Start`: launches `NoOfWorkers` worker goroutines. -/
def Sys.Start {τ ω : Type} (s : Sys τ ω) : Sys τ ω :=
  { s with workers := s.workers ++ List.replicate s.pool.NoOfWorkers.toNat Worker.idle }

/-- `SubmitJob` on the system: an accepted job enters the history. -/
def Sys.SubmitJob {τ ω : Type} (s : Sys τ ω) (job : Job τ) : Step (Sys τ ω × Option String) :=
  match s.pool.SubmitJob job with
  | .panic m => .panic m
  | .blocked => .blocked
  | .ok (p, none) => .ok ({ s with pool := p, accepted := s.accepted ++ [job] }, none)
  | .ok (p, some e) => .ok ({ s with pool := p }, some e)

/-- Worker `i` at `for job := range w.JobsChannel`: it takes the head of
the queue; on an empty queue it ends its loop if the queue is closed and
waits otherwise. -/
def Sys.take {τ ω : Type} (s : Sys τ ω) (i : Nat) : Step (Sys τ ω) :=
  match s.workers[i]? with
  | some .idle =>
    match s.pool.JobsChannel.buf with
    | job :: rest =>
      .ok { s with
        pool := { s.pool with JobsChannel := { s.pool.JobsChannel with buf := rest } },
        workers := s.workers.set i (.running job) }
    | [] =>
      if s.pool.JobsChannel.closed then .ok { s with workers := s.workers.set i .stopped }
      else .blocked
  | _ => .blocked

/-- Worker `i` holding a job: `output, err := job.Task.Execute()` and the
blocking send `w.ResultsChannel <- Result{...}`. -/
def Sys.emit {τ ω : Type} [Task τ ω] (s : Sys τ ω) (i : Nat) : Step (Sys τ ω) :=
  match s.workers[i]? with
  | some (.running job) =>
    if s.pool.ResultsChannel.closed then .panic "send on closed channel"
    else if s.pool.ResultsChannel.buf.length < s.pool.ResultsChannel.cap then
      .ok { s with
        pool := { s.pool with ResultsChannel :=
          { s.pool.ResultsChannel with buf := s.pool.ResultsChannel.buf ++ [resultOf job] } },
        workers := s.workers.set i (.emitted job),
        emitted := s.emitted ++ [resultOf job] }
    else .blocked
  | _ => .blocked

/-- Worker `i` after its send: `w.wg.Done()`, then back to the head of the
loop. -/
def Sys.done {τ ω : Type} (s : Sys τ ω) (i : Nat) : Step (Sys τ ω) :=
  match s.workers[i]? with
  | some (.emitted _) =>
    if s.pool.wg - 1 < 0 then .panic "sync: negative WaitGroup counter"
    else .ok { s with pool := { s.pool with wg := s.pool.wg - 1 },
                      workers := s.workers.set i .idle }
  | _ => .blocked

/-- A collector goroutine receives one `Result` from the result queue. -/
def Sys.collect {τ ω : Type} (s : Sys τ ω) : Step (Sys τ ω) :=
  match s.pool.ResultsChannel.buf with
  | _ :: rest =>
    .ok { s with pool := { s.pool with
      ResultsChannel := { s.pool.ResultsChannel with buf := rest } } }
  | [] => .blocked

/-- `Shutdown` on the system. -/
def Sys.Shutdown {τ ω : Type} (s : Sys τ ω) : Step (Sys τ ω) :=
  match s.pool.Shutdown with
  | .ok p => .ok { s with pool := p }
  | .blocked => .blocked
  | .panic m => .panic m

/-- One step of the system, with the error a `SubmitJob` returned. -/
def Sys.step {τ ω : Type} [Task τ ω] (s : Sys τ ω) : Action τ → Step (Sys τ ω × Option String)
  | .start => .ok (s.Start, none)
  | .submit job => s.SubmitJob job
  | .take i => match s.take i with
    | .ok s' => .ok (s', none) | .blocked => .blocked | .panic m => .panic m
  | .emit i => match s.emit i with
    | .ok s' => .ok (s', none) | .blocked => .blocked | .panic m => .panic m
  | .done i => match s.done i with
    | .ok s' => .ok (s', none) | .blocked => .blocked | .panic m => .panic m
  | .collect => match s.collect with
    | .ok s' => .ok (s', none) | .blocked => .blocked | .panic m => .panic m
  | .shutdown => match s.Shutdown with
    | .ok s' => .ok (s', none) | .blocked => .blocked | .panic m => .panic m

/-- Runs a schedule: `none` when one of its steps cannot be taken in the state
it meets (blocked) or panics; otherwise the final state and the errors the
`SubmitJob` calls returned. -/
def Sys.run {τ ω : Type} [Task τ ω] (s : Sys τ ω) :
    List (Action τ) → Option (Sys τ ω × List (Option String))
  | [] => some (s, [])
  | a :: rest =>
    match s.step a with
    | .ok (s', err) =>
      match Sys.run s' rest with
      | some (s'', errs) => some (s'', err :: errs)
      | none => none
    | _ => none

/-- The jobs a schedule submits, in order. -/
def submits {τ : Type} : List (Action τ) → List (Job τ)
  | [] => []
  | .submit job :: rest => job :: submits rest
  | _ :: rest => submits rest

/-- The pool of the demo in the specification: 2 workers, queue of 5. -/
def demoPool : WorkerPool SquareTask Int := NewWorkerPool 2 5

/-- The job the demo submits for input `n`: `Job{ID: n, Task: SquareTask{Number: n}}`. -/
def squareJob (n : Int) : Job SquareTask :=
  { ID := n, Task := { Number := n }, Priority := 0, Attempts := 0 }

/-- A pool whose job queue (capacity 1) is full. -/
def fullPool : WorkerPool SquareTask Int :=
  { NoOfWorkers := 2,
    JobsChannel := { buf := [squareJob 1], cap := 1, closed := false },
    ResultsChannel := { buf := [], cap := 1, closed := false },
    wg := 1 }

/-- A worker's whole loop body as one atomic step: take a job, execute it
and send its `Result`, call `wg.Done()`. -/
def Sys.work {τ ω : Type} [Task τ ω] (s : Sys τ ω) (i : Nat) : Step (Sys τ ω) :=
  match s.take i with
  | .ok s1 =>
    match s1.emit i with
    | .ok s2 => s2.done i
    | .blocked => .blocked
    | .panic m => .panic m
  | .blocked => .blocked
  | .panic m => .panic m

/-- The atomic steps of a program around a pool. -/
inductive AtomicAction (τ : Type) where
  | start
  | submit (job : Job τ)
  | work (i : Nat)
  | collect
  | shutdown
deriving DecidableEq, Repr

/-- One atomic step, with the error a `SubmitJob` returned. -/
def Sys.astep {τ ω : Type} [Task τ ω] (s : Sys τ ω) :
    AtomicAction τ → Step (Sys τ ω × Option String)
  | .start => .ok (s.Start, none)
  | .submit job => s.SubmitJob job
  | .work i => match s.work i with
    | .ok s' => .ok (s', none) | .blocked => .blocked | .panic m => .panic m
  | .collect => match s.collect with
    | .ok s' => .ok (s', none) | .blocked => .blocked | .panic m => .panic m
  | .shutdown => match s.Shutdown with
    | .ok s' => .ok (s', none) | .blocked => .blocked | .panic m => .panic m

/-- Runs atomic steps in order; `none` when one is blocked or panics. -/
def Sys.arun {τ ω : Type} [Task τ ω] (s : Sys τ ω) : List (AtomicAction τ) → Option (Sys τ ω)
  | [] => some s
  | a :: rest =>
    match s.astep a with
    | .ok (s', _) => Sys.arun s' rest
    | _ => none

/-- The pool states reachable from `NewWorkerPool` when `SubmitJob` and a
worker's take-execute-emit-decrement are atomic steps, next to `Start`, the
collector's receives and `Shutdown`. -/
inductive AReach {τ ω : Type} [Task τ ω] : Sys τ ω → Prop where
  | new (numWorkers : Int) (jobQueuesize : Nat) : AReach (Sys.new numWorkers jobQueuesize)
  | step {s s' : Sys τ ω} {a : AtomicAction τ} {err : Option String} :
      AReach s → s.astep a = .ok (s', err) → AReach s'

/-- The demo pool after two accepted jobs, for the inputs 3 and 7, have been
worked off by its two workers; nothing was collected. -/
def demoDone : Sys SquareTask Int :=
  { pool := { NoOfWorkers := 2,
              JobsChannel := { buf := [], cap := 5, closed := false },
              ResultsChannel :=
                { buf := [⟨3, none, some 9⟩, ⟨7, some "unlucky number 7", none⟩], cap := 5,
                  closed := false },
              wg := 0 },
    workers := [.idle, .idle],
    accepted := [squareJob 3, squareJob 7],
    emitted := [⟨3, none, some 9⟩, ⟨7, some "unlucky number 7", none⟩] }

/-- The job a worker holds whose `Result` has not been sent yet. -/
def Worker.job? {τ : Type} : Worker τ → Option (Job τ)
  | .running job => some job
  | _ => none

/-- Is the worker between taking a job and its `wg.Done()`? -/
def Worker.busy {τ : Type} : Worker τ → Nat
  | .running _ => 1
  | .emitted _ => 1
  | _ => 0

/-- The jobs taken by workers whose `Result`s have not been sent yet. -/
def runningJobs {τ : Type} : List (Worker τ) → List (Job τ)
  | [] => []
  | w :: ws => w.job?.toList ++ runningJobs ws

/-- Number of workers between taking a job and `wg.Done()`. -/
def busyCount {τ : Type} : List (Worker τ) → Nat
  | [] => 0
  | w :: ws => w.busy + busyCount ws

/-- The pool states reachable from `NewWorkerPool` through the steps of
`Sys.step`, the workers' steps being interleaved in any way. -/
inductive Reach {τ ω : Type} [Task τ ω] : Sys τ ω → Prop where
  | new (numWorkers : Int) (jobQueuesize : Nat) : Reach (Sys.new numWorkers jobQueuesize)
  | step {s s' : Sys τ ω} {a : Action τ} {err : Option String} :
      Reach s → s.step a = .ok (s', err) → Reach s'
/-- The started demo pool after the jobs for 7 and 3 were accepted and
worker 0 has taken the job for 7, which will fail. -/
def demoRunning : Sys SquareTask Int :=
  { pool := { NoOfWorkers := 2,
              JobsChannel := { buf := [squareJob 3], cap := 5, closed := false },
              ResultsChannel := { buf := [], cap := 5, closed := false },
              wg := 2 },
    workers := [.running (squareJob 7), .idle],
    accepted := [squareJob 7, squareJob 3],
    emitted := [] }

/-- Scenario 4 of the specification as one interleaving: the jobs for the
inputs 1 to 5 are submitted to the started pool of 2 workers and queue 5 while
the two workers take, execute and finish jobs; worker 1 overtakes worker 0
twice. -/
def scenario4Schedule : List (Action SquareTask) :=
  [.submit (squareJob 1), .submit (squareJob 2), .take 0, .take 1, .submit (squareJob 3),
   .emit 1, .done 1, .take 1, .submit (squareJob 4), .submit (squareJob 5),
   .emit 0, .done 0, .emit 1, .done 1, .take 0, .take 1,
   .emit 1, .done 1, .emit 0, .done 0]

/-! ## The broker of `pubsub/pubsub_with_worker_pool.go`

A topic holds pointers to `Subscriber` objects; the objects live in
`PubSub.heap` and a topic refers to them by index.
-/

/-- Go `type Message struct { Topic string; Data interface{} }`. -/
structure Message (δ : Type) where
  Topic : String
  Data : δ
deriving DecidableEq, Repr

/-- Go `type ProcessMessageTask struct { msg Message; handler func(Message) }`.
The handler is application code and not part of the broker's state. -/
structure ProcessMessageTask (δ : Type) where
  msg : Message δ
deriving DecidableEq, Repr

/-- Go `ProcessMessageTask.Execute`: runs the handler on the message and
returns `nil, nil`. -/
def ProcessMessageTask.Execute {δ : Type} (_t : ProcessMessageTask δ) :
    Option Unit × Option String :=
  (none, none)

instance {δ : Type} : Task (ProcessMessageTask δ) Unit := ⟨ProcessMessageTask.Execute⟩

/-- Go `type Subscriber struct { id; channel; handler; WorkerPool; jobIDCounter; mu }`. -/
structure Subscriber (δ : Type) where
  id : String
  channel : Chan (Message δ)
  WorkerPool : WorkerPool (ProcessMessageTask δ) Unit
  jobIDCounter : Int
deriving DecidableEq, Repr

/-- Go `type Topic struct { name string; subscribers []*Subscriber; mu }`. -/
structure Topic where
  name : String
  subscribers : List Nat
deriving DecidableEq, Repr

/-- Go `type PubSub struct { topics map[string]*Topic; mu }`, with the
`Subscriber` objects the topics point to. -/
structure PubSub (δ : Type) where
  topics : List (String × Topic)
  heap : List (Subscriber δ)
deriving DecidableEq, Repr

/-- Go `NewSubscriber(id, handler)`: a channel of capacity 10 and a private
pool `NewWorkerPool(5, 50)`. -/
def NewSubscriber {δ : Type} (id : String) : Subscriber δ :=
  { id := id, channel := { buf := [], cap := 10, closed := false },
    WorkerPool := NewWorkerPool 5 50, jobIDCounter := 0 }

/-- Map read `topic, ok := ps.topics[topicName]`. -/
def lookupTopic : List (String × Topic) → String → Option Topic
  | [], _ => none
  | (k, t) :: rest, name => if k = name then some t else lookupTopic rest name

/-- The blocking send `subscriber.channel <- msg` of `Publish`: it panics on
a closed channel and cannot proceed while the buffer is full. -/
def sendTo {δ : Type} (heap : List (Subscriber δ)) (p : Nat) (msg : Message δ) :
    Step (List (Subscriber δ)) :=
  match heap[p]? with
  | none => .panic "invalid memory address or nil pointer dereference"
  | some sub =>
    if sub.channel.closed then .panic "send on closed channel"
    else if sub.channel.buf.length < sub.channel.cap then
      .ok (heap.set p { sub with channel := { sub.channel with buf := sub.channel.buf ++ [msg] } })
    else .blocked

/-- The loop `for _, subscriber := range subscribers { subscriber.channel <- ... }`. -/
def deliverLoop {δ : Type} (msg : Message δ) :
    List Nat → List (Subscriber δ) → Step (List (Subscriber δ))
  | [], heap => .ok heap
  | p :: rest, heap =>
    match sendTo heap p msg with
    | .ok heap' => deliverLoop msg rest heap'
    | .blocked => .blocked
    | .panic m => .panic m

/-- Go `PubSub.Publish` of the worker-pool broker. -/
def Publish {δ : Type} (ps : PubSub δ) (topicName : String) (data : δ) :
    Step (PubSub δ × Option String) :=
  match lookupTopic ps.topics topicName with
  | none => .ok (ps, some "Topic does not exist")
  | some topic =>
    let subscribers := topic.subscribers
    match deliverLoop { Topic := topicName, Data := data } subscribers ps.heap with
    | .ok heap' => .ok ({ ps with heap := heap' }, none)
    | .blocked => .blocked
    | .panic m => .panic m

/-- The demo of `pubsub_with_worker_pool.go` after ten publishes that the
subscriber "analytics" has not received yet: its channel of capacity 10 is
full. -/
def fullSubscriberDemo : PubSub String :=
  { topics := [("gaming", { name := "gaming", subscribers := [0] })],
    heap := [{ (NewSubscriber "analytics" : Subscriber String) with
      channel := { buf := List.replicate 10 ⟨"gaming", "Message"⟩, cap := 10, closed := false } }] }

/-- The schedule in which worker `i` alone works off `n` queued jobs while a
collector receives each `Result`: `n` times take, execute and send, `wg.Done()`,
collect. -/
def drainSchedule {τ : Type} (i : Nat) : Nat → List (Action τ)
  | 0 => []
  | n + 1 => [.take i, .emit i, .done i, .collect] ++ drainSchedule i n

/-! ## The subscriber of `pubsub/pubsub_with_worker_pool.go` and its goroutines

`Subscriber.start` launches the pool's workers and one drain goroutine.  A
`SubSys` is the `Subscriber` object together with the goroutines launched for
it and the history of what they did.  The handler is application code: a run
of it is recorded in `handled` and has no other effect on the state.
-/

/-- Where a drain goroutine stands in
`for msg := range s.channel { job := Job{ID: s.generateJobID(), ...}; s.WorkerPool.SubmitJob(job) }`. -/
inductive Drain (δ : Type) where
  | waiting
  | received (msg : Message δ)
  | built (job : Job (ProcessMessageTask δ))
  | ended
deriving DecidableEq, Repr

/-- Where a worker goroutine of the subscriber's pool stands in
`WorkerPool.worker`: `job.Task.Execute()`, which runs the handler, is a step
of its own before the blocking send of the `Result`. -/
inductive SubWorker (δ : Type) where
  | idle
  | running (job : Job (ProcessMessageTask δ))
  | executed (job : Job (ProcessMessageTask δ))
  | emitted (job : Job (ProcessMessageTask δ))
  | stopped
deriving DecidableEq, Repr

/-- A subscriber with its goroutines and its history: the messages its drain
loops received, the jobs they built, the jobs `SubmitJob` accepted, the
messages the handler was run on, the `Result`s sent. -/
structure SubSys (δ : Type) where
  sub : Subscriber δ
  workers : List (SubWorker δ)
  drains : List (Drain δ)
  received : List (Message δ)
  built : List (Job (ProcessMessageTask δ))
  accepted : List (Job (ProcessMessageTask δ))
  handled : List (Message δ)
  emitted : List (Result Unit)
deriving DecidableEq, Repr

/-- A subscriber right after `NewSubscriber`: nothing started yet. -/
def SubSys.new {δ : Type} (id : String) : SubSys δ :=
  { sub := NewSubscriber id, workers := [], drains := [], received := [], built := [],
    accepted := [], handled := [], emitted := [] }

/-- Go `Subscriber.generateJobID`: `s.jobIDCounter++; return s.jobIDCounter`
on a Go `int`. -/
def Subscriber.generateJobID {δ : Type} (s : Subscriber δ) : Subscriber δ × Int :=
  ({ s with jobIDCounter := wrapInt (s.jobIDCounter + 1) }, wrapInt (s.jobIDCounter + 1))

/-- Go `Subscriber.start`: `s.WorkerPool.Start()` launches `NoOfWorkers`
workers, then one drain goroutine is launched. -/
def SubSys.start {δ : Type} (s : SubSys δ) : SubSys δ :=
  { s with
    workers := s.workers ++ List.replicate s.sub.WorkerPool.NoOfWorkers.toNat SubWorker.idle,
    drains := s.drains ++ [Drain.waiting] }

/-- Go `Subscriber.Close`: `close(s.channel)`, then `s.WorkerPool.Shutdown()`. -/
def SubSys.Close {δ : Type} (s : SubSys δ) : Step (SubSys δ) :=
  if s.sub.channel.closed then .panic "close of closed channel"
  else
    match s.sub.WorkerPool.Shutdown with
    | .ok p =>
      .ok { s with sub := { s.sub with
        channel := { s.sub.channel with closed := true }, WorkerPool := p } }
    | .blocked => .blocked
    | .panic m => .panic m

/-- The blocking send `subscriber.channel <- msg` of a `Publish`. -/
def SubSys.deliver {δ : Type} (s : SubSys δ) (msg : Message δ) : Step (SubSys δ) :=
  if s.sub.channel.closed then .panic "send on closed channel"
  else if s.sub.channel.buf.length < s.sub.channel.cap then
    .ok { s with sub := { s.sub with
      channel := { s.sub.channel with buf := s.sub.channel.buf ++ [msg] } } }
  else .blocked

/-- Drain goroutine `d` at `for msg := range s.channel`: it receives the head
of the channel; on an empty channel it ends if the channel is closed and
waits otherwise. -/
def SubSys.recv {δ : Type} (s : SubSys δ) (d : Nat) : Step (SubSys δ) :=
  match s.drains[d]? with
  | some .waiting =>
    match s.sub.channel.buf with
    | msg :: rest =>
      .ok { s with
        sub := { s.sub with channel := { s.sub.channel with buf := rest } },
        drains := s.drains.set d (.received msg),
        received := s.received ++ [msg] }
    | [] =>
      if s.sub.channel.closed then .ok { s with drains := s.drains.set d .ended }
      else .blocked
  | _ => .blocked

/-- Drain goroutine `d` holding a message: it builds
`Job{ID: s.generateJobID(), Task: &ProcessMessageTask{msg, handler}}`. -/
def SubSys.build {δ : Type} (s : SubSys δ) (d : Nat) : Step (SubSys δ) :=
  match s.drains[d]? with
  | some (.received msg) =>
    .ok { s with
      sub := s.sub.generateJobID.1,
      drains := s.drains.set d
        (.built { ID := s.sub.generateJobID.2, Task := { msg := msg }, Priority := 0,
                  Attempts := 0 }),
      built := s.built ++
        [{ ID := s.sub.generateJobID.2, Task := { msg := msg }, Priority := 0, Attempts := 0 }] }
  | _ => .blocked

/-- Drain goroutine `d` holding a job: the one call
`s.WorkerPool.SubmitJob(job)`, whose error is dropped; then back to the head
of the loop. -/
def SubSys.submit {δ : Type} (s : SubSys δ) (d : Nat) : Step (SubSys δ) :=
  match s.drains[d]? with
  | some (.built job) =>
    match s.sub.WorkerPool.SubmitJob job with
    | .panic m => .panic m
    | .blocked => .blocked
    | .ok (p, none) =>
      .ok { s with sub := { s.sub with WorkerPool := p },
                   drains := s.drains.set d .waiting,
                   accepted := s.accepted ++ [job] }
    | .ok (p, some _) =>
      .ok { s with sub := { s.sub with WorkerPool := p },
                   drains := s.drains.set d .waiting }
  | _ => .blocked

/-- Worker `i` at `for job := range w.JobsChannel`. -/
def SubSys.take {δ : Type} (s : SubSys δ) (i : Nat) : Step (SubSys δ) :=
  match s.workers[i]? with
  | some .idle =>
    match s.sub.WorkerPool.JobsChannel.buf with
    | job :: rest =>
      .ok { s with
        sub := { s.sub with WorkerPool := { s.sub.WorkerPool with
          JobsChannel := { s.sub.WorkerPool.JobsChannel with buf := rest } } },
        workers := s.workers.set i (.running job) }
    | [] =>
      if s.sub.WorkerPool.JobsChannel.closed then
        .ok { s with workers := s.workers.set i .stopped }
      else .blocked
  | _ => .blocked

/-- Worker `i` holding a job: `output, err := job.Task.Execute()`, which runs
the handler once on the job's message. -/
def SubSys.exec {δ : Type} (s : SubSys δ) (i : Nat) : Step (SubSys δ) :=
  match s.workers[i]? with
  | some (.running job) =>
    .ok { s with workers := s.workers.set i (.executed job),
                 handled := s.handled ++ [job.Task.msg] }
  | _ => .blocked

/-- Worker `i` after `Execute`: the blocking send
`w.ResultsChannel <- Result{...}`. -/
def SubSys.emit {δ : Type} (s : SubSys δ) (i : Nat) : Step (SubSys δ) :=
  match s.workers[i]? with
  | some (.executed job) =>
    if s.sub.WorkerPool.ResultsChannel.closed then .panic "send on closed channel"
    else if s.sub.WorkerPool.ResultsChannel.buf.length < s.sub.WorkerPool.ResultsChannel.cap then
      .ok { s with
        sub := { s.sub with WorkerPool := { s.sub.WorkerPool with
          ResultsChannel := { s.sub.WorkerPool.ResultsChannel with
            buf := s.sub.WorkerPool.ResultsChannel.buf ++ [resultOf job] } } },
        workers := s.workers.set i (.emitted job),
        emitted := s.emitted ++ [resultOf job] }
    else .blocked
  | _ => .blocked

/-- Worker `i` after its send: `w.wg.Done()`, then back to the head of the
loop. -/
def SubSys.done {δ : Type} (s : SubSys δ) (i : Nat) : Step (SubSys δ) :=
  match s.workers[i]? with
  | some (.emitted _) =>
    if s.sub.WorkerPool.wg - 1 < 0 then .panic "sync: negative WaitGroup counter"
    else
      .ok { s with
        sub := { s.sub with WorkerPool := { s.sub.WorkerPool with
          wg := s.sub.WorkerPool.wg - 1 } },
        workers := s.workers.set i .idle }
  | _ => .blocked

/-- The steps around one subscriber.  Nothing in
`pubsub_with_worker_pool.go` receives from the pool's `ResultsChannel`, so
there is no step that does. -/
inductive SubAction (δ : Type) where
  | start
  | deliver (msg : Message δ)
  | recv (d : Nat)
  | build (d : Nat)
  | submit (d : Nat)
  | take (i : Nat)
  | exec (i : Nat)
  | emit (i : Nat)
  | done (i : Nat)
  | close
deriving DecidableEq, Repr

/-- One step around a subscriber. -/
def SubSys.step {δ : Type} (s : SubSys δ) : SubAction δ → Step (SubSys δ)
  | .start => .ok s.start
  | .deliver msg => s.deliver msg
  | .recv d => s.recv d
  | .build d => s.build d
  | .submit d => s.submit d
  | .take i => s.take i
  | .exec i => s.exec i
  | .emit i => s.emit i
  | .done i => s.done i
  | .close => s.Close

/-- Runs a schedule of steps; `none` when one of them is blocked or panics. -/
def SubSys.run {δ : Type} (s : SubSys δ) : List (SubAction δ) → Option (SubSys δ)
  | [] => some s
  | a :: rest =>
    match s.step a with
    | .ok s' => SubSys.run s' rest
    | _ => none

/-- The messages of the jobs that workers have taken and whose handler has
not run yet. -/
def SubWorker.pending {δ : Type} : SubWorker δ → List (Message δ)
  | .running job => [job.Task.msg]
  | _ => []

/-- Is the handler done for the job the worker holds while its `Result` is
not sent yet? -/
def SubWorker.isExecuted {δ : Type} : SubWorker δ → Nat
  | .executed _ => 1
  | _ => 0

/-- Is the worker between sending its `Result` and `wg.Done()`? -/
def SubWorker.isEmitted {δ : Type} : SubWorker δ → Nat
  | .emitted _ => 1
  | _ => 0

/-- The messages a drain goroutine holds: received, not yet submitted. -/
def Drain.held {δ : Type} : Drain δ → List (Message δ)
  | .received msg => [msg]
  | .built job => [job.Task.msg]
  | _ => []

/-- The message a drain goroutine has received and built no job for yet. -/
def Drain.unbuilt {δ : Type} : Drain δ → List (Message δ)
  | .received msg => [msg]
  | _ => []

/-- Sum of a count over a list. -/
def sumOver {α : Type} (f : α → Nat) : List α → Nat
  | [] => 0
  | x :: xs => f x + sumOver f xs

/-- Concatenation of the lists a function gives for the elements of a list. -/
def gather {α β : Type} (f : α → List β) : List α → List β
  | [] => []
  | x :: xs => f x ++ gather f xs

/-! ## Subscribe and Unsubscribe of the worker-pool broker -/

/-- The broker of `pubsub/pubsub_with_worker_pool.go` with the goroutines of
its subscribers: a topic points to `Subscriber` objects by index into `subs`. -/
structure Broker (δ : Type) where
  topics : List (String × Topic)
  subs : List (SubSys δ)
deriving DecidableEq, Repr

/-- The `PubSub` a `Broker` holds: the `Subscriber` objects without their
goroutines. -/
def Broker.toPubSub {δ : Type} (b : Broker δ) : PubSub δ :=
  { topics := b.topics, heap := b.subs.map (fun x => x.sub) }

/-- Writes through the pointer `topic` that `ps.topics[topicName]` holds. -/
def storeTopic : List (String × Topic) → String → Topic → List (String × Topic)
  | [], name, t => [(name, t)]
  | (k, t0) :: rest, name, t =>
    if k = name then (k, t) :: rest else (k, t0) :: storeTopic rest name t

/-- Go `PubSub.Subscribe(topicName, subscriber)` of the worker-pool broker:
the pointer is appended to the topic's subscribers, then `subscriber.start()`
is called. -/
def Subscribe {δ : Type} (b : Broker δ) (topicName : String) (subscriber : Nat) :
    Step (Broker δ × Option String) :=
  match lookupTopic b.topics topicName with
  | none => .ok (b, some "Topic does not exist")
  | some topic =>
    match b.subs[subscriber]? with
    | none => .panic "invalid memory address or nil pointer dereference"
    | some x =>
      .ok ({ b with
        topics := storeTopic b.topics topicName
          { topic with subscribers := topic.subscribers ++ [subscriber] },
        subs := b.subs.set subscriber x.start }, none)

/-- The loop of `Unsubscribe`: every pointer whose subscriber has another ID
is kept; `removedSubscriber` is overwritten at every match. -/
def unsubscribeLoop {δ : Type} (subs : List (SubSys δ)) (subscriberId : String) :
    List Nat → List Nat × Option Nat → Step (List Nat × Option Nat)
  | [], acc => .ok acc
  | p :: rest, (updated, removed) =>
    match subs[p]? with
    | none => .panic "invalid memory address or nil pointer dereference"
    | some x =>
      if x.sub.id ≠ subscriberId then
        unsubscribeLoop subs subscriberId rest (updated ++ [p], removed)
      else unsubscribeLoop subs subscriberId rest (updated, some p)

/-- Go `PubSub.Unsubscribe(topicName, subscriberId)` of the worker-pool
broker: the filtered list is stored, then `removedSubscriber.Close()`. -/
def Unsubscribe {δ : Type} (b : Broker δ) (topicName subscriberId : String) :
    Step (Broker δ × Option String) :=
  match lookupTopic b.topics topicName with
  | none => .ok (b, some "Topic does not exist")
  | some topic =>
    match unsubscribeLoop b.subs subscriberId topic.subscribers ([], none) with
    | .panic m => .panic m
    | .blocked => .blocked
    | .ok (updated, removed) =>
      match removed with
      | none =>
        .ok ({ b with
          topics := storeTopic b.topics topicName { topic with subscribers := updated } },
          some "Susbcriber not found")
      | some p =>
        match b.subs[p]? with
        | none => .panic "invalid memory address or nil pointer dereference"
        | some x =>
          match x.Close with
          | .panic m => .panic m
          | .blocked => .blocked
          | .ok x' =>
            .ok ({ b with
              topics := storeTopic b.topics topicName { topic with subscribers := updated },
              subs := b.subs.set p x' }, none)

/-- The broker after `NewPubSub()`, `CreateTopic("gaming")`,
`CreateTopic("sports")` and `sub1 := NewSubscriber("analytics", h)`. -/
def twoTopicBroker : Broker String :=
  { topics := [("gaming", { name := "gaming", subscribers := [] }),
               ("sports", { name := "sports", subscribers := [] })],
    subs := [SubSys.new "analytics"] }

/-- One step of subscriber `p` of a broker. -/
def Broker.stepSub {δ : Type} (b : Broker δ) (p : Nat) (a : SubAction δ) : Step (Broker δ) :=
  match b.subs[p]? with
  | none => .blocked
  | some x =>
    match x.step a with
    | .ok x' => .ok { b with subs := b.subs.set p x' }
    | .blocked => .blocked
    | .panic m => .panic m

/-- The broker after `Subscribe("gaming", sub1)`, one delivery to `sub1` that
its drain loop has not received yet, and `Unsubscribe("gaming", "analytics")`:
the delivery channel and the job queue are closed, the message is still
buffered, the drain goroutine is at the head of its loop. -/
def closedSubscriberDemo : Broker String :=
  { topics := [("gaming", { name := "gaming", subscribers := [] }),
               ("sports", { name := "sports", subscribers := [] })],
    subs := [{ sub := { id := "analytics",
                        channel := { buf := [⟨"gaming", "m1"⟩], cap := 10, closed := true },
                        WorkerPool := { NoOfWorkers := 5,
                                        JobsChannel := { buf := [], cap := 50, closed := true },
                                        ResultsChannel := { buf := [], cap := 50, closed := false },
                                        wg := 0 },
                        jobIDCounter := 0 },
               workers := List.replicate 5 SubWorker.idle,
               drains := [Drain.waiting],
               received := [], built := [], accepted := [], handled := [], emitted := [] }] }

/-! ## SubmitJob statement by statement

`SubmitJob` is `select { case w.JobsChannel <- job: w.wg.Add(1); return nil;
default: return error }`.  Here the `select` and the `wg.Add(1)` are two steps,
with the steps of other goroutines possible in between, and the send of the
`select` also succeeds by handing the job to a worker that is blocked in the
receive of its loop, which is the only way it succeeds on a queue of
capacity 0.
-/

/-- A pool with its goroutines, and the number of `SubmitJob` calls whose send
was done and whose `wg.Add(1)` has not run yet. -/
structure Conc (τ ω : Type) where
  sys : Sys τ ω
  adding : Nat
deriving DecidableEq, Repr

/-- A pool right after `NewWorkerPool`. -/
def Conc.new {τ ω : Type} (numWorkers : Int) (jobQueuesize : Nat) : Conc τ ω :=
  { sys := Sys.new numWorkers jobQueuesize, adding := 0 }

/-- The `select` of `SubmitJob`.  `parked` names the worker that the caller
finds blocked in the receive `for job := range w.JobsChannel`, if it finds
one; a worker can only be blocked there on an empty queue.  The send case is
taken when the buffer has a free slot or when such a worker takes the job
directly; otherwise, also when the named worker is not blocked there, the
`default` case returns the error.  The send case on a closed channel panics. -/
def Conc.send {τ ω : Type} (c : Conc τ ω) (job : Job τ) (parked : Option Nat) :
    Step (Conc τ ω × Option String) :=
  if c.sys.pool.JobsChannel.closed then .panic "send on closed channel"
  else if c.sys.pool.JobsChannel.buf.length < c.sys.pool.JobsChannel.cap then
    .ok ({ sys := { c.sys with
             pool := { c.sys.pool with JobsChannel :=
               { c.sys.pool.JobsChannel with buf := c.sys.pool.JobsChannel.buf ++ [job] } },
             accepted := c.sys.accepted ++ [job] },
           adding := c.adding + 1 }, none)
  else
    match parked with
    | none => .ok (c, some "job queue is full or pool is shut down")
    | some i =>
      match c.sys.pool.JobsChannel.buf, c.sys.workers[i]? with
      | [], some .idle =>
        .ok ({ sys := { c.sys with
                 workers := c.sys.workers.set i (Worker.running job),
                 accepted := c.sys.accepted ++ [job] },
               adding := c.adding + 1 }, none)
      | _, _ => .ok (c, some "job queue is full or pool is shut down")

/-- The statement `w.wg.Add(1)` of a `SubmitJob` call whose send was done;
the call then returns nil. -/
def Conc.add {τ ω : Type} (c : Conc τ ω) : Step (Conc τ ω) :=
  if 0 < c.adding then
    .ok { sys := { c.sys with pool := { c.sys.pool with wg := c.sys.pool.wg + 1 } },
          adding := c.adding - 1 }
  else .blocked

/-- Go `WorkerPool.SubmitJob` when no other goroutine takes a step between its
two statements. -/
def Conc.SubmitJob {τ ω : Type} (c : Conc τ ω) (job : Job τ) (parked : Option Nat) :
    Step (Conc τ ω × Option String) :=
  match c.send job parked with
  | .ok (c1, none) =>
    match c1.add with
    | .ok c2 => .ok (c2, none)
    | .blocked => .blocked
    | .panic m => .panic m
  | .ok (c1, some e) => .ok (c1, some e)
  | .blocked => .blocked
  | .panic m => .panic m

/-- The steps around a pool, `SubmitJob` being two of them. -/
inductive ConcAction (τ : Type) where
  | start
  | send (job : Job τ) (parked : Option Nat)
  | add
  | take (i : Nat)
  | emit (i : Nat)
  | done (i : Nat)
  | collect
  | shutdown
deriving DecidableEq, Repr

/-- Lifts a step of the pool and its workers. -/
def Conc.lift {τ ω : Type} (c : Conc τ ω) (r : Step (Sys τ ω)) :
    Step (Conc τ ω × Option String) :=
  match r with
  | .ok s' => .ok ({ c with sys := s' }, none)
  | .blocked => .blocked
  | .panic m => .panic m

/-- One step, with the error a `SubmitJob` returned from its `default` case. -/
def Conc.step {τ ω : Type} [Task τ ω] (c : Conc τ ω) :
    ConcAction τ → Step (Conc τ ω × Option String)
  | .start => .ok ({ c with sys := c.sys.Start }, none)
  | .send job parked => c.send job parked
  | .add =>
    match c.add with
    | .ok c' => .ok (c', none)
    | .blocked => .blocked
    | .panic m => .panic m
  | .take i => c.lift (c.sys.take i)
  | .emit i => c.lift (c.sys.emit i)
  | .done i => c.lift (c.sys.done i)
  | .collect => c.lift c.sys.collect
  | .shutdown => c.lift c.sys.Shutdown

/-- Runs a schedule: `none` when one of its steps cannot be taken in the state
it meets or panics; otherwise the final state and the errors returned. -/
def Conc.run {τ ω : Type} [Task τ ω] (c : Conc τ ω) :
    List (ConcAction τ) → Option (Conc τ ω × List (Option String))
  | [] => some (c, [])
  | a :: rest =>
    match c.step a with
    | .ok (c', err) =>
      match Conc.run c' rest with
      | some (c'', errs) => some (c'', err :: errs)
      | none => none
    | _ => none

/-- The pool `NewWorkerPool(1, 0)` after `Start()`: an unbuffered job queue and
one worker at the receive of its loop. -/
def unbufferedDemo : Conc SquareTask Int :=
  { sys := { pool := { NoOfWorkers := 1,
                       JobsChannel := { buf := [], cap := 0, closed := false },
                       ResultsChannel := { buf := [], cap := 0, closed := false },
                       wg := 0 },
             workers := [Worker.idle], accepted := [], emitted := [] },
    adding := 0 }

/-- The state `unbufferedDemo` after `SubmitJob` handed the job for 3 to the
worker. -/
def unbufferedHanded : Conc SquareTask Int :=
  { sys := { pool := { NoOfWorkers := 1,
                       JobsChannel := { buf := [], cap := 0, closed := false },
                       ResultsChannel := { buf := [], cap := 0, closed := false },
                       wg := 1 },
             workers := [Worker.running (squareJob 3)], accepted := [squareJob 3],
             emitted := [] },
    adding := 0 }

/-- The started pool `NewWorkerPool(1, 1)` after the send of a `SubmitJob` and
the worker's take, execute and send, before the `wg.Add(1)` of that
`SubmitJob`: the counter is still 0 and the worker is at `wg.Done()`. -/
def doneBeforeAddDemo : Conc SquareTask Int :=
  { sys := { pool := { NoOfWorkers := 1,
                       JobsChannel := { buf := [], cap := 1, closed := false },
                       ResultsChannel :=
                         { buf := [{ JobID := 3, Err := none, Output := some 9 }], cap := 1,
                           closed := false },
                       wg := 0 },
             workers := [Worker.emitted (squareJob 3)], accepted := [squareJob 3],
             emitted := [{ JobID := 3, Err := none, Output := some 9 }] },
    adding := 1 }

/-- The message every demo run of a subscriber delivers. -/
def demoMsg : Message String := ⟨"gaming", "m"⟩

/-- The job a drain loop builds for `demoMsg` at counter value `k`. -/
def demoJob (k : Int) : Job (ProcessMessageTask String) :=
  { ID := k, Task := { msg := demoMsg }, Priority := 0, Attempts := 0 }

/-- One message goes all the way: it is delivered, drained into a job, the job
is accepted, worker 0 takes it, runs the handler, sends the `Result` and calls
`wg.Done()`. -/
def handleOne : List (SubAction String) :=
  [.deliver demoMsg, .recv 0, .build 0, .submit 0, .take 0, .exec 0, .emit 0, .done 0]

/-- A message goes as far as worker `i` having run the handler on it. -/
def handleUpToSend (i : Nat) : List (SubAction String) :=
  [.deliver demoMsg, .recv 0, .build 0, .submit 0, .take i, .exec i]

/-- The subscriber "analytics", started once, after 50 messages went all the
way and worker 0 has run the handler on the 51st: the result queue is full. -/
def resultsFullDemo : SubSys String :=
  { sub := { id := "analytics",
             channel := { buf := [], cap := 10, closed := false },
             WorkerPool := { NoOfWorkers := 5,
                             JobsChannel := { buf := [], cap := 50, closed := false },
                             ResultsChannel :=
                               { buf := (List.range 50).map
                                   (fun (k : Nat) => ⟨(k : Int) + 1, none, none⟩),
                                 cap := 50, closed := false },
                             wg := 1 },
             jobIDCounter := 51 },
    workers := [.executed (demoJob 51), .idle, .idle, .idle, .idle],
    drains := [.waiting],
    received := List.replicate 51 demoMsg,
    built := (List.range 51).map (fun (k : Nat) => demoJob ((k : Int) + 1)),
    accepted := (List.range 51).map (fun (k : Nat) => demoJob ((k : Int) + 1)),
    handled := List.replicate 51 demoMsg,
    emitted := (List.range 50).map (fun (k : Nat) => ⟨(k : Int) + 1, none, none⟩) }

/-- The subscriber of `resultsFullDemo` after four more messages, on which
the workers 1 to 4 have run the handler, a 56th message whose job is queued,
and `Close()`, called by `Unsubscribe`: the job queue is shut with job 56 in
it and all five workers are at the send of their `Result`. -/
def shutdownStuckDemo : SubSys String :=
  { sub := { id := "analytics",
             channel := { buf := [], cap := 10, closed := true },
             WorkerPool := { NoOfWorkers := 5,
                             JobsChannel := { buf := [demoJob 56], cap := 50, closed := true },
                             ResultsChannel :=
                               { buf := (List.range 50).map
                                   (fun (k : Nat) => ⟨(k : Int) + 1, none, none⟩),
                                 cap := 50, closed := false },
                             wg := 6 },
             jobIDCounter := 56 },
    workers := [.executed (demoJob 51), .executed (demoJob 52), .executed (demoJob 53),
                .executed (demoJob 54), .executed (demoJob 55)],
    drains := [.waiting],
    received := List.replicate 56 demoMsg,
    built := (List.range 56).map (fun (k : Nat) => demoJob ((k : Int) + 1)),
    accepted := (List.range 56).map (fun (k : Nat) => demoJob ((k : Int) + 1)),
    handled := List.replicate 55 demoMsg,
    emitted := (List.range 50).map (fun (k : Nat) => ⟨(k : Int) + 1, none, none⟩) }

end Pool

namespace OffsetBroker

variable {δ : Type}

/-! ## The topic registry -/

theorem lookupTopic_storeTopic_same (ts : List (String × Topic δ)) (n : String)
    (t t' : Topic δ) (h : lookupTopic ts n = some t) :
    lookupTopic (storeTopic ts n t') n = some t' := by
  induction ts with
  | nil => simp [lookupTopic] at h
  | cons p rest ih =>
    obtain ⟨k, x⟩ := p
    by_cases hk : k = n
    · simp [lookupTopic, storeTopic, hk]
    · simp only [lookupTopic, hk, if_false] at h
      simp [lookupTopic, storeTopic, hk, ih h]

theorem lookupTopic_storeTopic_other (ts : List (String × Topic δ)) (n n' : String)
    (t' : Topic δ) (h : n' ≠ n) :
    lookupTopic (storeTopic ts n t') n' = lookupTopic ts n' := by
  induction ts with
  | nil => simp [lookupTopic, storeTopic]
  | cons p rest ih =>
    obtain ⟨k, x⟩ := p
    by_cases hk : k = n
    · subst hk
      have hk' : ¬ k = n' := fun e => h e.symm
      simp [lookupTopic, storeTopic, hk']
    · by_cases hk' : k = n'
      · subst hk'
        simp [lookupTopic, storeTopic, hk]
      · simp [lookupTopic, storeTopic, hk, hk', ih]

theorem lookupTopic_append_some (ts : List (String × Topic δ)) (n n' : String)
    (t x : Topic δ) (h : lookupTopic ts n' = some x) :
    lookupTopic (ts ++ [(n, t)]) n' = some x := by
  induction ts with
  | nil => simp [lookupTopic] at h
  | cons p rest ih =>
    obtain ⟨k, y⟩ := p
    by_cases hk : k = n'
    · simpa [lookupTopic, hk] using h
    · simp only [lookupTopic, hk, if_false] at h
      simp [lookupTopic, hk, ih h]

theorem lookupTopic_append_none (ts : List (String × Topic δ)) (n n' : String)
    (t : Topic δ) (h : lookupTopic ts n' = none) :
    lookupTopic (ts ++ [(n, t)]) n' = if n = n' then some t else none := by
  induction ts with
  | nil => simp [lookupTopic]
  | cons p rest ih =>
    obtain ⟨k, y⟩ := p
    by_cases hk : k = n'
    · simp [lookupTopic, hk] at h
    · simp only [lookupTopic, hk, if_false] at h
      simp [lookupTopic, hk, ih h]

theorem storeTopic_absent (ts : List (String × Topic δ)) (n : String) (t' : Topic δ)
    (h : lookupTopic ts n = none) : storeTopic ts n t' = ts := by
  induction ts with
  | nil => rfl
  | cons p rest ih =>
    obtain ⟨k, y⟩ := p
    by_cases hk : k = n
    · simp [lookupTopic, hk] at h
    · simp only [lookupTopic, hk, if_false] at h
      simp [storeTopic, hk, ih h]

/-! ## Each method, by whether the topic exists -/

theorem CreateTopic_of_some {s : State δ} {n : String} {t : Topic δ} (h : s.topic n = some t) :
    CreateTopic s n = .ok (s, some "Topic already exists") := by
  unfold State.topic at h
  simp [CreateTopic, h]

theorem CreateTopic_of_none {s : State δ} {n : String} (h : s.topic n = none) :
    CreateTopic s n =
      .ok (⟨⟨s.ps.topics ++ [(n, ⟨n, [], [], 0⟩)]⟩, s.heap⟩, none) := by
  unfold State.topic at h
  simp [CreateTopic, h]

theorem Subscribe_of_none {s : State δ} {n : String} (id : String) (ch : Option Nat)
    (h : s.topic n = none) :
    Subscribe s n id ch = .ok (s, some "Topic does not exist") := by
  unfold State.topic at h
  simp [Subscribe, h]

theorem Subscribe_of_some {s : State δ} {n : String} {t : Topic δ} (id : String)
    (ch : Option Nat) (h : s.topic n = some t) :
    Subscribe s n id ch =
      .ok (⟨⟨storeTopic s.ps.topics n
        { t with subscriptions := t.subscriptions ++ [⟨id, ch⟩] }⟩, s.heap⟩, none) := by
  unfold State.topic at h
  simp [Subscribe, h]

theorem Unsubscribe_of_none {s : State δ} {n : String} (id : String) (h : s.topic n = none) :
    Unsubscribe s n id = .ok (s, some "Topic does not exist") := by
  unfold State.topic at h
  simp [Unsubscribe, h]

theorem Publish_of_none {s : State δ} {n : String} (data : δ) (h : s.topic n = none) :
    Publish s n data = .ok (s, some "Topic does not exist") := by
  unfold State.topic at h
  simp [Publish, h]

theorem ResetOffset_of_none {s : State δ} {n : String} (id : String) (k : Int)
    (h : s.topic n = none) :
    ResetOffset s n id k = .ok (s, some "Topic does not exist") := by
  unfold State.topic at h
  simp [ResetOffset, h]

theorem Publish_of_some {s : State δ} {n : String} {t : Topic δ} (data : δ)
    (h : s.topic n = some t) :
    Publish s n data =
      match publishLoop ⟨n, data, t.nextOffset⟩ t.subscriptions s.heap with
      | .panic m => .panic m
      | .ok heap' =>
        .ok (⟨⟨storeTopic s.ps.topics n
          { t with messages := t.messages ++ [⟨n, data, t.nextOffset⟩],
                   nextOffset := t.nextOffset + 1 }⟩, heap'⟩, none) := by
  unfold State.topic at h
  simp [Publish, h]

theorem Unsubscribe_of_some {s : State δ} {n : String} {t : Topic δ} (id : String)
    (h : s.topic n = some t) :
    Unsubscribe s n id =
      match (unsubscribeLoop id t.subscriptions ([], none)).2 with
      | some c =>
        match closeChan s.heap c with
        | .panic m => .panic m
        | .ok heap' =>
          .ok (⟨⟨storeTopic s.ps.topics n
            { t with subscriptions := (unsubscribeLoop id t.subscriptions ([], none)).1 }⟩,
            heap'⟩, none)
      | none =>
        .ok (⟨⟨storeTopic s.ps.topics n
          { t with subscriptions := (unsubscribeLoop id t.subscriptions ([], none)).1 }⟩,
          s.heap⟩, some "Subscriber not found") := by
  unfold State.topic at h
  simp [Unsubscribe, h]

theorem ResetOffset_of_some {s : State δ} {n : String} {t : Topic δ} (id : String) (k : Int)
    (h : s.topic n = some t) :
    ResetOffset s n id k =
      match findChannel id t.subscriptions with
      | none => .ok (s, some "Subscriber not found")
      | some target =>
        match replayLoop t.messages target (((t.messages.length : Int) - k).toNat + 1) k s.heap with
        | .panic m => .panic m
        | .ok heap' => .ok (⟨s.ps, heap'⟩, none) := by
  unfold State.topic at h
  simp [ResetOffset, h]

/-! ## What a step does to the logs -/

/-- A successful `Publish` to an existing topic extends that topic's log by
the new message and touches no other topic. -/
theorem Publish_topic {s s' : State δ} {n : String} {t : Topic δ} {data : δ}
    {err : Option String} (ht : s.topic n = some t) (h : Publish s n data = .ok (s', err)) :
    err = none ∧
    s'.topic n = some { t with messages := t.messages ++ [⟨n, data, t.nextOffset⟩],
                               nextOffset := t.nextOffset + 1 } ∧
    ∀ name, name ≠ n → s'.topic name = s.topic name := by
  rw [Publish_of_some data ht] at h
  split at h
  · exact absurd h (by simp)
  · simp only [Res.ok.injEq, Prod.mk.injEq] at h
    obtain ⟨hs, he⟩ := h
    subst hs
    refine ⟨he.symm, ?_, ?_⟩
    · exact lookupTopic_storeTopic_same _ _ _ _ ht
    · intro name hne
      exact lookupTopic_storeTopic_other _ _ _ _ hne

theorem logFrame_of_topic_eq {s s' : State δ} {name : String}
    (h : s'.topic name = s.topic name) : LogFrame s s' name := by
  cases hs : s.topic name with
  | none => exact Or.inl ⟨hs, by rw [h, hs]⟩
  | some t => exact Or.inr (Or.inr ⟨t, t, hs, by rw [h, hs], rfl, rfl⟩)

theorem logFrame_of_store {s : State δ} {n : String} {t t' : Topic δ}
    (ht : s.topic n = some t) (hm : t'.messages = t.messages)
    (ho : t'.nextOffset = t.nextOffset) (heap' : List (Chan δ)) (name : String) :
    LogFrame s ⟨⟨storeTopic s.ps.topics n t'⟩, heap'⟩ name := by
  by_cases hn : name = n
  · subst hn
    exact Or.inr (Or.inr ⟨t, t', ht, lookupTopic_storeTopic_same _ _ _ _ ht, hm, ho⟩)
  · exact logFrame_of_topic_eq (lookupTopic_storeTopic_other _ _ _ _ hn)

theorem CreateTopic_logFrame {s s' : State δ} {n : String} {err : Option String}
    (h : CreateTopic s n = .ok (s', err)) (name : String) : LogFrame s s' name := by
  cases hn : s.topic n with
  | some t =>
    rw [CreateTopic_of_some hn] at h
    simp only [Res.ok.injEq, Prod.mk.injEq] at h
    rw [← h.1]
    exact logFrame_of_topic_eq rfl
  | none =>
    rw [CreateTopic_of_none hn] at h
    simp only [Res.ok.injEq, Prod.mk.injEq] at h
    rw [← h.1]
    cases hs : s.topic name with
    | some x =>
      exact Or.inr (Or.inr ⟨x, x, hs, lookupTopic_append_some _ _ _ _ _ hs, rfl, rfl⟩)
    | none =>
      have hl := lookupTopic_append_none s.ps.topics n name ⟨n, [], [], 0⟩ hs
      by_cases e : n = name
      · subst e
        exact Or.inr (Or.inl ⟨hs, by simpa [State.topic] using hl⟩)
      · exact Or.inl ⟨hs, by simpa [State.topic, e] using hl⟩

theorem Subscribe_logFrame {s s' : State δ} {n id : String} {ch : Option Nat}
    {err : Option String} (h : Subscribe s n id ch = .ok (s', err)) (name : String) :
    LogFrame s s' name := by
  cases hn : s.topic n with
  | none =>
    rw [Subscribe_of_none id ch hn] at h
    simp only [Res.ok.injEq, Prod.mk.injEq] at h
    rw [← h.1]
    exact logFrame_of_topic_eq rfl
  | some t =>
    rw [Subscribe_of_some id ch hn] at h
    simp only [Res.ok.injEq, Prod.mk.injEq] at h
    rw [← h.1]
    exact logFrame_of_store hn (by rfl) (by rfl) _ _

theorem Unsubscribe_logFrame {s s' : State δ} {n id : String}
    {err : Option String} (h : Unsubscribe s n id = .ok (s', err)) (name : String) :
    LogFrame s s' name := by
  cases hn : s.topic n with
  | none =>
    rw [Unsubscribe_of_none id hn] at h
    simp only [Res.ok.injEq, Prod.mk.injEq] at h
    rw [← h.1]
    exact logFrame_of_topic_eq rfl
  | some t =>
    rw [Unsubscribe_of_some id hn] at h
    split at h
    · split at h
      · exact absurd h (by simp)
      · simp only [Res.ok.injEq, Prod.mk.injEq] at h
        rw [← h.1]
        exact logFrame_of_store hn (by rfl) (by rfl) _ _
    · simp only [Res.ok.injEq, Prod.mk.injEq] at h
      rw [← h.1]
      exact logFrame_of_store hn (by rfl) (by rfl) _ _

theorem ResetOffset_ps {s s' : State δ} {n id : String} {k : Int}
    {err : Option String} (h : ResetOffset s n id k = .ok (s', err)) : s'.ps = s.ps := by
  cases hn : s.topic n with
  | none =>
    rw [ResetOffset_of_none id k hn] at h
    simp only [Res.ok.injEq, Prod.mk.injEq] at h
    rw [← h.1]
  | some t =>
    rw [ResetOffset_of_some id k hn] at h
    split at h
    · simp only [Res.ok.injEq, Prod.mk.injEq] at h
      rw [← h.1]
    · split at h
      · exact absurd h (by simp)
      · simp only [Res.ok.injEq, Prod.mk.injEq] at h
        rw [← h.1]

/-- Every step other than `Publish` leaves each existing log and `nextOffset`
as they were; `CreateTopic` may add a topic with an empty log. -/
theorem step_log_frame {s s' : State δ} {op : Op δ} {err : Option String}
    (h : step s op = .ok (s', err)) (hop : ∀ n d, op ≠ .publish n d) (name : String) :
    LogFrame s s' name := by
  cases op with
  | createTopic n => exact CreateTopic_logFrame h name
  | subscribe n id ch =>
    cases ch with
    | none => exact Subscribe_logFrame h name
    | some c =>
      simp only [step] at h
      split at h
      · exact Subscribe_logFrame h name
      · exact absurd h (by simp)
  | unsubscribe n id => exact Unsubscribe_logFrame h name
  | publish n d => exact absurd rfl (hop n d)
  | resetOffset n id k =>
    have := ResetOffset_ps h
    exact logFrame_of_topic_eq (by unfold State.topic; rw [this])
  | makeChan cap =>
    simp only [step, Res.ok.injEq, Prod.mk.injEq] at h
    rw [← h.1]
    exact logFrame_of_topic_eq rfl
  | receive c =>
    simp only [step, Res.ok.injEq, Prod.mk.injEq] at h
    rw [← h.1]
    exact logFrame_of_topic_eq rfl

/-! ## The log invariant -/

theorem LogOK_append {t : Topic δ} (h : LogOK t) (n : String) (data : δ) :
    LogOK { t with messages := t.messages ++ [⟨n, data, t.nextOffset⟩],
                   nextOffset := t.nextOffset + 1 } := by
  obtain ⟨h1, h2⟩ := h
  constructor
  · simp [List.range_succ, h1, h2]
  · simp [h2]

theorem LogOK_get {t : Topic δ} (h : LogOK t) (i : Nat) (hi : i < t.messages.length) :
    (t.messages.get ⟨i, hi⟩).Offset = (i : Int) := by
  have h1 : (t.messages.map (fun m => m.Offset))[i]?
      = ((List.range t.messages.length).map (fun (i : Nat) => (i : Int)))[i]? := by rw [h.1]
  rw [List.getElem?_map, List.getElem?_map, List.getElem?_range hi,
    List.getElem?_eq_getElem hi] at h1
  simpa using h1

theorem isPublishOk_of_not_publish (name : String) (op : Op δ) (err : Option String)
    (hop : ∀ n d, op ≠ .publish n d) : isPublishOk name (op, err) = false := by
  cases op with
  | publish n d => exact absurd rfl (hop n d)
  | _ => rfl

theorem publishCount_cons (name : String) (e : Op δ × Option String)
    (tr : List (Op δ × Option String)) :
    publishCount name (e :: tr) = publishCount name tr + if isPublishOk name e then 1 else 0 := by
  simp [publishCount, List.countP_cons]

/-- In every reachable state each log has the offsets `0, 1, 2, ...`, and its
length is the number of successful publishes to the topic so far. -/
theorem reach_log_inv {tr : List (Op δ × Option String)} {s : State δ} (h : Reach tr s)
    (name : String) :
    (∀ t, s.topic name = some t → LogOK t ∧ t.messages.length = publishCount name tr) ∧
    (s.topic name = none → publishCount name tr = 0) := by
  induction h with
  | init => simp [initState, NewPubSub, State.topic, lookupTopic, publishCount]
  | @next tr s s' op err hr hstep ih =>
    by_cases hp : ∃ n d, op = .publish n d
    · obtain ⟨n, d, rfl⟩ := hp
      simp only [step] at hstep
      cases hn : s.topic n with
      | none =>
        rw [Publish_of_none d hn] at hstep
        simp only [Res.ok.injEq, Prod.mk.injEq] at hstep
        obtain ⟨hs, he⟩ := hstep
        subst hs; subst he
        have hc : publishCount name ((Op.publish n d, some "Topic does not exist") :: tr)
            = publishCount name tr := by
          simp [publishCount_cons, isPublishOk]
        rw [hc]
        exact ih
      | some t =>
        obtain ⟨he, ht', hother⟩ := Publish_topic hn hstep
        subst he
        by_cases e : name = n
        · subst e
          have hc : publishCount name ((Op.publish name d, none) :: tr)
              = publishCount name tr + 1 := by
            simp [publishCount_cons, isPublishOk]
          obtain ⟨hok, hlen⟩ := ih.1 t hn
          constructor
          · intro t' h'
            rw [ht'] at h'
            cases h'
            exact ⟨LogOK_append hok name d, by simp [hc, hlen]⟩
          · intro h'
            rw [ht'] at h'
            cases h'
        · have hc : publishCount name ((Op.publish n d, none) :: tr)
              = publishCount name tr := by
            have : ¬ n = name := fun x => e x.symm
            simp [publishCount_cons, isPublishOk, this]
          rw [hc, hother name e]
          exact ih
    · have hop : ∀ n d, op ≠ .publish n d := fun n d x => hp ⟨n, d, x⟩
      have hc : publishCount name ((op, err) :: tr) = publishCount name tr := by
        simp [publishCount_cons, isPublishOk_of_not_publish name op err hop]
      rw [hc]
      rcases step_log_frame hstep hop name with ⟨h0, h1⟩ | ⟨h0, h1⟩ | ⟨t, t', h0, h1, hm, ho⟩
      · exact ⟨fun t h' => (by rw [h1] at h'; cases h'), fun _ => ih.2 h0⟩
      · constructor
        · intro t h'
          rw [h1] at h'
          cases h'
          exact ⟨⟨by simp, by simp⟩, by simpa using (ih.2 h0).symm⟩
        · intro h'
          rw [h1] at h'
          cases h'
      · constructor
        · intro x h'
          rw [h1] at h'
          cases h'
          obtain ⟨⟨a, b⟩, hlen⟩ := ih.1 t h0
          exact ⟨⟨by rw [hm]; exact a, by rw [hm, ho]; exact b⟩, by rw [hm]; exact hlen⟩
        · intro h'
          rw [h1] at h'
          cases h'

/-- C1: in every state reachable from `NewPubSub` through `CreateTopic`,
`Subscribe`, `Unsubscribe`, `Publish` and `ResetOffset` (and the clients'
channel makes and receives), each topic's log has `messages[i].Offset = i` at
every index and `nextOffset = len(messages)`; the log's length is the number of
successful publishes so far, so the next successful `Publish`, the n-th, stores
a message with offset `n - 1`; offsets in a log strictly increase with the
index, hence never repeat or decrease. -/
theorem C1_log_offsets_sequential (tr : List (Op δ × Option String)) (s : State δ)
    (hr : Reach tr s) (name : String) (t : Topic δ) (ht : s.topic name = some t) :
    (∀ i (hi : i < t.messages.length), (t.messages.get ⟨i, hi⟩).Offset = (i : Int)) ∧
    t.nextOffset = (t.messages.length : Int) ∧
    t.messages.length = publishCount name tr ∧
    (∀ data s' err, Publish s name data = .ok (s', err) →
      err = none ∧ ∃ t', s'.topic name = some t' ∧
        t'.messages = t.messages ++ [⟨name, data, (publishCount name tr : Int)⟩]) ∧
    (∀ i j (hi : i < t.messages.length) (hj : j < t.messages.length), i < j →
      (t.messages.get ⟨i, hi⟩).Offset < (t.messages.get ⟨j, hj⟩).Offset) := by
  obtain ⟨hok, hlen⟩ := (reach_log_inv hr name).1 t ht
  refine ⟨fun i hi => LogOK_get hok i hi, hok.2, hlen, ?_, ?_⟩
  · intro data s' err h
    obtain ⟨he, ht', _⟩ := Publish_topic ht h
    refine ⟨he, _, ht', ?_⟩
    simp [hok.2, hlen]
  · intro i j hi hj hij
    rw [LogOK_get hok i hi, LogOK_get hok j hj]
    exact_mod_cast hij

/-- A panic-free run from a reachable state ends in a reachable state. -/
theorem reach_run {ops : List (Op δ)} :
    ∀ {tr : List (Op δ × Option String)} {s s' : State δ} {errs : List (Option String)},
      Reach tr s → run s ops = some (s', errs) → Reach ((ops.zip errs).reverse ++ tr) s' := by
  induction ops with
  | nil =>
    intro tr s s' errs hr h
    simp only [run, Option.some.injEq, Prod.mk.injEq] at h
    rw [← h.1]
    simpa using hr
  | cons op ops ih =>
    intro tr s s' errs hr h
    simp only [run] at h
    cases hs : step s op with
    | panic m => rw [hs] at h; simp at h
    | ok r =>
      obtain ⟨s1, err⟩ := r
      rw [hs] at h
      dsimp only at h
      cases hrun : run s1 ops with
      | none => rw [hrun] at h; simp at h
      | some r2 =>
        obtain ⟨s2, errs2⟩ := r2
        rw [hrun] at h
        dsimp only at h
        simp only [Option.some.injEq, Prod.mk.injEq] at h
        obtain ⟨h1, h2⟩ := h
        subst h1; subst h2
        have := ih (Reach.next hr hs) hrun
        simpa using this

theorem scenario1_run :
    run initState scenario1Ops = some (scenario1, [none, none, none, none, none, none]) := by
  decide

theorem scenario1_reach : Reach scenario1Trace scenario1 := by
  simpa [scenario1Trace] using reach_run Reach.init scenario1_run

/-- Witness of C1 on scenario 1: the hypotheses hold there and the theorem
gives offsets 0, 1, 2 and `nextOffset = 3` for the log of "t1". -/
theorem C1_log_offsets_sequential_witness :
    Reach scenario1Trace scenario1 ∧ scenario1.topic "t1" = some scenario1Topic ∧
    ((∀ i (hi : i < scenario1Topic.messages.length),
        (scenario1Topic.messages.get ⟨i, hi⟩).Offset = (i : Int)) ∧
      scenario1Topic.nextOffset = (scenario1Topic.messages.length : Int) ∧
      scenario1Topic.messages.length = publishCount "t1" scenario1Trace ∧
      (∀ data s' err, Publish scenario1 "t1" data = .ok (s', err) →
        err = none ∧ ∃ t', s'.topic "t1" = some t' ∧
          t'.messages = scenario1Topic.messages ++
            [⟨"t1", data, (publishCount "t1" scenario1Trace : Int)⟩]) ∧
      (∀ i j (hi : i < scenario1Topic.messages.length) (hj : j < scenario1Topic.messages.length),
        i < j → (scenario1Topic.messages.get ⟨i, hi⟩).Offset
          < (scenario1Topic.messages.get ⟨j, hj⟩).Offset)) :=
  ⟨scenario1_reach, by decide,
    C1_log_offsets_sequential scenario1Trace scenario1 scenario1_reach "t1" scenario1Topic
      (by decide)⟩

/-! ## Publish: fan-out -/

theorem deliverSpec_closed (msg : Message δ) (heap : List (Chan δ)) (sub : Subscription)
    (c : Nat) :
    ((deliverSpec msg heap sub)[c]?).map (fun q => q.closed)
      = (heap[c]?).map (fun q => q.closed) := by
  unfold deliverSpec
  cases hch : sub.channel with
  | none => rfl
  | some d =>
    dsimp only
    cases hq : heap[d]? with
    | none => rfl
    | some q =>
      dsimp only
      split
      · by_cases hdc : d = c
        · subst hdc
          have hlt : d < heap.length := by
            by_contra hge
            rw [List.getElem?_eq_none (by omega)] at hq
            cases hq
          simp [List.getElem?_set, hlt, hq]
        · simp [List.getElem?_set, hdc]
      · rfl

theorem trySend_eq_deliverSpec (msg : Message δ) (heap : List (Chan δ)) (sub : Subscription)
    (h : ∀ c, sub.channel = some c → (heap[c]?).map (fun q => q.closed) = some false) :
    trySend heap sub.channel msg = .ok (deliverSpec msg heap sub) := by
  cases hch : sub.channel with
  | none => simp [trySend, deliverSpec, hch]
  | some c =>
    have hc := h c hch
    cases hq : heap[c]? with
    | none => rw [hq] at hc; simp at hc
    | some q =>
      rw [hq] at hc
      simp only [Option.map_some', Option.some.injEq] at hc
      simp only [trySend, deliverSpec, hch, hq, hc, Bool.false_eq_true, if_false]
      split <;> rfl

theorem publishLoop_eq_fanOutSpec (msg : Message δ) (subs : List Subscription) :
    ∀ heap : List (Chan δ), AllOpen heap subs →
      publishLoop msg subs heap = .ok (fanOutSpec msg subs heap) := by
  induction subs with
  | nil => intro heap _; rfl
  | cons sub rest ih =>
    intro heap h
    have h1 := trySend_eq_deliverSpec msg heap sub (fun c hc => h sub (by simp) c hc)
    simp only [publishLoop, h1, fanOutSpec, List.foldl_cons]
    apply ih
    intro sub' hs c hc
    rw [deliverSpec_closed]
    exact h sub' (by simp [hs]) c hc

theorem getElem?_lt_of_some {α : Type} {l : List α} {c : Nat} {q : α} (h : l[c]? = some q) :
    c < l.length := by
  by_contra hge
  rw [List.getElem?_eq_none (by omega)] at h
  cases h

theorem deliverSpec_getElem? (msg : Message δ) (heap : List (Chan δ)) (sub : Subscription)
    (c : Nat) :
    (deliverSpec msg heap sub)[c]? =
      (heap[c]?).map (fun q =>
        if sub.channel = some c ∧ q.buf.length < q.cap then { q with buf := q.buf ++ [msg] }
        else q) := by
  cases hch : sub.channel with
  | none => simp [deliverSpec, hch]
  | some d =>
    cases hq : heap[d]? with
    | none =>
      simp only [deliverSpec, hch, hq]
      by_cases hdc : d = c
      · subst hdc; simp [hq]
      · have : ¬ (some d = some c) := by simpa using hdc
        simp [this]
    | some q =>
      simp only [deliverSpec, hch, hq]
      by_cases hdc : d = c
      · subst hdc
        have hlt := getElem?_lt_of_some hq
        by_cases hfree : q.buf.length < q.cap
        · simp [hfree, List.getElem?_set, hlt, hq]
        · simp [hfree, hq]
      · have hne : ¬ (some d = some c) := by simpa using hdc
        split
        · simp [List.getElem?_set, hdc, hne]
        · simp [hne]

theorem subscribedTimes_cons (c : Nat) (sub : Subscription) (rest : List Subscription) :
    subscribedTimes c (sub :: rest)
      = subscribedTimes c rest + if sub.channel = some c then 1 else 0 := by
  simp [subscribedTimes, List.count_cons]

/-- Closed form of the fan-out: channel `c` gains as many copies of the message
as it is subscribed times, up to its free slots. -/
theorem fanOutSpec_getElem? (msg : Message δ) (subs : List Subscription) :
    ∀ (heap : List (Chan δ)) (c : Nat),
      (fanOutSpec msg subs heap)[c]? =
        (heap[c]?).map (fun q =>
          { q with buf := q.buf ++
              List.replicate (min (q.cap - q.buf.length) (subscribedTimes c subs)) msg }) := by
  induction subs with
  | nil =>
    intro heap c
    simp [fanOutSpec, subscribedTimes]
  | cons sub rest ih =>
    intro heap c
    have := ih (deliverSpec msg heap sub) c
    simp only [fanOutSpec, List.foldl_cons] at this ⊢
    rw [this, deliverSpec_getElem?, subscribedTimes_cons]
    cases heap[c]? with
    | none => rfl
    | some q =>
      simp only [Option.map_some', Option.some.injEq]
      by_cases hch : sub.channel = some c
      · by_cases hfree : q.buf.length < q.cap
        · simp only [hch, hfree, and_self, if_true]
          have e : min (q.cap - q.buf.length) (subscribedTimes c rest + 1)
              = min (q.cap - (q.buf.length + 1)) (subscribedTimes c rest) + 1 := by omega
          simp [e, List.replicate_succ]
        · have z : q.cap - q.buf.length = 0 := by omega
          simp [hch, hfree, z]
      · simp [hch]

theorem deliverSpec_length (msg : Message δ) (heap : List (Chan δ)) (sub : Subscription) :
    (deliverSpec msg heap sub).length = heap.length := by
  unfold deliverSpec
  split
  · rfl
  · split
    · rfl
    · split
      · simp
      · rfl

theorem fanOutSpec_length (msg : Message δ) (subs : List Subscription) :
    ∀ heap : List (Chan δ), (fanOutSpec msg subs heap).length = heap.length := by
  induction subs with
  | nil => intro heap; rfl
  | cons sub rest ih =>
    intro heap
    have := ih (deliverSpec msg heap sub)
    simp only [fanOutSpec, List.foldl_cons] at this ⊢
    rw [this, deliverSpec_length]

theorem buffered_set (heap : List (Chan δ)) :
    ∀ (c : Nat) (q q' : Chan δ), heap[c]? = some q →
      buffered (heap.set c q') + q.buf.length = buffered heap + q'.buf.length := by
  induction heap with
  | nil => intro c q q' h; simp at h
  | cons x rest ih =>
    intro c q q' h
    cases c with
    | zero =>
      simp only [List.getElem?_cons_zero, Option.some.injEq] at h
      subst h
      simp [buffered]
      omega
    | succ c =>
      simp only [List.getElem?_cons_succ] at h
      have := ih c q q' h
      simp only [buffered, List.set_cons_succ, List.map_cons, List.sum_cons] at this ⊢
      omega

theorem buffered_deliverSpec (msg : Message δ) (heap : List (Chan δ)) (sub : Subscription) :
    buffered (deliverSpec msg heap sub) ≤ buffered heap + 1 := by
  cases hch : sub.channel with
  | none => simp [deliverSpec, hch]
  | some c =>
    cases hq : heap[c]? with
    | none => simp [deliverSpec, hch, hq]
    | some q =>
      simp only [deliverSpec, hch, hq]
      split
      · have := buffered_set heap c q { q with buf := q.buf ++ [msg] } hq
        simp only [List.length_append, List.length_singleton] at this
        omega
      · omega

theorem buffered_fanOutSpec (msg : Message δ) (subs : List Subscription) :
    ∀ heap : List (Chan δ), buffered (fanOutSpec msg subs heap) ≤ buffered heap + subs.length := by
  induction subs with
  | nil => intro heap; simp [fanOutSpec]
  | cons sub rest ih =>
    intro heap
    have h1 := ih (deliverSpec msg heap sub)
    have h2 := buffered_deliverSpec msg heap sub
    simp only [fanOutSpec, List.foldl_cons, List.length_cons] at h1 ⊢
    omega

/-- C2: for an existing topic whose subscribed channels are all open,
`Publish` returns nil, appends exactly the message
`{Topic: topicName, Data: data, Offset: old nextOffset}` to the log, and then
treats the subscriptions in list order, appending that message to the tail of
a channel with a free slot and leaving a full channel unchanged
(`fanOutSpec`).  In closed form channel `c` gains `min(free slots, number of
subscriptions on c)` copies of that one message, so at most `S` copies are
enqueued over all channels for `S` subscriptions. -/
theorem C2_publish_fan_out (s : State δ) (n : String) (t : Topic δ) (data : δ)
    (ht : s.topic n = some t) (hopen : AllOpen s.heap t.subscriptions) :
    ∃ s', Publish s n data = .ok (s', none) ∧
      s'.topic n = some { t with messages := t.messages ++ [⟨n, data, t.nextOffset⟩],
                                 nextOffset := t.nextOffset + 1 } ∧
      s'.heap = fanOutSpec ⟨n, data, t.nextOffset⟩ t.subscriptions s.heap ∧
      s'.heap.length = s.heap.length ∧
      (∀ (c : Nat) (q : Chan δ), s.heap[c]? = some q →
        s'.heap[c]? = some
          { q with buf := q.buf ++
              List.replicate (min (q.cap - q.buf.length) (subscribedTimes c t.subscriptions)) ⟨n, data, t.nextOffset⟩ }) ∧
      buffered s'.heap ≤ buffered s.heap + t.subscriptions.length := by
  refine ⟨⟨⟨storeTopic s.ps.topics n
      { t with messages := t.messages ++ [⟨n, data, t.nextOffset⟩],
               nextOffset := t.nextOffset + 1 }⟩,
      fanOutSpec ⟨n, data, t.nextOffset⟩ t.subscriptions s.heap⟩, ?_,
    lookupTopic_storeTopic_same _ _ _ _ ht, rfl, ?_, ?_, ?_⟩
  · rw [Publish_of_some data ht, publishLoop_eq_fanOutSpec _ _ _ hopen]
  · exact fanOutSpec_length _ _ _
  · intro c q hq
    rw [fanOutSpec_getElem?, hq]
    rfl
  · exact buffered_fanOutSpec _ _ _

theorem fanOutDemo_open : AllOpen fanOutDemo.heap fanOutDemoTopic.subscriptions := by
  intro sub hs c hc
  simp only [fanOutDemoTopic, List.mem_cons, List.mem_singleton, List.not_mem_nil,
    or_false] at hs
  rcases hs with rfl | rfl <;> cases hc <;> rfl

/-- Witness of C2: publishing "m1" in `fanOutDemo` logs it with offset 1,
drops the copy for the full channel 0 and enqueues the copy for channel 1. -/
theorem C2_publish_fan_out_witness :
    fanOutDemo.topic "t1" = some fanOutDemoTopic ∧
    AllOpen fanOutDemo.heap fanOutDemoTopic.subscriptions ∧
    ∃ s', Publish fanOutDemo "t1" "m1" = .ok (s', none) ∧
      s'.topic "t1" = some { fanOutDemoTopic with
        messages := fanOutDemoTopic.messages ++ [⟨"t1", "m1", fanOutDemoTopic.nextOffset⟩],
        nextOffset := fanOutDemoTopic.nextOffset + 1 } ∧
      s'.heap = fanOutSpec ⟨"t1", "m1", fanOutDemoTopic.nextOffset⟩
        fanOutDemoTopic.subscriptions fanOutDemo.heap ∧
      s'.heap.length = fanOutDemo.heap.length ∧
      (∀ (c : Nat) (q : Chan String), fanOutDemo.heap[c]? = some q →
        s'.heap[c]? = some
          { q with buf := q.buf ++
              List.replicate (min (q.cap - q.buf.length) (subscribedTimes c fanOutDemoTopic.subscriptions)) ⟨"t1", "m1", fanOutDemoTopic.nextOffset⟩ }) ∧
      buffered s'.heap ≤ buffered fanOutDemo.heap + fanOutDemoTopic.subscriptions.length :=
  ⟨by decide, fanOutDemo_open,
    C2_publish_fan_out fanOutDemo "t1" fanOutDemoTopic "m1" (by decide) fanOutDemo_open⟩

theorem fanOutDemo_publish :
    Publish fanOutDemo "t1" "m1" =
      .ok (⟨⟨[("t1", { fanOutDemoTopic with
                messages := [⟨"t1", "m0", 0⟩, ⟨"t1", "m1", 1⟩], nextOffset := 2 })]⟩,
            [{ buf := [⟨"t1", "m0", 0⟩], cap := 1, closed := false },
             { buf := [⟨"t1", "m0", 0⟩, ⟨"t1", "m1", 1⟩], cap := 10, closed := false }]⟩,
           none) := by
  decide

/-! ## Publish after an unsubscribe elsewhere -/

/-- C3 (fails on the code): through the client API alone, a subscriber that
subscribed to topics "a" and "b" and then unsubscribed from "a" leaves its
closed channel registered under "b"; the next `Publish` to the existing topic
"b" does not return nil, it panics with a send on a closed channel. -/
theorem C3_publish_panics_after_unsubscribe_elsewhere :
    (∃ s1 s2 s3 sub s4 s5,
      CreateTopic (initState : State String) "a" = .ok (s1, none) ∧
      CreateTopic s1 "b" = .ok (s2, none) ∧
      NewSubscriber s2 "s1" = (s3, sub) ∧
      sub.SubscribeTo s3 "a" = .ok (s4, none) ∧
      sub.SubscribeTo s4 "b" = .ok (s5, none) ∧
      sub.UnsubscribeFrom s5 "a" = .ok (closedButSubscribed, none)) ∧
    (∃ t, closedButSubscribed.topic "b" = some t) ∧
    Publish closedButSubscribed "b" "x" = .panic "send on closed channel" := by
  refine ⟨⟨_, _, _, _, _, _, rfl, rfl, rfl, rfl, rfl, ?_⟩, ⟨_, rfl⟩, ?_⟩
  · decide
  · decide

/-! ## ResetOffset: replay -/

theorem set_eq_self_of_getElem? {α : Type} (l : List α) :
    ∀ (c : Nat) (q : α), l[c]? = some q → l.set c q = l := by
  induction l with
  | nil => intro c q h; simp at h
  | cons x rest ih =>
    intro c q h
    cases c with
    | zero =>
      simp only [List.getElem?_cons_zero, Option.some.injEq] at h
      simp [h]
    | succ c =>
      simp only [List.getElem?_cons_succ] at h
      simp [ih c q h]

theorem findChannel_eq_find? (id : String) (subs : List Subscription) :
    findChannel id subs
      = (subs.find? (fun sub => decide (sub.subscriberID = id))).bind (fun sub => sub.channel) := by
  induction subs with
  | nil => rfl
  | cons sub rest ih =>
    by_cases h : sub.subscriberID = id
    · simp [findChannel, h]
    · simp [findChannel, h, ih]

/-- The replay loop on an open channel, from a non-negative index: it returns,
and the channel has gained the messages from index `i` on, as many as fit. -/
theorem replayLoop_open (msgs : List (Message δ)) (c : Nat) :
    ∀ (fuel : Nat) (i : Int) (heap : List (Chan δ)) (q : Chan δ),
      heap[c]? = some q → q.closed = false → 0 ≤ i →
      ((msgs.length : Int) - i).toNat < fuel →
      replayLoop msgs c fuel i heap =
        .ok (heap.set c
          { q with buf := q.buf ++ (msgs.drop i.toNat).take (q.cap - q.buf.length) }) := by
  intro fuel
  induction fuel with
  | zero => intro i heap q _ _ _ hf; omega
  | succ fuel ih =>
    intro i heap q hq hopen hi hf
    by_cases hlt : i < (msgs.length : Int)
    · have hnat : i.toNat < msgs.length := by omega
      have hneg : ¬ i < 0 := by omega
      have hdrop : msgs.drop i.toNat = msgs[i.toNat] :: msgs.drop (i + 1).toNat := by
        have e : (i + 1).toNat = i.toNat + 1 := by omega
        rw [e]
        exact List.drop_eq_getElem_cons hnat
      have hc := getElem?_lt_of_some hq
      simp only [replayLoop, hlt, hneg, if_true, if_false, List.getElem?_eq_getElem hnat,
        trySend, hq, hopen, Bool.false_eq_true]
      by_cases hfree : q.buf.length < q.cap
      · simp only [hfree, if_true]
        rw [ih (i + 1) _ { q with buf := q.buf ++ [msgs[i.toNat]] }
          (by simp [List.getElem?_set, hc, hopen]) hopen (by omega) (by omega)]
        have e : q.cap - q.buf.length = (q.cap - (q.buf.length + 1)) + 1 := by omega
        simp [List.set_set, hdrop, e, List.take_succ_cons, hopen]
      · simp only [hfree, if_false]
        rw [ih (i + 1) heap q hq hopen (by omega) (by omega)]
        have z : q.cap - q.buf.length = 0 := by omega
        simp [z, hopen]
    · have hge : msgs.length ≤ i.toNat := by omega
      simp only [replayLoop, hlt, if_false]
      rw [List.drop_eq_nil_of_le hge]
      simp [set_eq_self_of_getElem? heap c q hq]

theorem LogOK_mem_offset {t : Topic δ} (h : LogOK t) (m : Message δ) (hm : m ∈ t.messages) :
    ∃ i, i < t.messages.length ∧ t.messages[i]? = some m ∧ m.Offset = (i : Int) := by
  obtain ⟨i, hi, e⟩ := List.mem_iff_getElem.mp hm
  refine ⟨i, hi, by rw [List.getElem?_eq_getElem hi, e], ?_⟩
  have := LogOK_get h i hi
  rw [List.get_eq_getElem, e] at this
  exact this

/-- On a well-formed log, the messages with offset in `[k, n)` are the log from
index `k` on. -/
theorem replaySpec_eq_drop {t : Topic δ} (h : LogOK t) (k : Int) (hk : 0 ≤ k) :
    replaySpec t k = t.messages.drop k.toNat := by
  unfold replaySpec
  have hsplit : t.messages.filter
      (fun m => decide (k ≤ m.Offset ∧ m.Offset < (t.messages.length : Int)))
      = (t.messages.take k.toNat).filter
          (fun m => decide (k ≤ m.Offset ∧ m.Offset < (t.messages.length : Int)))
        ++ (t.messages.drop k.toNat).filter
          (fun m => decide (k ≤ m.Offset ∧ m.Offset < (t.messages.length : Int))) := by
    rw [← List.filter_append, List.take_append_drop]
  have h1 : (t.messages.take k.toNat).filter
      (fun m => decide (k ≤ m.Offset ∧ m.Offset < (t.messages.length : Int))) = [] := by
    rw [List.filter_eq_nil_iff]
    intro m hm
    obtain ⟨i, hi, e⟩ := List.mem_iff_getElem.mp hm
    rw [List.length_take] at hi
    rw [List.getElem_take] at e
    have := LogOK_get h i (by omega)
    rw [List.get_eq_getElem, e] at this
    simp only [decide_eq_true_eq, not_and]
    intro hle
    omega
  have h2 : (t.messages.drop k.toNat).filter
      (fun m => decide (k ≤ m.Offset ∧ m.Offset < (t.messages.length : Int)))
        = t.messages.drop k.toNat := by
    rw [List.filter_eq_self]
    intro m hm
    obtain ⟨i, hi, e⟩ := List.mem_iff_getElem.mp hm
    rw [List.length_drop] at hi
    rw [List.getElem_drop] at e
    have := LogOK_get h (k.toNat + i) (by omega)
    rw [List.get_eq_getElem, e] at this
    simp only [decide_eq_true_eq]
    omega
  rw [hsplit, h1, h2, List.nil_append]

theorem LogOK_pairwise {t : Topic δ} (h : LogOK t) :
    t.messages.Pairwise (fun a b => a.Offset < b.Offset) := by
  have hp : (t.messages.map (fun m => m.Offset)).Pairwise (fun a b => a < b) := by
    rw [h.1, List.pairwise_map]
    exact (List.pairwise_lt_range _).imp (fun hab => by exact_mod_cast hab)
  rw [List.pairwise_map] at hp
  exact hp

/-- Replay into an open channel: for an existing topic with a well-formed log of `n` messages, a
subscriber ID whose first matching subscription holds an open channel `c` with
`f` free slots, and `k ≥ 0`, `ResetOffset` returns nil; the broker (every
log, `nextOffset` and subscription list) and every other channel are
unchanged; channel `c` gains at its tail the first `min(f, n - k)` of the
messages with offset in `[k, n)`, in ascending offset order: all of them when
`f ≥ n - k`, none when `k ≥ n`. -/
theorem ResetOffset_replays_open (s : State δ) (n id : String) (t : Topic δ)
    (sub : Subscription) (c : Nat) (q : Chan δ) (k : Int)
    (ht : s.topic n = some t) (hlog : LogOK t)
    (hsub : t.subscriptions.find? (fun x => decide (x.subscriberID = id)) = some sub)
    (hch : sub.channel = some c) (hq : s.heap[c]? = some q) (hopen : q.closed = false)
    (hk : 0 ≤ k) :
    ∃ s', ResetOffset s n id k = .ok (s', none) ∧
      s'.ps = s.ps ∧
      s'.heap.length = s.heap.length ∧
      (∀ c', c' ≠ c → s'.heap[c']? = s.heap[c']?) ∧
      s'.heap[c]? = some
        { q with buf := q.buf ++ (replaySpec t k).take (q.cap - q.buf.length) } ∧
      ((replaySpec t k).take (q.cap - q.buf.length)).length
        = min (q.cap - q.buf.length) (t.messages.length - k.toNat) ∧
      ((replaySpec t k).take (q.cap - q.buf.length)).Pairwise
        (fun a b => a.Offset < b.Offset) ∧
      (t.messages.length - k.toNat ≤ q.cap - q.buf.length →
        (replaySpec t k).take (q.cap - q.buf.length) = replaySpec t k) ∧
      ((t.messages.length : Int) ≤ k → s' = s) := by
  have hfind : findChannel id t.subscriptions = some c := by
    rw [findChannel_eq_find?, hsub]
    exact hch
  have hc := getElem?_lt_of_some hq
  have hspec := replaySpec_eq_drop hlog k hk
  have hlen : (replaySpec t k).length = t.messages.length - k.toNat := by
    rw [hspec, List.length_drop]
  refine ⟨⟨s.ps, s.heap.set c
      { q with buf := q.buf ++ (replaySpec t k).take (q.cap - q.buf.length) }⟩,
    ?_, rfl, by simp, ?_, by simp [List.getElem?_set, hc], ?_, ?_, ?_, ?_⟩
  · rw [ResetOffset_of_some id k ht, hfind]
    simp only
    rw [replayLoop_open t.messages c _ k s.heap q hq hopen hk (by omega), hspec]
  · intro c' hne
    simp [List.getElem?_set, Ne.symm hne]
  · rw [List.length_take, hlen]
  · have hsl : ((replaySpec t k).take (q.cap - q.buf.length)).Sublist t.messages :=
      (List.take_sublist _ _).trans (by unfold replaySpec; exact List.filter_sublist _)
    exact (LogOK_pairwise hlog).sublist hsl
  · intro hfit
    exact List.take_of_length_le (by omega)
  · intro hbeyond
    have hnil : replaySpec t k = [] := by
      rw [hspec]
      exact List.drop_eq_nil_of_le (by omega)
    rw [hnil]
    have : s.heap.set c { q with buf := q.buf ++ List.take (q.cap - q.buf.length) [] }
        = s.heap := by
      simp [set_eq_self_of_getElem? s.heap c q hq]
    rw [this]

/-- Example of the replay, the one of the specification: after scenario 1 (three publishes
into an undrained channel of capacity 10), `ResetOffset("t1", "sub1", 0)`
leaves the channel holding offsets 0, 1, 2, 0, 1, 2. -/
theorem ResetOffset_replays_open_example :
    (scenario1.topic "t1" = some scenario1Topic ∧ LogOK scenario1Topic ∧
      scenario1Topic.subscriptions.find? (fun x => decide (x.subscriberID = "sub1"))
        = some ⟨"sub1", some 0⟩ ∧
      scenario1.heap[0]? = some { buf := scenario1Log, cap := 10, closed := false } ∧
      (0 : Int) ≤ 0) ∧
    (∃ s', ResetOffset scenario1 "t1" "sub1" 0 = .ok (s', none) ∧
      s'.ps = scenario1.ps ∧
      s'.heap.length = scenario1.heap.length ∧
      (∀ c', c' ≠ 0 → s'.heap[c']? = scenario1.heap[c']?) ∧
      s'.heap[0]? = some
        { buf := scenario1Log ++ (replaySpec scenario1Topic 0).take (10 - scenario1Log.length),
          cap := 10, closed := false } ∧
      ((replaySpec scenario1Topic 0).take (10 - scenario1Log.length)).length
        = min (10 - scenario1Log.length) (scenario1Topic.messages.length - (0 : Int).toNat) ∧
      ((replaySpec scenario1Topic 0).take (10 - scenario1Log.length)).Pairwise
        (fun a b => a.Offset < b.Offset) ∧
      (scenario1Topic.messages.length - (0 : Int).toNat ≤ 10 - scenario1Log.length →
        (replaySpec scenario1Topic 0).take (10 - scenario1Log.length)
          = replaySpec scenario1Topic 0) ∧
      ((scenario1Topic.messages.length : Int) ≤ 0 → s' = scenario1)) ∧
    ResetOffset scenario1 "t1" "sub1" 0 =
      .ok (⟨scenario1.ps, [{ buf := scenario1Log ++ scenario1Log, cap := 10, closed := false }]⟩,
        none) ∧
    (scenario1Log ++ scenario1Log).map (fun m => m.Offset) = [0, 1, 2, 0, 1, 2] :=
  ⟨⟨by decide, ⟨by decide, by decide⟩, by decide, by decide, by decide⟩,
    ResetOffset_replays_open scenario1 "t1" "sub1" scenario1Topic ⟨"sub1", some 0⟩ 0
      { buf := scenario1Log, cap := 10, closed := false } 0
      (by decide) ⟨by decide, by decide⟩ (by decide) rfl (by decide) rfl (by decide),
    by decide, by decide⟩

/-- A negative `newOffset` makes the replay loop index the log out of range
on its first iteration. -/
theorem ResetOffset_negative {s : State δ} {n id : String} {t : Topic δ} {c : Nat} {k : Int}
    (ht : s.topic n = some t) (hsub : findChannel id t.subscriptions = some c) (hk : k < 0) :
    ResetOffset s n id k = .panic "index out of range" := by
  rw [ResetOffset_of_some id k ht, hsub]
  have hlt : k < (t.messages.length : Int) := by omega
  simp [replayLoop, hlt, hk]

/-- C5 (fails on the code): with "sub1" registered on the non-empty topic "t1"
(scenario 1), `ResetOffset("t1", "sub1", -1)` does not deliver the log and
return nil: the loop starts at `i = -1`, reads `topic.messages[-1]` and
panics.  The same happens on a topic whose log is still empty. -/
theorem C5_negative_offset_panics :
    scenario1.topic "t1" = some scenario1Topic ∧
    findChannel "sub1" scenario1Topic.subscriptions = some 0 ∧
    ResetOffset scenario1 "t1" "sub1" (-1) = .panic "index out of range" ∧
    ResetOffset scenario1Start "t1" "sub1" (-1) = .panic "index out of range" := by
  refine ⟨by decide, by decide, ?_, ?_⟩
  · exact ResetOffset_negative (t := scenario1Topic) (c := 0) (by decide) (by decide) (by decide)
  · decide

/-! ## Consecutive publishes into one channel -/

theorem stamp_length (n : String) (ds : List δ) :
    ∀ start : Int, (stamp n start ds).length = ds.length := by
  induction ds with
  | nil => intro start; rfl
  | cons d ds ih => intro start; simp [stamp, ih]

theorem stamp_data (n : String) (ds : List δ) :
    ∀ start : Int, (stamp n start ds).map (fun m => m.Data) = ds := by
  induction ds with
  | nil => intro start; rfl
  | cons d ds ih => intro start; simp [stamp, ih]

theorem stamp_offsets (n : String) (ds : List δ) :
    ∀ start : Int, (stamp n start ds).map (fun m => m.Offset)
      = (List.range ds.length).map (fun (i : Nat) => start + (i : Int)) := by
  induction ds with
  | nil => intro start; rfl
  | cons d ds ih =>
    intro start
    simp only [stamp, List.map_cons, List.length_cons, List.range_succ_eq_map, ih,
      List.map_map]
    simp only [Nat.cast_zero, add_zero, List.cons.injEq, true_and]
    apply List.map_congr_left
    intro i _
    simp only [Function.comp_apply, Nat.cast_succ]
    omega

/-- One `Publish` to a topic whose only subscription holds the open channel
`c`. -/
theorem Publish_single {s : State δ} {n id : String} {t : Topic δ} {c : Nat} {q : Chan δ}
    (d : δ) (ht : s.topic n = some t) (hsubs : t.subscriptions = [⟨id, some c⟩])
    (hq : s.heap[c]? = some q) (hopen : q.closed = false) :
    Publish s n d =
      .ok (⟨⟨storeTopic s.ps.topics n
          { t with messages := t.messages ++ [⟨n, d, t.nextOffset⟩],
                   nextOffset := t.nextOffset + 1 }⟩,
        deliverSpec ⟨n, d, t.nextOffset⟩ s.heap ⟨id, some c⟩⟩, none) := by
  have hopenAll : AllOpen s.heap t.subscriptions := by
    intro sub hs c' hc'
    rw [hsubs, List.mem_singleton] at hs
    subst hs
    cases hc'
    simp [hq, hopen]
  rw [Publish_of_some d ht, publishLoop_eq_fanOutSpec _ _ _ hopenAll, hsubs]
  rfl

/-- `m` publishes in a row to a topic with a single subscription on an open
channel: all return nil, the log gains the `m` messages, the channel gains the
first of them that fit. -/
theorem run_publishes_single (n id : String) (c : Nat) (ds : List δ) :
    ∀ (s : State δ) (t : Topic δ) (q : Chan δ),
      s.topic n = some t → t.subscriptions = [⟨id, some c⟩] →
      s.heap[c]? = some q → q.closed = false →
      ∃ s', run s (ds.map (Op.publish n)) = some (s', List.replicate ds.length none) ∧
        s'.topic n = some { t with messages := t.messages ++ stamp n t.nextOffset ds,
                                   nextOffset := t.nextOffset + (ds.length : Int) } ∧
        s'.heap[c]? = some { q with buf := q.buf ++
          (stamp n t.nextOffset ds).take (q.cap - q.buf.length) } := by
  induction ds with
  | nil =>
    intro s t q ht _ hq _
    exact ⟨s, rfl, by simpa [stamp] using ht, by simpa [stamp] using hq⟩
  | cons d ds ih =>
    intro s t q ht hsubs hq hopen
    have hpub := Publish_single d ht hsubs hq hopen
    have hc := getElem?_lt_of_some hq
    by_cases hfree : q.buf.length < q.cap
    · have hq1 : (deliverSpec ⟨n, d, t.nextOffset⟩ s.heap ⟨id, some c⟩)[c]?
          = some { q with buf := q.buf ++ [⟨n, d, t.nextOffset⟩] } := by
        rw [deliverSpec_getElem?, hq]
        simp [hfree]
      obtain ⟨s', hrun, ht', hq'⟩ := ih
        ⟨⟨storeTopic s.ps.topics n
            { t with messages := t.messages ++ [⟨n, d, t.nextOffset⟩],
                     nextOffset := t.nextOffset + 1 }⟩,
          deliverSpec ⟨n, d, t.nextOffset⟩ s.heap ⟨id, some c⟩⟩
        { t with messages := t.messages ++ [⟨n, d, t.nextOffset⟩],
                 nextOffset := t.nextOffset + 1 } _
        (lookupTopic_storeTopic_same _ _ _ _ ht) hsubs hq1 hopen
      refine ⟨s', ?_, ?_, ?_⟩
      · simp only [List.map_cons, run, step, hpub, hrun, List.length_cons,
          List.replicate_succ]
      · rw [ht']
        simp only [stamp, List.append_assoc, List.singleton_append, List.length_cons,
          Nat.cast_succ]
        congr 2
        omega
      · rw [hq']
        have e : q.cap - q.buf.length = (q.cap - (q.buf.length + 1)) + 1 := by omega
        simp [stamp, e, List.take_succ_cons]
    · have hq1 : (deliverSpec ⟨n, d, t.nextOffset⟩ s.heap ⟨id, some c⟩)[c]? = some q := by
        rw [deliverSpec_getElem?, hq]
        simp [hfree]
      obtain ⟨s', hrun, ht', hq'⟩ := ih
        ⟨⟨storeTopic s.ps.topics n
            { t with messages := t.messages ++ [⟨n, d, t.nextOffset⟩],
                     nextOffset := t.nextOffset + 1 }⟩,
          deliverSpec ⟨n, d, t.nextOffset⟩ s.heap ⟨id, some c⟩⟩
        { t with messages := t.messages ++ [⟨n, d, t.nextOffset⟩],
                 nextOffset := t.nextOffset + 1 } _
        (lookupTopic_storeTopic_same _ _ _ _ ht) hsubs hq1 hopen
      refine ⟨s', ?_, ?_, ?_⟩
      · simp only [List.map_cons, run, step, hpub, hrun, List.length_cons,
          List.replicate_succ]
      · rw [ht']
        simp only [stamp, List.append_assoc, List.singleton_append, List.length_cons,
          Nat.cast_succ]
        congr 2
        omega
      · rw [hq']
        have z : q.cap - q.buf.length = 0 := by omega
        simp [z]

/-- Publishes into an open channel: for a topic with an empty log and a single subscription whose channel
has capacity `cap` and is empty and open, `m` consecutive `Publish` calls with
no receive in between all return nil; the log then holds the `m` messages, with
the published data and offsets `0 .. m-1`; the channel holds exactly the first
`min(cap, m)` of them, offsets `0 .. min(cap, m) - 1` in order, so the other
`m - min(cap, m)` copies were dropped. -/
theorem publishes_fill_open_channel (s : State δ) (n id : String) (t : Topic δ) (c cap : Nat)
    (ds : List δ) (ht : s.topic n = some t) (hsubs : t.subscriptions = [⟨id, some c⟩])
    (hlog : t.messages = []) (hnext : t.nextOffset = 0)
    (hq : s.heap[c]? = some { buf := [], cap := cap, closed := false }) :
    ∃ s', run s (ds.map (Op.publish n)) = some (s', List.replicate ds.length none) ∧
      s'.topic n = some { t with messages := stamp n 0 ds, nextOffset := (ds.length : Int) } ∧
      (stamp n 0 ds).length = ds.length ∧
      (stamp n 0 ds).map (fun m => m.Data) = ds ∧
      (stamp n 0 ds).map (fun m => m.Offset)
        = (List.range ds.length).map (fun (i : Nat) => (i : Int)) ∧
      s'.heap[c]? = some
        { buf := (stamp n 0 ds).take (min cap ds.length), cap := cap, closed := false } ∧
      ((stamp n 0 ds).take (min cap ds.length)).length = min cap ds.length ∧
      ((stamp n 0 ds).take (min cap ds.length)).map (fun m => m.Offset)
        = (List.range (min cap ds.length)).map (fun (i : Nat) => (i : Int)) := by
  obtain ⟨s', hrun, ht', hq'⟩ := run_publishes_single n id c ds s t _ ht hsubs hq rfl
  have hoff : (stamp n 0 ds).map (fun m => m.Offset)
      = (List.range ds.length).map (fun (i : Nat) => (i : Int)) := by
    rw [stamp_offsets]
    simp
  have htake : (stamp n 0 ds).take cap = (stamp n 0 ds).take (min cap ds.length) := by
    by_cases hle : cap ≤ ds.length
    · rw [Nat.min_eq_left hle]
    · rw [Nat.min_eq_right (by omega), List.take_of_length_le (by rw [stamp_length]; omega),
        List.take_of_length_le (by rw [stamp_length])]
  refine ⟨s', hrun, ?_, stamp_length n ds 0, stamp_data n ds 0, hoff, ?_, ?_, ?_⟩
  · rw [ht', hlog, hnext]
    simp
  · rw [hq', hnext]
    simp [htake]
  · rw [List.length_take, stamp_length]
    omega
  · rw [List.map_take, hoff, ← List.map_take, List.take_range]
    congr 2
    omega

/-- The examples of the specification on open channels: capacity 1 and five
publishes keep one message (offset 0) and drop four; and the first example:
capacity 10 and three publishes keep offsets 0, 1, 2 (scenario 1). -/
theorem publishes_fill_open_channel_example :
    (capacityOneDemo.topic "t1" = some capacityOneTopic ∧
      capacityOneTopic.subscriptions = [⟨"sub2", some 0⟩] ∧
      capacityOneTopic.messages = [] ∧ capacityOneTopic.nextOffset = 0 ∧
      capacityOneDemo.heap[0]? = some { buf := [], cap := 1, closed := false }) ∧
    (∃ s', run capacityOneDemo (["a", "b", "c", "d", "e"].map (Op.publish "t1"))
        = some (s', List.replicate 5 none) ∧
      s'.topic "t1" = some { capacityOneTopic with
        messages := stamp "t1" 0 ["a", "b", "c", "d", "e"], nextOffset := 5 } ∧
      (stamp "t1" 0 ["a", "b", "c", "d", "e"]).length = 5 ∧
      (stamp "t1" 0 ["a", "b", "c", "d", "e"]).map (fun m => m.Data)
        = ["a", "b", "c", "d", "e"] ∧
      (stamp "t1" 0 ["a", "b", "c", "d", "e"]).map (fun m => m.Offset)
        = (List.range 5).map (fun (i : Nat) => (i : Int)) ∧
      s'.heap[0]? = some
        { buf := (stamp "t1" 0 ["a", "b", "c", "d", "e"]).take (min 1 5), cap := 1,
          closed := false } ∧
      ((stamp "t1" 0 ["a", "b", "c", "d", "e"]).take (min 1 5)).length = min 1 5 ∧
      ((stamp "t1" 0 ["a", "b", "c", "d", "e"]).take (min 1 5)).map (fun m => m.Offset)
        = (List.range (min 1 5)).map (fun (i : Nat) => (i : Int))) ∧
    (stamp "t1" 0 ["a", "b", "c", "d", "e"]).take (min 1 5) = [⟨"t1", "a", 0⟩] ∧
    run scenario1Start (["m0", "m1", "m2"].map (Op.publish "t1"))
      = some (scenario1, [none, none, none]) :=
  ⟨⟨by decide, rfl, rfl, rfl, by decide⟩,
    publishes_fill_open_channel capacityOneDemo "t1" "sub2" capacityOneTopic 0 1
      ["a", "b", "c", "d", "e"]
      (by decide) rfl rfl rfl (by decide),
    by decide, by decide⟩

/-! ## CreateTopic and the unknown-topic errors -/

/-- C7: `CreateTopic(name)` on a registered name returns the error
"Topic already exists" and leaves the whole state unchanged; on a fresh name
it returns nil and registers under it a topic with an empty log,
`nextOffset = 0` and no subscription, every other name and every channel
being left as it was. -/
theorem C7_create_topic (s : State δ) (name : String) :
    (∀ t, s.topic name = some t →
      CreateTopic s name = .ok (s, some "Topic already exists")) ∧
    (s.topic name = none →
      ∃ s', CreateTopic s name = .ok (s', none) ∧
        s'.topic name
          = some { name := name, subscriptions := [], messages := [], nextOffset := 0 } ∧
        (∀ other, other ≠ name → s'.topic other = s.topic other) ∧
        s'.heap = s.heap) := by
  constructor
  · intro t ht
    exact CreateTopic_of_some ht
  · intro hnone
    refine ⟨_, CreateTopic_of_none hnone, ?_, ?_, rfl⟩
    · have := lookupTopic_append_none s.ps.topics name name ⟨name, [], [], 0⟩ hnone
      simpa [State.topic] using this
    · intro other hne
      cases ho : s.topic other with
      | some x => exact lookupTopic_append_some _ _ _ _ _ ho
      | none =>
        have := lookupTopic_append_none s.ps.topics name other ⟨name, [], [], 0⟩ ho
        simpa [State.topic, Ne.symm hne] using this

/-- Witness of C7: creating "t1" twice from the empty broker. -/
theorem C7_create_topic_witness :
    (initState : State String).topic "t1" = none ∧
    (∃ s', CreateTopic (initState : State String) "t1" = .ok (s', none) ∧
      s'.topic "t1"
        = some { name := "t1", subscriptions := [], messages := [], nextOffset := 0 } ∧
      (∀ other, other ≠ "t1" → s'.topic other = (initState : State String).topic other) ∧
      s'.heap = (initState : State String).heap) ∧
    (∀ t, scenario1.topic "t1" = some t →
      CreateTopic scenario1 "t1" = .ok (scenario1, some "Topic already exists")) :=
  ⟨by decide, (C7_create_topic (initState : State String) "t1").2 (by decide),
    (C7_create_topic scenario1 "t1").1⟩

/-- C8: on a topic name that has not been created, `Subscribe`, `Unsubscribe`,
`Publish` and `ResetOffset` each return the error "Topic does not exist" and
leave the whole state (registry, logs, subscription lists, channels) as it
was. -/
theorem C8_unknown_topic (s : State δ) (name : String) (h : s.topic name = none) :
    (∀ id ch, Subscribe s name id ch = .ok (s, some "Topic does not exist")) ∧
    (∀ id, Unsubscribe s name id = .ok (s, some "Topic does not exist")) ∧
    (∀ data, Publish s name data = .ok (s, some "Topic does not exist")) ∧
    (∀ id k, ResetOffset s name id k = .ok (s, some "Topic does not exist")) :=
  ⟨fun id ch => Subscribe_of_none id ch h, fun id => Unsubscribe_of_none id h,
    fun data => Publish_of_none data h, fun id k => ResetOffset_of_none id k h⟩

/-- Witness of C8: the topic "t2" was never created in scenario 1. -/
theorem C8_unknown_topic_witness :
    scenario1.topic "t2" = none ∧
    (∀ id ch, Subscribe scenario1 "t2" id ch = .ok (scenario1, some "Topic does not exist")) ∧
    (∀ id, Unsubscribe scenario1 "t2" id = .ok (scenario1, some "Topic does not exist")) ∧
    (∀ data, Publish scenario1 "t2" data = .ok (scenario1, some "Topic does not exist")) ∧
    (∀ id k, ResetOffset scenario1 "t2" id k
      = .ok (scenario1, some "Topic does not exist")) :=
  ⟨by decide, C8_unknown_topic scenario1 "t2" (by decide)⟩

/-! ## Unsubscribe with duplicate subscriber IDs -/

/-- The loop of `Unsubscribe` keeps exactly the subscriptions with another ID,
in order, and remembers the channel of the last subscription with this ID. -/
theorem unsubscribeLoop_eq (id : String) (subs : List Subscription) :
    ∀ (acc : List Subscription) (r : Option Nat),
      unsubscribeLoop id subs (acc, r) =
        (acc ++ subs.filter (fun x => decide (x.subscriberID ≠ id)),
         match (subs.filter (fun x => decide (x.subscriberID = id))).getLast? with
         | some sub => sub.channel
         | none => r) := by
  induction subs with
  | nil => intro acc r; simp [unsubscribeLoop]
  | cons x rest ih =>
    intro acc r
    by_cases hx : x.subscriberID = id
    · simp only [unsubscribeLoop, hx, ne_eq, not_true_eq_false, if_false, ih,
        decide_False, decide_True, List.filter_cons_of_pos, List.filter_cons]
      simp only [Bool.false_eq_true, if_false, Prod.mk.injEq, true_and]
      rw [List.getLast?_cons]
      cases (rest.filter (fun x => decide (x.subscriberID = id))).getLast? <;> rfl
    · simp [unsubscribeLoop, hx, ih]

/-- C9 (fails on the code): three `Subscribe` calls register on "t1" the
subscriptions `s(ch0), other(ch2), s(ch1)`, all channels open.
`Unsubscribe("t1", "s")` returns nil, removes both subscriptions of "s" and
closes channel 1 only, that of the last match: channel 0, of the first match,
is removed from the topic and never closed, and the later subscription of "s"
does not stay registered.  The result is not the state in which only the first
match is removed and its channel closed. -/
theorem C9_unsubscribe_duplicate_ids :
    run (initState : State String)
        [.createTopic "t1", .makeChan 10, .makeChan 10, .makeChan 10,
          .subscribe "t1" "s" (some 0), .subscribe "t1" "other" (some 2),
          .subscribe "t1" "s" (some 1)]
      = some (duplicateIdDemo, [none, none, none, none, none, none, none]) ∧
    Unsubscribe duplicateIdDemo "t1" "s" =
      .ok (⟨⟨[("t1", { duplicateIdTopic with subscriptions := [⟨"other", some 2⟩] })]⟩,
            [{ buf := [], cap := 10, closed := false }, { buf := [], cap := 10, closed := true },
             { buf := [], cap := 10, closed := false }]⟩, none) ∧
    Unsubscribe duplicateIdDemo "t1" "s" ≠ .ok (duplicateIdFirstOnly, none) := by
  refine ⟨?_, ?_, ?_⟩ <;> decide

/-- What `Unsubscribe` does with duplicate IDs: on a topic with one or several subscriptions under
`subscriberID`, the last of which holds an open channel `c`, `Unsubscribe`
returns nil, removes every subscription with that ID (none of them stays
registered) and keeps the subscriptions with another ID in their order; the
one channel it closes is `c`, every other channel and every other topic is
unchanged, and so are the topic's log and `nextOffset`. -/
theorem Unsubscribe_removes_every_match (s : State δ) (n id : String) (t : Topic δ)
    (last : Subscription) (c : Nat) (q : Chan δ) (ht : s.topic n = some t)
    (hlast : (t.subscriptions.filter (fun x => decide (x.subscriberID = id))).getLast?
      = some last)
    (hch : last.channel = some c) (hq : s.heap[c]? = some q) (hopen : q.closed = false) :
    ∃ s', Unsubscribe s n id = .ok (s', none) ∧
      s'.topic n = some { t with
        subscriptions := t.subscriptions.filter (fun x => decide (x.subscriberID ≠ id)) } ∧
      (∀ t', s'.topic n = some t' → ∀ x ∈ t'.subscriptions, x.subscriberID ≠ id) ∧
      (∀ other, other ≠ n → s'.topic other = s.topic other) ∧
      s'.heap = s.heap.set c { q with closed := true } ∧
      (∀ c', c' ≠ c → s'.heap[c']? = s.heap[c']?) := by
  have hloop := unsubscribeLoop_eq id t.subscriptions [] none
  rw [hlast] at hloop
  simp only [List.nil_append] at hloop
  have hstore := lookupTopic_storeTopic_same s.ps.topics n t
    { t with subscriptions := t.subscriptions.filter (fun x => decide (x.subscriberID ≠ id)) } ht
  refine ⟨⟨⟨storeTopic s.ps.topics n { t with
      subscriptions := t.subscriptions.filter (fun x => decide (x.subscriberID ≠ id)) }⟩,
    s.heap.set c { q with closed := true }⟩, ?_, hstore, ?_, ?_, rfl, ?_⟩
  · rw [Unsubscribe_of_some id ht, hloop]
    simp [hch, closeChan, hq, hopen]
  · intro t' ht' x hx
    rw [State.topic] at ht'
    rw [hstore] at ht'
    cases ht'
    simpa using (List.mem_filter.mp hx).2
  · intro other hne
    exact lookupTopic_storeTopic_other _ _ _ _ hne
  · intro c' hne
    simp [List.getElem?_set, Ne.symm hne]

/-- The same on `duplicateIdDemo`. -/
theorem Unsubscribe_removes_every_match_example :
    (duplicateIdDemo.topic "t1" = some duplicateIdTopic ∧
      (duplicateIdTopic.subscriptions.filter (fun x => decide (x.subscriberID = "s"))).getLast?
        = some ⟨"s", some 1⟩ ∧
      duplicateIdDemo.heap[1]? = some { buf := [], cap := 10, closed := false }) ∧
    ∃ s', Unsubscribe duplicateIdDemo "t1" "s" = .ok (s', none) ∧
      s'.topic "t1" = some { duplicateIdTopic with
        subscriptions :=
          duplicateIdTopic.subscriptions.filter (fun x => decide (x.subscriberID ≠ "s")) } ∧
      (∀ t', s'.topic "t1" = some t' → ∀ x ∈ t'.subscriptions, x.subscriberID ≠ "s") ∧
      (∀ other, other ≠ "t1" → s'.topic other = duplicateIdDemo.topic other) ∧
      s'.heap = duplicateIdDemo.heap.set 1 { buf := [], cap := 10, closed := true } ∧
      (∀ c', c' ≠ 1 → s'.heap[c']? = duplicateIdDemo.heap[c']?) :=
  ⟨⟨by decide, by decide, by decide⟩,
    Unsubscribe_removes_every_match duplicateIdDemo "t1" "s" duplicateIdTopic
      ⟨"s", some 1⟩ 1 { buf := [], cap := 10, closed := false }
      (by decide) (by decide) rfl (by decide) rfl⟩

/-! ## Subscribe -/

theorem subscribedTimes_append_two (c : Nat) (subs : List Subscription) (a b : Subscription) :
    subscribedTimes c (subs ++ [a, b])
      = subscribedTimes c subs + (if a.channel = some c then 1 else 0)
        + (if b.channel = some c then 1 else 0) := by
  simp only [subscribedTimes, List.map_append, List.map_cons, List.map_nil, List.count_append,
    List.count_cons, List.count_nil, beq_iff_eq]
  omega

/-- C10: on an existing topic `Subscribe(topic, id, ch)` returns nil and
appends the one subscription `{id, ch}` at the end of the topic's list,
whatever the list already holds; the log, `nextOffset`, the other topics and
the channels are unchanged.  No deduplication: a second `Subscribe` with the
same `id` appends a second entry, and one `Publish` then makes a delivery
attempt for each of the two entries after those for the older subscriptions,
so a channel subscribed twice gains two copies when it has the free slots. -/
theorem C10_subscribe_appends (s : State δ) (n id : String) (ch : Option Nat) (t : Topic δ)
    (ht : s.topic n = some t) :
    ∃ s', Subscribe s n id ch = .ok (s', none) ∧
      s'.topic n = some { t with subscriptions := t.subscriptions ++ [⟨id, ch⟩] } ∧
      s'.heap = s.heap ∧
      (∀ other, other ≠ n → s'.topic other = s.topic other) ∧
      (∀ ch2, ∃ s'', Subscribe s' n id ch2 = .ok (s'', none) ∧
        s''.topic n
          = some { t with subscriptions := t.subscriptions ++ [⟨id, ch⟩, ⟨id, ch2⟩] } ∧
        s''.heap = s.heap ∧
        (∀ data, AllOpen s.heap (t.subscriptions ++ [⟨id, ch⟩, ⟨id, ch2⟩]) →
          ∃ s3, Publish s'' n data = .ok (s3, none) ∧
            s3.heap = deliverSpec ⟨n, data, t.nextOffset⟩
              (deliverSpec ⟨n, data, t.nextOffset⟩
                (fanOutSpec ⟨n, data, t.nextOffset⟩ t.subscriptions s.heap) ⟨id, ch⟩)
              ⟨id, ch2⟩ ∧
            (∀ (c : Nat) (q : Chan δ), s.heap[c]? = some q →
              s3.heap[c]? = some
                { q with buf := q.buf ++
                    List.replicate (min (q.cap - q.buf.length) (subscribedTimes c t.subscriptions + (if ch = some c then 1 else 0) + (if ch2 = some c then 1 else 0))) ⟨n, data, t.nextOffset⟩ }))) := by
  have h1 := lookupTopic_storeTopic_same s.ps.topics n t
    { t with subscriptions := t.subscriptions ++ [⟨id, ch⟩] } ht
  refine ⟨⟨⟨storeTopic s.ps.topics n { t with subscriptions := t.subscriptions ++ [⟨id, ch⟩] }⟩,
    s.heap⟩, Subscribe_of_some id ch ht, h1, rfl, ?_, ?_⟩
  · intro other hne
    exact lookupTopic_storeTopic_other _ _ _ _ hne
  · intro ch2
    have h2 := lookupTopic_storeTopic_same
      (storeTopic s.ps.topics n { t with subscriptions := t.subscriptions ++ [⟨id, ch⟩] }) n
      { t with subscriptions := t.subscriptions ++ [⟨id, ch⟩] }
      { t with subscriptions := t.subscriptions ++ [⟨id, ch⟩, ⟨id, ch2⟩] } h1
    refine ⟨⟨⟨storeTopic
        (storeTopic s.ps.topics n { t with subscriptions := t.subscriptions ++ [⟨id, ch⟩] }) n
        { t with subscriptions := t.subscriptions ++ [⟨id, ch⟩, ⟨id, ch2⟩] }⟩, s.heap⟩,
      ?_, h2, rfl, ?_⟩
    · have h1' : State.topic (⟨⟨storeTopic s.ps.topics n
          { t with subscriptions := t.subscriptions ++ [⟨id, ch⟩] }⟩, s.heap⟩ : State δ) n
          = some { t with subscriptions := t.subscriptions ++ [⟨id, ch⟩] } := h1
      rw [Subscribe_of_some id ch2 h1']
      simp
    · intro data hopen
      have h2' : State.topic (⟨⟨storeTopic
          (storeTopic s.ps.topics n
            { t with subscriptions := t.subscriptions ++ [⟨id, ch⟩] }) n
          { t with subscriptions := t.subscriptions ++ [⟨id, ch⟩, ⟨id, ch2⟩] }⟩,
          s.heap⟩ : State δ) n
          = some { t with subscriptions := t.subscriptions ++ [⟨id, ch⟩, ⟨id, ch2⟩] } := h2
      have hpub := Publish_of_some data h2'
      simp only at hpub
      rw [publishLoop_eq_fanOutSpec _ _ _ hopen] at hpub
      simp only at hpub
      refine ⟨_, hpub, ?_, ?_⟩
      · simp [fanOutSpec, List.foldl_append]
      · intro c q hq
        simp only
        rw [fanOutSpec_getElem?, hq, subscribedTimes_append_two]
        rfl

/-- Witness of C10: on `freshTopicDemo` the subscriber "sub1" subscribes twice
with its one channel; the list then holds two entries and one `Publish`
leaves two copies of the message in that channel. -/
theorem C10_subscribe_appends_witness :
    freshTopicDemo.topic "t1"
      = some { name := "t1", subscriptions := [], messages := [], nextOffset := 0 } ∧
    (∃ s', Subscribe freshTopicDemo "t1" "sub1" (some 0) = .ok (s', none) ∧
      s'.topic "t1" = some { name := "t1", subscriptions := [] ++ [⟨"sub1", some 0⟩],
                             messages := [], nextOffset := 0 } ∧
      s'.heap = freshTopicDemo.heap) ∧
    run freshTopicDemo
        [.subscribe "t1" "sub1" (some 0), .subscribe "t1" "sub1" (some 0), .publish "t1" "x"]
      = some (⟨⟨[("t1", { name := "t1",
                          subscriptions := [⟨"sub1", some 0⟩, ⟨"sub1", some 0⟩],
                          messages := [⟨"t1", "x", 0⟩], nextOffset := 1 })]⟩,
               [{ buf := [⟨"t1", "x", 0⟩, ⟨"t1", "x", 0⟩], cap := 10, closed := false }]⟩,
              [none, none, none]) := by
  obtain ⟨s', h1, h2, h3, _⟩ :=
    C10_subscribe_appends freshTopicDemo "t1" "sub1" (some 0)
      { name := "t1", subscriptions := [], messages := [], nextOffset := 0 } (by decide)
  exact ⟨by decide, ⟨s', h1, h2, h3⟩, by decide⟩

/-! ## Unknown subscriber -/

theorem storeTopic_same (ts : List (String × Topic δ)) (n : String) (t : Topic δ)
    (h : lookupTopic ts n = some t) : storeTopic ts n t = ts := by
  induction ts with
  | nil => rfl
  | cons p rest ih =>
    obtain ⟨k, x⟩ := p
    by_cases hk : k = n
    · simp only [lookupTopic, hk, if_true, Option.some.injEq] at h
      simp [storeTopic, hk, h]
    · simp only [lookupTopic, hk, if_false] at h
      simp [storeTopic, hk, ih h]

theorem findChannel_of_no_match (id : String) (subs : List Subscription)
    (h : ∀ sub ∈ subs, sub.subscriberID ≠ id) : findChannel id subs = none := by
  induction subs with
  | nil => rfl
  | cons sub rest ih =>
    have h1 : ¬ sub.subscriberID = id := h sub (by simp)
    simp only [findChannel, h1, if_false]
    exact ih (fun x hx => h x (by simp [hx]))

/-- C11: on an existing topic, for a subscriberID that no subscription of the
topic carries, `Unsubscribe` and `ResetOffset` both return the error
"Subscriber not found" and leave the whole state as it was: the same
subscription list in the same order, the same log and `nextOffset`, every
channel untouched and none closed. -/
theorem C11_subscriber_not_found (s : State δ) (n id : String) (t : Topic δ)
    (ht : s.topic n = some t) (hno : ∀ sub ∈ t.subscriptions, sub.subscriberID ≠ id) :
    Unsubscribe s n id = .ok (s, some "Subscriber not found") ∧
    ∀ k, ResetOffset s n id k = .ok (s, some "Subscriber not found") := by
  constructor
  · have hkeep : t.subscriptions.filter (fun x => decide (x.subscriberID ≠ id))
        = t.subscriptions := by
      rw [List.filter_eq_self]
      intro x hx
      simpa using hno x hx
    have hnone : t.subscriptions.filter (fun x => decide (x.subscriberID = id)) = [] := by
      rw [List.filter_eq_nil_iff]
      intro x hx
      simpa using hno x hx
    have hloop := unsubscribeLoop_eq id t.subscriptions [] none
    rw [hkeep, hnone] at hloop
    simp only [List.nil_append, List.getLast?_nil] at hloop
    rw [Unsubscribe_of_some id ht, hloop]
    simp only
    have hsame : storeTopic s.ps.topics n { t with subscriptions := t.subscriptions }
        = s.ps.topics := storeTopic_same _ _ _ ht
    rw [hsame]
  · intro k
    rw [ResetOffset_of_some id k ht, findChannel_of_no_match id _ hno]

/-- Witness of C11: "nobody" is not subscribed to "t1" in scenario 1. -/
theorem C11_subscriber_not_found_witness :
    (scenario1.topic "t1" = some scenario1Topic ∧
      ∀ sub ∈ scenario1Topic.subscriptions, sub.subscriberID ≠ "nobody") ∧
    Unsubscribe scenario1 "t1" "nobody" = .ok (scenario1, some "Subscriber not found") ∧
    ∀ k, ResetOffset scenario1 "t1" "nobody" k
      = .ok (scenario1, some "Subscriber not found") :=
  ⟨⟨by decide, by decide⟩,
    C11_subscriber_not_found scenario1 "t1" "nobody" scenario1Topic (by decide) (by decide)⟩

/-! ## The log is append-only -/

/-- One step keeps every existing topic and extends its log by at most the
message a `Publish` to it appends. -/
theorem step_log_prefix {s s' : State δ} {op : Op δ} {err : Option String}
    (h : step s op = .ok (s', err)) {name : String} {t : Topic δ}
    (ht : s.topic name = some t) :
    ∃ t', s'.topic name = some t' ∧
      ((t'.messages = t.messages ∧ ∀ d, op ≠ .publish name d) ∨
       (∃ data, op = .publish name data ∧ err = none ∧
          t'.messages = t.messages ++ [⟨name, data, t.nextOffset⟩])) := by
  by_cases hp : ∃ n d, op = .publish n d
  · obtain ⟨n, d, rfl⟩ := hp
    simp only [step] at h
    by_cases e : name = n
    · subst e
      obtain ⟨he, ht', _⟩ := Publish_topic ht h
      exact ⟨_, ht', Or.inr ⟨d, rfl, he, rfl⟩⟩
    · have hne : ∀ d', (Op.publish n d : Op δ) ≠ .publish name d' := by
        intro d' hd
        cases hd
        exact e rfl
      cases hn : s.topic n with
      | none =>
        rw [Publish_of_none d hn] at h
        simp only [Res.ok.injEq, Prod.mk.injEq] at h
        rw [← h.1]
        exact ⟨t, ht, Or.inl ⟨rfl, hne⟩⟩
      | some tn =>
        obtain ⟨_, _, hother⟩ := Publish_topic hn h
        exact ⟨t, by rw [hother name e, ht], Or.inl ⟨rfl, hne⟩⟩
  · have hop : ∀ n d, op ≠ .publish n d := fun n d x => hp ⟨n, d, x⟩
    rcases step_log_frame h hop name with ⟨h0, _⟩ | ⟨h0, _⟩ | ⟨t0, t', h0, h1, hm, _⟩
    · rw [ht] at h0; cases h0
    · rw [ht] at h0; cases h0
    · rw [ht] at h0
      cases h0
      exact ⟨t', h1, Or.inl ⟨hm, fun d => hop name d⟩⟩

theorem run_log_prefix (ops : List (Op δ)) :
    ∀ {s s' : State δ} {errs : List (Option String)} {name : String} {t : Topic δ},
      run s ops = some (s', errs) → s.topic name = some t →
      ∃ t', s'.topic name = some t' ∧ t.messages <+: t'.messages := by
  induction ops with
  | nil =>
    intro s s' errs name t h ht
    simp only [run, Option.some.injEq, Prod.mk.injEq] at h
    rw [← h.1]
    exact ⟨t, ht, List.prefix_refl _⟩
  | cons op ops ih =>
    intro s s' errs name t h ht
    simp only [run] at h
    cases hs : step s op with
    | panic m => rw [hs] at h; simp at h
    | ok r =>
      obtain ⟨s1, err⟩ := r
      rw [hs] at h
      dsimp only at h
      cases hrun : run s1 ops with
      | none => rw [hrun] at h; simp at h
      | some r2 =>
        obtain ⟨s2, errs2⟩ := r2
        rw [hrun] at h
        simp only [Option.some.injEq, Prod.mk.injEq] at h
        rw [← h.1]
        obtain ⟨t1, ht1, hcase⟩ := step_log_prefix hs ht
        obtain ⟨t2, ht2, hpre⟩ := ih hrun ht1
        refine ⟨t2, ht2, List.IsPrefix.trans ?_ hpre⟩
        rcases hcase with ⟨hm, _⟩ | ⟨d, _, _, hm⟩
        · rw [hm]
        · rw [hm]
          exact List.prefix_append _ _

/-- C13: the log of a topic is append-only.  For every step (a broker method,
or a client's channel make or receive) that returns, a topic that existed
before still exists and its old log is a prefix of its new log; the log is
the same unless the step is a `Publish` to that topic, which returns nil and
extends the log by exactly one message.  Hence over any run the old log
stays a prefix: no logged message is removed or altered. -/
theorem C13_log_append_only (s : State δ) (name : String) (t : Topic δ)
    (ht : s.topic name = some t) :
    (∀ op s' err, step s op = .ok (s', err) →
      ∃ t', s'.topic name = some t' ∧ t.messages <+: t'.messages ∧
        ((t'.messages = t.messages ∧ ∀ d, op ≠ .publish name d) ∨
         (∃ data, op = .publish name data ∧ err = none ∧
            t'.messages = t.messages ++ [⟨name, data, t.nextOffset⟩]))) ∧
    (∀ ops s' errs, run s ops = some (s', errs) →
      ∃ t', s'.topic name = some t' ∧ t.messages <+: t'.messages) := by
  constructor
  · intro op s' err h
    obtain ⟨t', ht', hcase⟩ := step_log_prefix h ht
    refine ⟨t', ht', ?_, hcase⟩
    rcases hcase with ⟨hm, _⟩ | ⟨d, _, _, hm⟩
    · rw [hm]
    · rw [hm]
      exact List.prefix_append _ _
  · intro ops s' errs h
    exact run_log_prefix ops h ht

/-- Witness of C13 on scenario 1, whose topic "t1" holds three messages. -/
theorem C13_log_append_only_witness :
    scenario1.topic "t1" = some scenario1Topic ∧
    (∀ op s' err, step scenario1 op = .ok (s', err) →
      ∃ t', s'.topic "t1" = some t' ∧ scenario1Topic.messages <+: t'.messages ∧
        ((t'.messages = scenario1Topic.messages ∧ ∀ d, op ≠ .publish "t1" d) ∨
         (∃ data, op = .publish "t1" data ∧ err = none ∧
            t'.messages = scenario1Topic.messages
              ++ [⟨"t1", data, scenario1Topic.nextOffset⟩]))) ∧
    (∀ ops s' errs, run scenario1 ops = some (s', errs) →
      ∃ t', s'.topic "t1" = some t' ∧ scenario1Topic.messages <+: t'.messages) :=
  ⟨by decide, C13_log_append_only scenario1 "t1" scenario1Topic (by decide)⟩

/-! ## Isolation between subscribers -/

theorem agreeOff_getElem?_closed {a : Nat} {h1 h2 : List (Chan δ)} (h : AgreeOff a h1 h2)
    (c : Nat) :
    (h1[c]?).map (fun q => q.closed) = (h2[c]?).map (fun q => q.closed) := by
  by_cases hc : c = a
  · subst hc
    have := congrArg (Option.map (fun p : Nat × Bool => p.2)) h.2.2
    simpa [Option.map_map, Function.comp] using this
  · rw [h.2.1 c hc]

theorem agreeOff_set {a : Nat} {h1 h2 : List (Chan δ)} (h : AgreeOff a h1 h2)
    {q1 q2 : Chan δ} (q1' q2' : Chan δ) (hq1 : h1[a]? = some q1) (hq2 : h2[a]? = some q2)
    (e1 : q1'.cap = q1.cap ∧ q1'.closed = q1.closed)
    (e2 : q2'.cap = q2.cap ∧ q2'.closed = q2.closed) :
    AgreeOff a (h1.set a q1') (h2.set a q2') ∧ AgreeOff a (h1.set a q1') h2 ∧
      AgreeOff a h1 (h2.set a q2') := by
  have hl1 := getElem?_lt_of_some hq1
  have hl2 := getElem?_lt_of_some hq2
  have hcc := h.2.2
  rw [hq1, hq2] at hcc
  simp only [Option.map_some', Option.some.injEq, Prod.mk.injEq] at hcc
  refine ⟨⟨by simp [h.1], ?_, ?_⟩, ⟨by simp [h.1], ?_, ?_⟩, ⟨by simp [h.1], ?_, ?_⟩⟩
  · intro d hd
    simp [List.getElem?_set, Ne.symm hd, h.2.1 d hd]
  · simp [List.getElem?_set, hl1, hl2, e1.1, e1.2, e2.1, e2.2, hcc.1, hcc.2]
  · intro d hd
    simp [List.getElem?_set, Ne.symm hd, h.2.1 d hd]
  · simp [List.getElem?_set, hl1, hq2, e1.1, e1.2, hcc.1, hcc.2]
  · intro d hd
    simp [List.getElem?_set, Ne.symm hd, h.2.1 d hd]
  · simp [List.getElem?_set, hl2, hq1, e2.1, e2.2, hcc.1, hcc.2]

theorem agreeOff_set_other {a c : Nat} {h1 h2 : List (Chan δ)} (h : AgreeOff a h1 h2)
    (hc : c ≠ a) (q : Chan δ) : AgreeOff a (h1.set c q) (h2.set c q) := by
  refine ⟨by simp [h.1], ?_, ?_⟩
  · intro d hd
    by_cases hcd : c = d
    · subst hcd
      simp [List.getElem?_set, h.1]
    · simp [List.getElem?_set, hcd, h.2.1 d hd]
  · simpa [List.getElem?_set, hc] using h.2.2

/-- One non-blocking send treats two heaps that differ only in the contents
of channel `a` alike. -/
theorem trySend_agree {a : Nat} {h1 h2 : List (Chan δ)} (h : AgreeOff a h1 h2)
    (ch : Option Nat) (msg : Message δ) :
    ResAgree a (trySend h1 ch msg) (trySend h2 ch msg) := by
  cases ch with
  | none => simpa [trySend, ResAgree] using h
  | some c =>
    by_cases hc : c = a
    · subst hc
      have hcc := h.2.2
      cases hq1 : h1[c]? with
      | none =>
        rw [hq1] at hcc
        cases hq2 : h2[c]? with
        | none => simp [trySend, hq1, hq2, ResAgree]
        | some q2 => rw [hq2] at hcc; simp at hcc
      | some q1 =>
        rw [hq1] at hcc
        cases hq2 : h2[c]? with
        | none => rw [hq2] at hcc; simp at hcc
        | some q2 =>
          rw [hq2] at hcc
          simp only [Option.map_some', Option.some.injEq, Prod.mk.injEq] at hcc
          obtain ⟨hcap, hcl⟩ := hcc
          simp only [trySend, hq1, hq2]
          cases hb : q2.closed with
          | true => simp [hcl, hb, ResAgree]
          | false =>
            rw [hb] at hcl
            simp only [hcl, Bool.false_eq_true, if_false]
            split <;> split <;> simp only [ResAgree]
            · exact (agreeOff_set h { buf := q1.buf ++ [msg], cap := q1.cap, closed := false }
                { buf := q2.buf ++ [msg], cap := q2.cap, closed := false } hq1 hq2
                ⟨rfl, by simp [hcl]⟩ ⟨rfl, by simp [hb]⟩).1
            · exact (agreeOff_set h { buf := q1.buf ++ [msg], cap := q1.cap, closed := false }
                q2 hq1 hq2 ⟨rfl, by simp [hcl]⟩ ⟨rfl, rfl⟩).2.1
            · exact (agreeOff_set h q1
                { buf := q2.buf ++ [msg], cap := q2.cap, closed := false } hq1 hq2
                ⟨rfl, rfl⟩ ⟨rfl, by simp [hb]⟩).2.2
            · exact h
    · have heq := h.2.1 c hc
      cases hq1 : h1[c]? with
      | none =>
        rw [hq1] at heq
        simp [trySend, hq1, ← heq, ResAgree]
      | some q =>
        rw [hq1] at heq
        simp only [trySend, hq1, ← heq]
        split
        · simp [ResAgree]
        · split
          · simp only [ResAgree]
            exact agreeOff_set_other h hc _
          · simpa [ResAgree] using h

theorem publishLoop_agree {a : Nat} (msg : Message δ) (subs : List Subscription) :
    ∀ {h1 h2 : List (Chan δ)}, AgreeOff a h1 h2 →
      ResAgree a (publishLoop msg subs h1) (publishLoop msg subs h2) := by
  induction subs with
  | nil => intro h1 h2 h; simpa [publishLoop, ResAgree] using h
  | cons sub rest ih =>
    intro h1 h2 h
    have hs := trySend_agree h sub.channel msg
    simp only [publishLoop]
    cases r1 : trySend h1 sub.channel msg with
    | panic m1 =>
      cases r2 : trySend h2 sub.channel msg with
      | panic m2 => rw [r1, r2] at hs; simpa [ResAgree] using hs
      | ok y => rw [r1, r2] at hs; simp [ResAgree] at hs
    | ok x =>
      cases r2 : trySend h2 sub.channel msg with
      | panic m2 => rw [r1, r2] at hs; simp [ResAgree] at hs
      | ok y =>
        rw [r1, r2] at hs
        exact ih hs

/-- C14: isolation as a two-run property.  Take two states with the same
broker (topics, logs, subscription lists) whose channel heaps differ at most
in the buffered contents of channel `a` (for instance full in one, empty in
the other).  A `Publish` of the same data to the same topic ends alike in both
runs: the same panic, or the same returned error, the same broker afterwards
(same log, same `nextOffset`) and every channel other than `a`, in particular
the channel of another subscriber B, identical in both runs. -/
theorem C14_publish_isolation (s1 s2 : State δ) (a : Nat) (n : String) (data : δ)
    (hps : s1.ps = s2.ps) (hheap : AgreeOff a s1.heap s2.heap) :
    (∃ m, Publish s1 n data = .panic m ∧ Publish s2 n data = .panic m) ∨
    (∃ s1' s2' err, Publish s1 n data = .ok (s1', err) ∧ Publish s2 n data = .ok (s2', err) ∧
      s1'.ps = s2'.ps ∧ (∀ name, s1'.topic name = s2'.topic name) ∧
      (∀ b, b ≠ a → s1'.heap[b]? = s2'.heap[b]?) ∧ AgreeOff a s1'.heap s2'.heap) := by
  cases hn : s1.topic n with
  | none =>
    have hn2 : s2.topic n = none := by rw [← hn]; simp [State.topic, hps]
    refine Or.inr ⟨s1, s2, _, Publish_of_none data hn, Publish_of_none data hn2, hps, ?_,
      hheap.2.1, hheap⟩
    intro name
    simp [State.topic, hps]
  | some t =>
    have hn2 : s2.topic n = some t := by rw [← hn]; simp [State.topic, hps]
    have hl := publishLoop_agree (a := a) ⟨n, data, t.nextOffset⟩ t.subscriptions hheap
    rw [Publish_of_some data hn, Publish_of_some data hn2]
    cases r1 : publishLoop ⟨n, data, t.nextOffset⟩ t.subscriptions s1.heap with
    | panic m1 =>
      cases r2 : publishLoop ⟨n, data, t.nextOffset⟩ t.subscriptions s2.heap with
      | panic m2 =>
        rw [r1, r2] at hl
        simp only [ResAgree] at hl
        subst hl
        exact Or.inl ⟨m1, rfl, rfl⟩
      | ok y => rw [r1, r2] at hl; simp [ResAgree] at hl
    | ok x =>
      cases r2 : publishLoop ⟨n, data, t.nextOffset⟩ t.subscriptions s2.heap with
      | panic m2 => rw [r1, r2] at hl; simp [ResAgree] at hl
      | ok y =>
        rw [r1, r2] at hl
        simp only [ResAgree] at hl
        refine Or.inr ⟨_, _, none, rfl, rfl, ?_, ?_, hl.2.1, hl⟩
        · simp [hps]
        · intro name
          simp [State.topic, hps]

theorem fanOutDemo_agree : AgreeOff 0 fanOutDemo.heap fanOutDemoEmptyA.heap := by
  refine ⟨rfl, ?_, rfl⟩
  intro c hc
  cases c with
  | zero => exact absurd rfl hc
  | succ c => rfl

/-- Witness of C14: "slow" (channel 0, capacity 1) has a full channel in
`fanOutDemo` and an empty one in `fanOutDemoEmptyA`; publishing "m1" to "t1"
returns nil in both runs and leaves the channel of "fast" (channel 1) with
the same two messages. -/
theorem C14_publish_isolation_witness :
    (fanOutDemo.ps = fanOutDemoEmptyA.ps ∧ AgreeOff 0 fanOutDemo.heap fanOutDemoEmptyA.heap) ∧
    ((∃ m, Publish fanOutDemo "t1" "m1" = .panic m ∧
        Publish fanOutDemoEmptyA "t1" "m1" = .panic m) ∨
      (∃ s1' s2' err, Publish fanOutDemo "t1" "m1" = .ok (s1', err) ∧
        Publish fanOutDemoEmptyA "t1" "m1" = .ok (s2', err) ∧
        s1'.ps = s2'.ps ∧ (∀ name, s1'.topic name = s2'.topic name) ∧
        (∀ b, b ≠ 0 → s1'.heap[b]? = s2'.heap[b]?) ∧ AgreeOff 0 s1'.heap s2'.heap)) ∧
    (∃ s1' s2', Publish fanOutDemo "t1" "m1" = .ok (s1', none) ∧
      Publish fanOutDemoEmptyA "t1" "m1" = .ok (s2', none) ∧
      s1'.heap[0]? = some { buf := [⟨"t1", "m0", 0⟩], cap := 1, closed := false } ∧
      s2'.heap[0]? = some { buf := [⟨"t1", "m1", 1⟩], cap := 1, closed := false } ∧
      s1'.heap[1]? = s2'.heap[1]?) :=
  ⟨⟨rfl, fanOutDemo_agree⟩,
    C14_publish_isolation fanOutDemo fanOutDemoEmptyA 0 "t1" "m1" rfl fanOutDemo_agree,
    ⟨_, _, rfl, rfl, by decide, by decide, by decide⟩⟩

/-! ## Publishing after an unsubscribe, and a late subscriber's replay -/

theorem findChannel_append_new (id : String) (ch : Option Nat) (subs : List Subscription)
    (h : ∀ sub ∈ subs, sub.subscriberID ≠ id) :
    findChannel id (subs ++ [⟨id, ch⟩]) = ch := by
  induction subs with
  | nil => simp [findChannel]
  | cons sub rest ih =>
    have h1 : ¬ sub.subscriberID = id := h sub (by simp)
    simp only [List.cons_append, findChannel, h1, if_false]
    exact ih (fun x hx => h x (by simp [hx]))

/-- Consecutive publishes to a topic whose subscribed channels are all open:
all return nil, the log gains the stamped messages, no channel is closed or
opened, and a channel that is not subscribed to the topic is untouched. -/
theorem run_publishes_open (n : String) (ds : List δ) :
    ∀ (s : State δ) (t : Topic δ), s.topic n = some t → AllOpen s.heap t.subscriptions →
      ∃ s', run s (ds.map (Op.publish n)) = some (s', List.replicate ds.length none) ∧
        s'.topic n = some { t with messages := t.messages ++ stamp n t.nextOffset ds,
                                   nextOffset := t.nextOffset + (ds.length : Int) } ∧
        s'.heap.length = s.heap.length ∧
        (∀ c : Nat, (s'.heap[c]?).map (fun q : Chan δ => q.closed)
          = (s.heap[c]?).map (fun q : Chan δ => q.closed)) ∧
        (∀ c : Nat, subscribedTimes c t.subscriptions = 0 → s'.heap[c]? = s.heap[c]?) := by
  induction ds with
  | nil =>
    intro s t ht _
    exact ⟨s, rfl, by simpa [stamp] using ht, rfl, fun _ => rfl, fun _ _ => rfl⟩
  | cons d ds ih =>
    intro s t ht hopen
    have hpub : Publish s n d =
        .ok (⟨⟨storeTopic s.ps.topics n
            { t with messages := t.messages ++ [⟨n, d, t.nextOffset⟩],
                     nextOffset := t.nextOffset + 1 }⟩,
          fanOutSpec ⟨n, d, t.nextOffset⟩ t.subscriptions s.heap⟩, none) := by
      rw [Publish_of_some d ht, publishLoop_eq_fanOutSpec _ _ _ hopen]
    have hclosed : ∀ c : Nat,
        ((fanOutSpec ⟨n, d, t.nextOffset⟩ t.subscriptions s.heap)[c]?).map
          (fun q : Chan δ => q.closed) = (s.heap[c]?).map (fun q : Chan δ => q.closed) := by
      intro c
      rw [fanOutSpec_getElem?]
      cases s.heap[c]? <;> rfl
    have hopen1 : AllOpen (fanOutSpec ⟨n, d, t.nextOffset⟩ t.subscriptions s.heap)
        t.subscriptions := by
      intro sub hs c hc
      rw [hclosed]
      exact hopen sub hs c hc
    obtain ⟨s', hrun, ht', hlen, hcl, hun⟩ := ih
      ⟨⟨storeTopic s.ps.topics n
          { t with messages := t.messages ++ [⟨n, d, t.nextOffset⟩],
                   nextOffset := t.nextOffset + 1 }⟩,
        fanOutSpec ⟨n, d, t.nextOffset⟩ t.subscriptions s.heap⟩
      { t with messages := t.messages ++ [⟨n, d, t.nextOffset⟩],
               nextOffset := t.nextOffset + 1 }
      (lookupTopic_storeTopic_same _ _ _ _ ht) hopen1
    refine ⟨s', ?_, ?_, ?_, ?_, ?_⟩
    · simp only [List.map_cons, run, step, hpub, hrun, List.length_cons, List.replicate_succ]
    · rw [ht']
      simp only [stamp, List.append_assoc, List.singleton_append, List.length_cons,
        Nat.cast_succ]
      congr 2
      omega
    · rw [hlen, fanOutSpec_length]
    · intro c
      rw [hcl, hclosed]
    · intro c hc
      rw [hun c hc, fanOutSpec_getElem?, hc]
      cases s.heap[c]? with
      | none => rfl
      | some q => simp

/-- A subscriber that arrives late, on a fresh channel large enough for the
log, gets the whole log from `ResetOffset(.., 0)`. -/
theorem replay_to_new_subscriber (s : State δ) (n id2 : String) (t : Topic δ) (cap : Nat)
    (ht : s.topic n = some t) (hnew : ∀ sub ∈ t.subscriptions, sub.subscriberID ≠ id2)
    (hcap : t.messages.length ≤ cap) :
    ∃ s3, run s [.makeChan cap, .subscribe n id2 (some s.heap.length), .resetOffset n id2 0]
        = some (s3, [none, none, none]) ∧
      s3.heap[s.heap.length]? = some { buf := t.messages, cap := cap, closed := false } ∧
      s3.topic n = some { t with
        subscriptions := t.subscriptions ++ [⟨id2, some s.heap.length⟩] } := by
  have e1 : step s (.makeChan cap)
      = .ok (⟨s.ps, s.heap ++ [({ buf := [], cap := cap, closed := false } : Chan δ)]⟩, none) := rfl
  have ht1 : State.topic (⟨s.ps, s.heap ++ [{ buf := [], cap := cap, closed := false }]⟩ :
      State δ) n = some t := ht
  have e2 : step (⟨s.ps, s.heap ++ [{ buf := [], cap := cap, closed := false }]⟩ : State δ)
      (.subscribe n id2 (some s.heap.length))
      = .ok (⟨⟨storeTopic s.ps.topics n
          { t with subscriptions := t.subscriptions ++ [⟨id2, some s.heap.length⟩] }⟩,
          s.heap ++ [{ buf := [], cap := cap, closed := false }]⟩, none) := by
    simp only [step, List.length_append, List.length_singleton, Nat.lt_succ_self, if_true]
    exact Subscribe_of_some id2 (some s.heap.length) ht1
  have ht2 : State.topic (⟨⟨storeTopic s.ps.topics n
      { t with subscriptions := t.subscriptions ++ [⟨id2, some s.heap.length⟩] }⟩,
      s.heap ++ [{ buf := [], cap := cap, closed := false }]⟩ : State δ) n
      = some { t with subscriptions := t.subscriptions ++ [⟨id2, some s.heap.length⟩] } :=
    lookupTopic_storeTopic_same _ _ _ _ ht
  have hreset := ResetOffset_of_some id2 0 ht2
  simp only at hreset
  rw [findChannel_append_new id2 _ _ hnew] at hreset
  simp only at hreset
  have hq : (s.heap ++ [({ buf := [], cap := cap, closed := false } : Chan δ)])[s.heap.length]?
      = some { buf := [], cap := cap, closed := false } := by simp
  rw [replayLoop_open t.messages s.heap.length _ 0 _ _ hq rfl (le_refl 0) (by omega)]
    at hreset
  simp only at hreset
  refine ⟨⟨⟨storeTopic s.ps.topics n
      { t with subscriptions := t.subscriptions ++ [⟨id2, some s.heap.length⟩] }⟩,
    (s.heap ++ [({ buf := [], cap := cap, closed := false } : Chan δ)]).set s.heap.length
      { buf := [] ++ List.take (cap - ([] : List (Message δ)).length)
          (List.drop (Int.toNat 0) t.messages), cap := cap, closed := false }⟩, ?_, ?_, ?_⟩
  · have e3 : step (⟨⟨storeTopic s.ps.topics n
        { t with subscriptions := t.subscriptions ++ [⟨id2, some s.heap.length⟩] }⟩,
        s.heap ++ [{ buf := [], cap := cap, closed := false }]⟩ : State δ)
        (.resetOffset n id2 0) = _ := hreset
    simp only [run, e1, e2, e3]
  · simp [List.take_of_length_le hcap]
  · exact ht2

/-- What a successful `Unsubscribe` did: it closed one open channel `c`, that
of the last matching subscription, and kept the subscriptions with another
ID. -/
theorem Unsubscribe_ok_inv {s s1 : State δ} {n id : String} {t : Topic δ}
    (ht : s.topic n = some t) (h : Unsubscribe s n id = .ok (s1, none)) :
    ∃ c q, s.heap[c]? = some q ∧ q.closed = false ∧
      s1 = ⟨⟨storeTopic s.ps.topics n { t with
          subscriptions := t.subscriptions.filter (fun x => decide (x.subscriberID ≠ id)) }⟩,
        s.heap.set c { q with closed := true }⟩ := by
  rw [Unsubscribe_of_some id ht] at h
  have hfst : (unsubscribeLoop id t.subscriptions ([], none)).1
      = t.subscriptions.filter (fun x => decide (x.subscriberID ≠ id)) := by
    rw [unsubscribeLoop_eq]
    simp
  rw [hfst] at h
  cases hr : (unsubscribeLoop id t.subscriptions ([], none)).2 with
  | none =>
    rw [hr] at h
    simp at h
  | some c =>
    rw [hr] at h
    simp only [closeChan] at h
    cases hq : s.heap[c]? with
    | none => rw [hq] at h; simp at h
    | some q =>
      rw [hq] at h
      cases hcl : q.closed with
      | true => simp [hcl] at h
      | false =>
        simp only [hcl, Bool.false_eq_true, if_false, Res.ok.injEq, Prod.mk.injEq,
          and_true] at h
        exact ⟨c, q, hq, hcl, h.symm⟩

theorem subscribedTimes_eq_zero {c : Nat} {subs : List Subscription}
    (h : ∀ sub ∈ subs, sub.channel ≠ some c) : subscribedTimes c subs = 0 := by
  unfold subscribedTimes
  rw [List.count_eq_zero]
  intro hmem
  obtain ⟨sub, hs, hc⟩ := List.mem_map.mp hmem
  exact h sub hs hc

/-- With all channels open: after a successful `Unsubscribe(topic, sub1)`, with the channels of
the remaining subscriptions open, no subscription of `sub1` is left; the later
publishes to the topic all return nil, leave the channel that the unsubscribe
closed exactly as it was, and append their messages to the log with the next
offsets.  A subscriber that then arrives under an ID not in use on the topic,
on a fresh channel with room for the log, gets from `ResetOffset(.., 0)` the
whole log, the messages published after the unsubscribe included. -/
theorem publish_after_unsubscribe_open (s s1 : State δ) (n id id2 : String) (t : Topic δ)
    (ds : List δ) (cap : Nat) (ht : s.topic n = some t)
    (hun : Unsubscribe s n id = .ok (s1, none))
    (hopen : ∀ t1, s1.topic n = some t1 → AllOpen s1.heap t1.subscriptions)
    (hnew : ∀ sub ∈ t.subscriptions, sub.subscriberID ≠ id → sub.subscriberID ≠ id2)
    (hcap : t.messages.length + ds.length ≤ cap) :
    ∃ (c : Nat) (q : Chan δ) (s2 s3 : State δ),
      s.heap[c]? = some q ∧ s1.heap[c]? = some { q with closed := true } ∧
      (∀ t1, s1.topic n = some t1 → ∀ sub ∈ t1.subscriptions, sub.subscriberID ≠ id) ∧
      run s1 (ds.map (Op.publish n)) = some (s2, List.replicate ds.length none) ∧
      s2.heap[c]? = s1.heap[c]? ∧
      (∃ t2, s2.topic n = some t2 ∧
        t2.messages = t.messages ++ stamp n t.nextOffset ds ∧
        t2.nextOffset = t.nextOffset + (ds.length : Int)) ∧
      run s2 [.makeChan cap, .subscribe n id2 (some s2.heap.length), .resetOffset n id2 0]
        = some (s3, [none, none, none]) ∧
      s3.heap[s2.heap.length]? = some
        { buf := t.messages ++ stamp n t.nextOffset ds, cap := cap, closed := false } := by
  obtain ⟨c, q, hq, hqopen, rfl⟩ := Unsubscribe_ok_inv ht hun
  have hc := getElem?_lt_of_some hq
  have ht1 := lookupTopic_storeTopic_same s.ps.topics n t
    { t with subscriptions := t.subscriptions.filter (fun x => decide (x.subscriberID ≠ id)) } ht
  have hopen1 := hopen _ ht1
  have hc1 : (s.heap.set c { q with closed := true })[c]? = some { q with closed := true } := by
    simp [List.getElem?_set, hc]
  have hzero : subscribedTimes c
      (t.subscriptions.filter (fun x => decide (x.subscriberID ≠ id))) = 0 := by
    apply subscribedTimes_eq_zero
    intro sub hs hch
    have := hopen1 sub hs c hch
    simp only at this
    rw [hc1] at this
    simp at this
  obtain ⟨s2, hrun, ht2, _, _, hun2⟩ := run_publishes_open n ds
    ⟨⟨storeTopic s.ps.topics n { t with
        subscriptions := t.subscriptions.filter (fun x => decide (x.subscriberID ≠ id)) }⟩,
      s.heap.set c { q with closed := true }⟩
    { t with subscriptions := t.subscriptions.filter (fun x => decide (x.subscriberID ≠ id)) }
    ht1 hopen1
  obtain ⟨s3, hrun3, hheap3, _⟩ := replay_to_new_subscriber s2 n id2 _ cap ht2
    (by
      intro sub hs
      have hm := List.mem_filter.mp hs
      exact hnew sub hm.1 (by simpa using hm.2))
    (by simp [stamp_length]; omega)
  refine ⟨c, q, s2, s3, hq, hc1, ?_, hrun, hun2 c hzero, ⟨_, ht2, rfl, rfl⟩, hrun3, hheap3⟩
  intro t1 h1 sub hs
  rw [State.topic, ht1] at h1
  cases h1
  simpa using (List.mem_filter.mp hs).2

/-- Scenario 5 of the specification: after scenario 1, "sub1" unsubscribes, "m3"
is published, and the late subscriber "sub3" replays from 0 and receives the
offsets 0, 1, 2, 3. -/
theorem publish_after_unsubscribe_open_example :
    (scenario1.topic "t1" = some scenario1Topic ∧
      Unsubscribe scenario1 "t1" "sub1" = .ok (scenario1Unsubscribed, none)) ∧
    (∃ (c : Nat) (q : Chan String) (s2 s3 : State String),
      scenario1.heap[c]? = some q ∧
      scenario1Unsubscribed.heap[c]? = some { q with closed := true } ∧
      (∀ t1, scenario1Unsubscribed.topic "t1" = some t1 →
        ∀ sub ∈ t1.subscriptions, sub.subscriberID ≠ "sub1") ∧
      run scenario1Unsubscribed (["m3"].map (Op.publish "t1"))
        = some (s2, List.replicate 1 none) ∧
      s2.heap[c]? = scenario1Unsubscribed.heap[c]? ∧
      (∃ t2, s2.topic "t1" = some t2 ∧
        t2.messages = scenario1Topic.messages ++ stamp "t1" scenario1Topic.nextOffset ["m3"] ∧
        t2.nextOffset = scenario1Topic.nextOffset + 1) ∧
      run s2 [.makeChan 10, .subscribe "t1" "sub3" (some s2.heap.length),
          .resetOffset "t1" "sub3" 0] = some (s3, [none, none, none]) ∧
      s3.heap[s2.heap.length]? = some
        { buf := scenario1Topic.messages ++ stamp "t1" scenario1Topic.nextOffset ["m3"],
          cap := 10, closed := false }) ∧
    (scenario1Topic.messages ++ stamp "t1" scenario1Topic.nextOffset ["m3"]).map
      (fun m => m.Offset) = [0, 1, 2, 3] :=
  ⟨⟨by decide, by decide⟩,
    publish_after_unsubscribe_open scenario1 scenario1Unsubscribed "t1" "sub1" "sub3"
      scenario1Topic ["m3"] 10 (by decide) (by decide)
      (by
        intro t1 h1 sub hs
        have e : t1 = { scenario1Topic with subscriptions := [] } := by
          have h2 : scenario1Unsubscribed.topic "t1"
              = some { scenario1Topic with subscriptions := [] } := by decide
          rw [h2] at h1
          exact (Option.some.inj h1).symm
        subst e
        simp at hs)
      (by decide) (by decide),
    by decide⟩

/-! ## Topics are independent -/

theorem Subscribe_other {s s' : State δ} {A B id : String} {ch : Option Nat}
    {err : Option String} (hAB : B ≠ A) (h : Subscribe s A id ch = .ok (s', err)) :
    s'.topic B = s.topic B := by
  cases hA : s.topic A with
  | none =>
    rw [Subscribe_of_none id ch hA] at h
    simp only [Res.ok.injEq, Prod.mk.injEq] at h
    rw [← h.1]
  | some t =>
    rw [Subscribe_of_some id ch hA] at h
    simp only [Res.ok.injEq, Prod.mk.injEq] at h
    rw [← h.1]
    exact lookupTopic_storeTopic_other _ _ _ _ hAB

theorem Unsubscribe_other {s s' : State δ} {A B id : String} {err : Option String}
    (hAB : B ≠ A) (h : Unsubscribe s A id = .ok (s', err)) :
    s'.topic B = s.topic B := by
  cases hA : s.topic A with
  | none =>
    rw [Unsubscribe_of_none id hA] at h
    simp only [Res.ok.injEq, Prod.mk.injEq] at h
    rw [← h.1]
  | some t =>
    rw [Unsubscribe_of_some id hA] at h
    split at h
    · split at h
      · exact absurd h (by simp)
      · simp only [Res.ok.injEq, Prod.mk.injEq] at h
        rw [← h.1]
        exact lookupTopic_storeTopic_other _ _ _ _ hAB
    · simp only [Res.ok.injEq, Prod.mk.injEq] at h
      rw [← h.1]
      exact lookupTopic_storeTopic_other _ _ _ _ hAB

theorem Publish_other {s s' : State δ} {A B : String} {data : δ} {err : Option String}
    (hAB : B ≠ A) (h : Publish s A data = .ok (s', err)) :
    s'.topic B = s.topic B := by
  cases hA : s.topic A with
  | none =>
    rw [Publish_of_none data hA] at h
    simp only [Res.ok.injEq, Prod.mk.injEq] at h
    rw [← h.1]
  | some t => exact (Publish_topic hA h).2.2 B hAB

/-- C26: an operation addressed to topic `A` that returns (`Subscribe`,
`Unsubscribe`, `Publish`, `ResetOffset`) leaves every other topic `B` as it
was: the same log, the same `nextOffset`, the same subscription list (and no
topic appears or disappears).  Each topic has its own offset space: a
`Publish` to `A` never advances the offsets of `B`. -/
theorem C26_topics_independent (s : State δ) (A B : String) (hAB : B ≠ A) :
    (∀ id ch s' err, Subscribe s A id ch = .ok (s', err) → s'.topic B = s.topic B) ∧
    (∀ id s' err, Unsubscribe s A id = .ok (s', err) → s'.topic B = s.topic B) ∧
    (∀ data s' err, Publish s A data = .ok (s', err) → s'.topic B = s.topic B) ∧
    (∀ id k s' err, ResetOffset s A id k = .ok (s', err) → s'.topic B = s.topic B) := by
  refine ⟨?_, ?_, ?_, ?_⟩
  · intro id ch s' err h
    exact Subscribe_other hAB h
  · intro id s' err h
    exact Unsubscribe_other hAB h
  · intro data s' err h
    exact Publish_other hAB h
  · intro id k s' err h
    have := ResetOffset_ps h
    unfold State.topic
    rw [this]

/-- Witness of C26 on `closedButSubscribed`, which has the topics "a" and "b":
a publish to "a" leaves "b" with its empty log and `nextOffset = 0`. -/
theorem C26_topics_independent_witness :
    ("b" ≠ "a") ∧
    ((∀ id ch s' err, Subscribe closedButSubscribed "a" id ch = .ok (s', err) →
        s'.topic "b" = closedButSubscribed.topic "b") ∧
      (∀ id s' err, Unsubscribe closedButSubscribed "a" id = .ok (s', err) →
        s'.topic "b" = closedButSubscribed.topic "b") ∧
      (∀ data s' err, Publish closedButSubscribed "a" data = .ok (s', err) →
        s'.topic "b" = closedButSubscribed.topic "b") ∧
      (∀ id k s' err, ResetOffset closedButSubscribed "a" id k = .ok (s', err) →
        s'.topic "b" = closedButSubscribed.topic "b")) ∧
    (∃ s', Publish closedButSubscribed "a" "x" = .ok (s', none) ∧
      (s'.topic "a").map (fun t => t.nextOffset) = some 1 ∧
      (s'.topic "b").map (fun t => t.nextOffset) = some 0) :=
  ⟨by decide, C26_topics_independent closedButSubscribed "a" "b" (by decide),
    ⟨_, rfl, by decide, by decide⟩⟩

/-! ## Closed channels that stay registered -/

/-- C28 (fails on the code): the state reached through `NewSubscriber`,
`SubscribeTo` "a", `SubscribeTo` "b", `UnsubscribeFrom` "a" keeps, in the
subscription list of "b", the one channel of the subscriber, which
`Unsubscribe` has just closed.  The claim's own case (one channel, two topics,
unsubscribed from one) is the failing one: the later `UnsubscribeFrom` "b"
closes the closed channel again and panics. -/
theorem C28_closed_channel_stays_subscribed :
    (∃ s1 s2 s3 sub s4 s5,
      CreateTopic (initState : State String) "a" = .ok (s1, none) ∧
      CreateTopic s1 "b" = .ok (s2, none) ∧
      NewSubscriber s2 "s1" = (s3, sub) ∧
      sub.SubscribeTo s3 "a" = .ok (s4, none) ∧
      sub.SubscribeTo s4 "b" = .ok (s5, none) ∧
      sub.UnsubscribeFrom s5 "a" = .ok (closedButSubscribed, none) ∧
      sub.UnsubscribeFrom closedButSubscribed "b" = .panic "close of closed channel") ∧
    (closedButSubscribed.topic "b").map (fun t => t.subscriptions) = some [⟨"s1", some 0⟩] ∧
    closedButSubscribed.heap[0]?.map (fun q => q.closed) = some true := by
  refine ⟨⟨_, _, _, _, _, _, rfl, rfl, rfl, rfl, rfl, ?_, ?_⟩, ?_, ?_⟩
  · decide
  · decide
  · decide
  · decide

/-! ## What Unsubscribe keeps -/

theorem Unsubscribe_ok_channel {s s1 : State δ} {n id : String} {t : Topic δ}
    (ht : s.topic n = some t) (h : Unsubscribe s n id = .ok (s1, none)) :
    ∃ (last : Subscription) (c : Nat) (q : Chan δ),
      (t.subscriptions.filter (fun x => decide (x.subscriberID = id))).getLast? = some last ∧
      last.channel = some c ∧ s.heap[c]? = some q ∧ q.closed = false ∧
      s1 = ⟨⟨storeTopic s.ps.topics n { t with
          subscriptions := t.subscriptions.filter (fun x => decide (x.subscriberID ≠ id)) }⟩,
        s.heap.set c { q with closed := true }⟩ := by
  rw [Unsubscribe_of_some id ht] at h
  have hloop := unsubscribeLoop_eq id t.subscriptions [] none
  simp only [List.nil_append] at hloop
  rw [hloop] at h
  dsimp only at h
  cases hl : (t.subscriptions.filter (fun x => decide (x.subscriberID = id))).getLast? with
  | none =>
    rw [hl] at h
    simp at h
  | some last =>
    rw [hl] at h
    dsimp only at h
    cases hc : last.channel with
    | none =>
      rw [hc] at h
      simp at h
    | some c =>
      rw [hc] at h
      simp only [closeChan] at h
      cases hq : s.heap[c]? with
      | none => rw [hq] at h; simp at h
      | some q =>
        rw [hq] at h
        cases hcl : q.closed with
        | true => simp [hcl] at h
        | false =>
          simp only [hcl, Bool.false_eq_true, if_false, Res.ok.injEq, Prod.mk.injEq,
            and_true] at h
          exact ⟨last, c, q, rfl, hc, hq, hcl, h.symm⟩

/-- C29 (fails on the code): one channel is registered on "t1" under the IDs
"a" and "b".  `Unsubscribe("t1", "a")` returns nil and keeps the subscription
of "b", whose ID differs from "a"; the channel of that kept subscription was
open before the call and is closed after it, its contents unchanged. -/
theorem C29_unsubscribe_closes_kept_channel :
    (∃ s1 s2 sub s3,
      CreateTopic (initState : State String) "t1" = .ok (s1, none) ∧
      NewSubscriber s1 "a" = (s2, sub) ∧
      sub.SubscribeTo s2 "t1" = .ok (s3, none) ∧
      Subscribe s3 "t1" "b" sub.channel = .ok (sharedChannelDemo, none)) ∧
    (∃ s', Unsubscribe sharedChannelDemo "t1" "a" = .ok (s', none) ∧
      (s'.topic "t1").map (fun t => t.subscriptions) = some [⟨"b", some 0⟩] ∧
      sharedChannelDemo.heap[0]? = some { buf := [], cap := 10, closed := false } ∧
      s'.heap[0]? = some { buf := [], cap := 10, closed := true }) := by
  refine ⟨⟨_, _, _, _, rfl, rfl, rfl, ?_⟩, ⟨_, rfl, ?_, ?_, ?_⟩⟩
  · decide
  · decide
  · decide
  · decide

/-- The frame of `Unsubscribe`: a successful `Unsubscribe(topic, id)` keeps exactly the
subscriptions whose `subscriberID` differs from `id`, in their order, and
leaves the topic's log and `nextOffset` unchanged.  It closes one channel `c`,
that of the last subscription registered under `id`.  Every channel keeps its
contents and capacity; every channel other than `c` is untouched, so a kept
subscription has its channel's open state untouched unless it shares `c`. -/
theorem Unsubscribe_keeps_others (s s' : State δ) (n id : String) (t : Topic δ)
    (ht : s.topic n = some t) (h : Unsubscribe s n id = .ok (s', none)) :
    ∃ (t' : Topic δ) (last : Subscription) (c : Nat),
      s'.topic n = some t' ∧
      t'.subscriptions = t.subscriptions.filter (fun x => decide (x.subscriberID ≠ id)) ∧
      (∀ x ∈ t.subscriptions, x.subscriberID ≠ id → x ∈ t'.subscriptions) ∧
      t'.messages = t.messages ∧ t'.nextOffset = t.nextOffset ∧
      (t.subscriptions.filter (fun x => decide (x.subscriberID = id))).getLast? = some last ∧
      last.channel = some c ∧
      (∀ (c' : Nat) (q : Chan δ), s.heap[c']? = some q →
        ∃ q', s'.heap[c']? = some q' ∧ q'.buf = q.buf ∧ q'.cap = q.cap ∧
          (c' ≠ c → q'.closed = q.closed)) ∧
      (∀ x ∈ t'.subscriptions, x.channel ≠ some c →
        ∀ c', x.channel = some c' → s'.heap[c']? = s.heap[c']?) := by
  obtain ⟨last, c, q, hlast, hch, hq, hopen, hs'⟩ := Unsubscribe_ok_channel ht h
  have hstore := lookupTopic_storeTopic_same s.ps.topics n t
    { t with subscriptions := t.subscriptions.filter (fun x => decide (x.subscriberID ≠ id)) } ht
  refine ⟨{ t with
      subscriptions := t.subscriptions.filter (fun x => decide (x.subscriberID ≠ id)) },
    last, c, ?_, rfl, ?_, rfl, rfl, hlast, hch, ?_, ?_⟩
  · rw [hs']
    exact hstore
  · intro x hx hne
    exact List.mem_filter.mpr ⟨hx, by simpa using hne⟩
  · intro c' q0 hq0
    rw [hs']
    by_cases hcc : c' = c
    · subst hcc
      rw [hq] at hq0
      cases hq0
      have hlt := getElem?_lt_of_some hq
      refine ⟨{ q with closed := true }, ?_, rfl, rfl, fun hne => absurd rfl hne⟩
      simp [List.getElem?_set, hlt]
    · refine ⟨q0, ?_, rfl, rfl, fun _ => rfl⟩
      show (s.heap.set c { q with closed := true })[c']? = some q0
      rw [List.getElem?_set_ne (fun hEq => hcc hEq.symm)]
      exact hq0
  · intro x _ hne c' hc'
    rw [hs']
    show (s.heap.set c { q with closed := true })[c']? = s.heap[c']?
    have hcc : c ≠ c' := by
      intro hEq
      apply hne
      rw [hc', hEq]
    rw [List.getElem?_set_ne hcc]

/-- The frame of `Unsubscribe` on `duplicateIdDemo`: unsubscribing "s" keeps the
subscription "other" and leaves its channel 2 as it was. -/
theorem Unsubscribe_keeps_others_example :
    ∃ s', duplicateIdDemo.topic "t1" = some duplicateIdTopic ∧
      Unsubscribe duplicateIdDemo "t1" "s" = .ok (s', none) ∧
      ∃ (t' : Topic String) (last : Subscription) (c : Nat),
        s'.topic "t1" = some t' ∧
        t'.subscriptions
          = duplicateIdTopic.subscriptions.filter (fun x => decide (x.subscriberID ≠ "s")) ∧
        (∀ x ∈ duplicateIdTopic.subscriptions, x.subscriberID ≠ "s" → x ∈ t'.subscriptions) ∧
        t'.messages = duplicateIdTopic.messages ∧
        t'.nextOffset = duplicateIdTopic.nextOffset ∧
        (duplicateIdTopic.subscriptions.filter
          (fun x => decide (x.subscriberID = "s"))).getLast? = some last ∧
        last.channel = some c ∧
        (∀ (c' : Nat) (q : Chan String), duplicateIdDemo.heap[c']? = some q →
          ∃ q', s'.heap[c']? = some q' ∧ q'.buf = q.buf ∧ q'.cap = q.cap ∧
            (c' ≠ c → q'.closed = q.closed)) ∧
        (∀ x ∈ t'.subscriptions, x.channel ≠ some c →
          ∀ c', x.channel = some c' → s'.heap[c']? = duplicateIdDemo.heap[c']?) :=
  ⟨_, rfl, rfl, Unsubscribe_keeps_others duplicateIdDemo _ "t1" "s" duplicateIdTopic rfl rfl⟩

/-! ## Operations that meet a closed channel -/

/-- C4 (fails on the code): subscriber "s1" is subscribed to "a" and "b", one
message is published to "b", and "s1" unsubscribes from "a", which closes its
only channel.  "b" exists, its log holds one message and "s1" is registered on
it, but `ResetOffset("b", "s1", 0)` does not return nil: the replay sends on
the closed channel and panics.  Likewise a subscription registered with a nil
channel is not found by `ResetOffset`, which returns "Subscriber not found". -/
theorem C4_reset_offset_on_closed_channel :
    (∃ s1 s2 s3 sub s4 s5 s6,
      CreateTopic (initState : State String) "a" = .ok (s1, none) ∧
      CreateTopic s1 "b" = .ok (s2, none) ∧
      NewSubscriber s2 "s1" = (s3, sub) ∧
      sub.SubscribeTo s3 "a" = .ok (s4, none) ∧
      sub.SubscribeTo s4 "b" = .ok (s5, none) ∧
      Publish s5 "b" "x" = .ok (s6, none) ∧
      sub.UnsubscribeFrom s6 "a" = .ok (replayClosedDemo, none)) ∧
    (replayClosedDemo.topic "b").map (fun t => (t.subscriptions, t.messages.length))
      = some ([⟨"s1", some 0⟩], 1) ∧
    ResetOffset replayClosedDemo "b" "s1" 0 = .panic "send on closed channel" ∧
    (run (initState : State String)
        [.createTopic "t1", .subscribe "t1" "s" none, .publish "t1" "x",
          .resetOffset "t1" "s" 0]).map (fun r => r.2)
      = some [none, none, none, some "Subscriber not found"] := by
  refine ⟨⟨_, _, _, _, _, _, _, rfl, rfl, rfl, rfl, rfl, rfl, ?_⟩, ?_, ?_, ?_⟩
  · decide
  · decide
  · decide
  · decide

/-- C6 (fails on the code): topic "b" has a single subscription, on a channel
of capacity 10 that is empty, and exists in a state reached through the API;
the channel was closed by the subscriber's `Unsubscribe` from topic "a".  The
first of three consecutive `Publish` calls to "b" does not return nil, it
panics with a send on a closed channel, so the run of the three does not
complete. -/
theorem C6_publish_into_closed_empty_channel :
    run (initState : State String)
        [.createTopic "a", .createTopic "b", .makeChan 10, .subscribe "a" "s1" (some 0),
          .subscribe "b" "s1" (some 0), .unsubscribe "a" "s1"]
      = some (closedButSubscribed, [none, none, none, none, none, none]) ∧
    (closedButSubscribed.topic "b").map (fun t => (t.subscriptions, t.messages))
      = some ([⟨"s1", some 0⟩], []) ∧
    closedButSubscribed.heap[0]? = some { buf := [], cap := 10, closed := true } ∧
    step closedButSubscribed (.publish "b" "m0") = .panic "send on closed channel" ∧
    run closedButSubscribed [.publish "b" "m0", .publish "b" "m1", .publish "b" "m2"] = none := by
  refine ⟨?_, ?_, ?_, ?_, ?_⟩ <;> decide

/-- C12 (fails on the code): "sub1" is subscribed to "a", "sub2" to "a" and
"b".  `Unsubscribe("b", "sub2")` closes the channel of "sub2", which stays
registered on "a"; then `Unsubscribe("a", "sub1")` succeeds.  The next
`Publish` to "a" does not succeed: it sends on the closed channel of "sub2" and
panics, and nothing is appended to the log for a later subscriber to replay. -/
theorem C12_publish_panics_after_unsubscribe :
    run (initState : State String)
        [.createTopic "a", .createTopic "b", .makeChan 10, .makeChan 10,
          .subscribe "a" "sub1" (some 0), .subscribe "a" "sub2" (some 1),
          .subscribe "b" "sub2" (some 1), .unsubscribe "b" "sub2", .unsubscribe "a" "sub1"]
      = some (afterUnsubscribeDemo, [none, none, none, none, none, none, none, none, none]) ∧
    (afterUnsubscribeDemo.topic "a").map (fun t => t.subscriptions) = some [⟨"sub2", some 1⟩] ∧
    step afterUnsubscribeDemo (.publish "a" "x") = .panic "send on closed channel" ∧
    run afterUnsubscribeDemo [.publish "a" "x"] = none := by
  refine ⟨?_, ?_, ?_, ?_⟩ <;> decide

end OffsetBroker

namespace Pool

variable {τ ω : Type}

/-! ## SubmitJob and Shutdown -/

/-- `SubmitJob` seen as one step, with no worker waiting in the receive: on an open pool, `SubmitJob(job)` with a free slot in the job queue
puts the job at the tail of the queue, adds exactly one to the
outstanding-work counter and returns nil; with no free slot it returns the
error "job queue is full or pool is shut down" at once (it never blocks) and
leaves the pool, that is the queue, the result queue and the counter, as it
was. -/
theorem SubmitJob_one_step (w : WorkerPool τ ω) (job : Job τ)
    (hopen : w.JobsChannel.closed = false) :
    (w.JobsChannel.buf.length < w.JobsChannel.cap →
      ∃ w', w.SubmitJob job = .ok (w', none) ∧
        w'.JobsChannel.buf = w.JobsChannel.buf ++ [job] ∧
        w'.wg = w.wg + 1 ∧
        w'.JobsChannel.cap = w.JobsChannel.cap ∧ w'.JobsChannel.closed = false ∧
        w'.ResultsChannel = w.ResultsChannel ∧ w'.NoOfWorkers = w.NoOfWorkers) ∧
    (¬ w.JobsChannel.buf.length < w.JobsChannel.cap →
      w.SubmitJob job = .ok (w, some "job queue is full or pool is shut down")) := by
  constructor
  · intro hfree
    refine ⟨{ w with JobsChannel := { w.JobsChannel with buf := w.JobsChannel.buf ++ [job] },
                     wg := w.wg + 1 }, ?_, rfl, rfl, rfl, hopen, rfl, rfl⟩
    simp [WorkerPool.SubmitJob, hopen, hfree]
  · intro hfull
    simp [WorkerPool.SubmitJob, hopen, hfull]

/-- Example: the fresh demo pool accepts a job, the full pool rejects
it. -/
theorem SubmitJob_one_step_example :
    (demoPool.JobsChannel.closed = false ∧ fullPool.JobsChannel.closed = false) ∧
    (∃ w', demoPool.SubmitJob (squareJob 1) = .ok (w', none) ∧
      w'.JobsChannel.buf = demoPool.JobsChannel.buf ++ [squareJob 1] ∧
      w'.wg = demoPool.wg + 1 ∧
      w'.JobsChannel.cap = demoPool.JobsChannel.cap ∧ w'.JobsChannel.closed = false ∧
      w'.ResultsChannel = demoPool.ResultsChannel ∧ w'.NoOfWorkers = demoPool.NoOfWorkers) ∧
    fullPool.SubmitJob (squareJob 2)
      = .ok (fullPool, some "job queue is full or pool is shut down") :=
  ⟨⟨rfl, rfl⟩, (SubmitJob_one_step demoPool (squareJob 1) rfl).1 (by decide),
    (SubmitJob_one_step fullPool (squareJob 2) rfl).2 (by decide)⟩

/-- On a pool whose job queue is closed, `SubmitJob` panics: the send case of
its `select` is a send on a closed channel. -/
theorem SubmitJob_closed (w : WorkerPool τ ω) (job : Job τ)
    (hclosed : w.JobsChannel.closed = true) :
    w.SubmitJob job = .panic "send on closed channel" := by
  simp [WorkerPool.SubmitJob, hclosed]

/-- C17 (fails on the code): `Shutdown` on the fresh demo pool closes the job
queue, and the next `SubmitJob` does not return the error "job queue is full
or pool is shut down": it panics with a send on a closed channel. -/
theorem C17_submit_after_shutdown_panics :
    ∃ p, demoPool.Shutdown = .ok p ∧ p.JobsChannel.closed = true ∧
      p.SubmitJob (squareJob 1) = .panic "send on closed channel" := by
  refine ⟨_, rfl, rfl, ?_⟩
  exact SubmitJob_closed _ _ rfl

/-! ## Pool completion with atomic steps -/

/-- What an accepted `SubmitJob` did to the system. -/
theorem Sys.SubmitJob_ok_inv [Task τ ω] {s s' : Sys τ ω} {job : Job τ} {err : Option String}
    (h : s.SubmitJob job = .ok (s', err)) :
    (err = none ∧ s.pool.JobsChannel.closed = false ∧
      s.pool.JobsChannel.buf.length < s.pool.JobsChannel.cap ∧
      s' = { s with
        pool := { s.pool with
          JobsChannel := { s.pool.JobsChannel with buf := s.pool.JobsChannel.buf ++ [job] },
          wg := s.pool.wg + 1 },
        accepted := s.accepted ++ [job] }) ∨
    (err = some "job queue is full or pool is shut down" ∧
      ¬ s.pool.JobsChannel.buf.length < s.pool.JobsChannel.cap ∧ s' = s) := by
  unfold Sys.SubmitJob WorkerPool.SubmitJob at h
  cases hc : s.pool.JobsChannel.closed with
  | true => simp [hc] at h
  | false =>
    by_cases hfree : s.pool.JobsChannel.buf.length < s.pool.JobsChannel.cap
    · simp only [hc, Bool.false_eq_true, if_false, hfree, if_true, Step.ok.injEq,
        Prod.mk.injEq] at h
      exact Or.inl ⟨h.2.symm, rfl, hfree, by rw [← h.1]; simp [hc]⟩
    · simp only [hc, Bool.false_eq_true, if_false, hfree, Step.ok.injEq,
        Prod.mk.injEq] at h
      exact Or.inr ⟨h.2.symm, hfree, h.1.symm⟩

/-- What an atomic worker step did to the system. -/
theorem Sys.work_ok_inv [Task τ ω] {s s' : Sys τ ω} {i : Nat} (h : s.work i = .ok s') :
    ∃ job rest, s.workers[i]? = some .idle ∧ s.pool.JobsChannel.buf = job :: rest ∧
      0 ≤ s.pool.wg - 1 ∧
      s'.accepted = s.accepted ∧ s'.emitted = s.emitted ++ [resultOf job] ∧
      s'.pool.JobsChannel.buf = rest ∧ s'.pool.wg = s.pool.wg - 1 ∧
      s'.workers = s.workers := by
  unfold Sys.work at h
  cases ht : s.take i with
  | blocked => rw [ht] at h; simp at h
  | panic m => rw [ht] at h; simp at h
  | ok s1 =>
    rw [ht] at h
    dsimp only at h
    unfold Sys.take at ht
    cases hw : s.workers[i]? with
    | none => rw [hw] at ht; simp at ht
    | some wk =>
      rw [hw] at ht
      cases wk with
      | running j => simp at ht
      | emitted j => simp at ht
      | stopped => simp at ht
      | idle =>
        have hi := OffsetBroker.getElem?_lt_of_some hw
        cases hb : s.pool.JobsChannel.buf with
        | nil =>
          rw [hb] at ht
          dsimp only at ht
          split at ht
          · simp only [Step.ok.injEq] at ht
            subst ht
            simp [Sys.emit, List.getElem?_set, hi] at h
          · simp at ht
        | cons job rest =>
          rw [hb] at ht
          simp only [Step.ok.injEq] at ht
          subst ht
          cases he : Sys.emit { s with
              pool := { s.pool with JobsChannel := { s.pool.JobsChannel with buf := rest } },
              workers := s.workers.set i (.running job) } i with
          | blocked => rw [he] at h; simp at h
          | panic m => rw [he] at h; simp at h
          | ok s2 =>
            rw [he] at h
            dsimp only at h
            unfold Sys.emit at he
            simp only [List.getElem?_set, hi, if_true] at he
            split at he
            · simp at he
            · split at he
              · simp only [Step.ok.injEq] at he
                subst he
                unfold Sys.done at h
                simp only [List.getElem?_set, hi, if_true, List.length_set] at h
                split at h
                · simp at h
                · rename_i hneg
                  simp only [Step.ok.injEq] at h
                  subst h
                  refine ⟨job, rest, rfl, rfl, by omega, rfl, rfl, rfl, rfl, ?_⟩
                  simp only [List.set_set]
                  exact OffsetBroker.set_eq_self_of_getElem? _ _ _ hw
              · simp at he

theorem Sys.collect_ok_inv {s s' : Sys τ ω} (h : s.collect = .ok s') :
    s'.accepted = s.accepted ∧ s'.emitted = s.emitted ∧
      s'.pool.JobsChannel = s.pool.JobsChannel ∧ s'.pool.wg = s.pool.wg ∧
      s'.workers = s.workers := by
  unfold Sys.collect at h
  split at h
  · simp only [Step.ok.injEq] at h
    subst h
    exact ⟨rfl, rfl, rfl, rfl, rfl⟩
  · simp at h

theorem Sys.Shutdown_ok_inv {s s' : Sys τ ω} (h : s.Shutdown = .ok s') :
    s'.accepted = s.accepted ∧ s'.emitted = s.emitted ∧
      s'.pool.JobsChannel.buf = s.pool.JobsChannel.buf ∧ s'.pool.wg = s.pool.wg ∧
      s'.workers = s.workers := by
  unfold Sys.Shutdown WorkerPool.Shutdown at h
  split at h
  · rename_i p hp
    split at hp
    · simp at hp
    · simp only [Step.ok.injEq] at hp h
      subst hp
      subst h
      exact ⟨rfl, rfl, rfl, rfl, rfl⟩
  · simp at h
  · simp at h

/-- With atomic steps the results come out in the order of acceptance: the
results sent are those of the first accepted jobs, the queue holds the rest,
and the counter is the length of the queue. -/
theorem areach_inv [Task τ ω] {s : Sys τ ω} (h : AReach s) :
    s.emitted.length ≤ s.accepted.length ∧
    s.emitted = (s.accepted.take s.emitted.length).map resultOf ∧
    s.pool.JobsChannel.buf = s.accepted.drop s.emitted.length ∧
    s.pool.wg = (s.accepted.length : Int) - (s.emitted.length : Int) := by
  induction h with
  | new nw cap => simp [Sys.new, NewWorkerPool]
  | @step s s' a err hr hstep ih =>
    obtain ⟨hle, hem, hbuf, hwg⟩ := ih
    cases a with
    | start =>
      simp only [Sys.astep, Step.ok.injEq, Prod.mk.injEq] at hstep
      rw [← hstep.1]
      exact ⟨hle, hem, hbuf, hwg⟩
    | submit job =>
      simp only [Sys.astep] at hstep
      rcases Sys.SubmitJob_ok_inv hstep with ⟨_, _, _, rfl⟩ | ⟨_, _, rfl⟩
      · refine ⟨by simp; omega, ?_, ?_, ?_⟩
        · simp only [List.take_append_of_le_length hle]
          exact hem
        · simp only [List.drop_append_of_le_length hle, hbuf]
        · simp only [hwg, List.length_append, List.length_singleton, Nat.cast_add,
            Nat.cast_one]
          omega
      · exact ⟨hle, hem, hbuf, hwg⟩
    | work i =>
      simp only [Sys.astep] at hstep
      cases hw : s.work i with
      | blocked => rw [hw] at hstep; simp at hstep
      | panic m => rw [hw] at hstep; simp at hstep
      | ok s1 =>
        rw [hw] at hstep
        simp only [Step.ok.injEq, Prod.mk.injEq] at hstep
        rw [← hstep.1]
        obtain ⟨job, rest, _, hq, _, hacc, hemit, hbuf', hwg', _⟩ := Sys.work_ok_inv hw
        rw [hq] at hbuf
        have hlt : s.emitted.length < s.accepted.length := by
          by_contra hge
          rw [List.drop_eq_nil_of_le (by omega)] at hbuf
          cases hbuf
        have hjob : s.accepted[s.emitted.length] = job := by
          have := List.drop_eq_getElem_cons hlt
          rw [← hbuf] at this
          exact (List.cons.inj this).1.symm
        have hrest : rest = s.accepted.drop (s.emitted.length + 1) := by
          have := List.drop_eq_getElem_cons hlt
          rw [← hbuf] at this
          exact (List.cons.inj this).2
        rw [hacc, hemit, hbuf', hwg']
        refine ⟨by simp; omega, ?_, ?_, ?_⟩
        · simp only [List.length_append, List.length_singleton]
          rw [List.take_succ, List.getElem?_eq_getElem hlt, hjob]
          simp only [Option.toList_some, List.map_append, List.map_cons, List.map_nil]
          rw [← hem]
        · simp only [List.length_append, List.length_singleton]
          exact hrest
        · simp only [hwg, List.length_append, List.length_singleton, Nat.cast_add,
            Nat.cast_one]
          omega
    | collect =>
      simp only [Sys.astep] at hstep
      cases hw : s.collect with
      | blocked => rw [hw] at hstep; simp at hstep
      | panic m => rw [hw] at hstep; simp at hstep
      | ok s1 =>
        rw [hw] at hstep
        simp only [Step.ok.injEq, Prod.mk.injEq] at hstep
        rw [← hstep.1]
        obtain ⟨hacc, hemit, hjc, hwg', _⟩ := Sys.collect_ok_inv hw
        rw [hacc, hemit, hjc, hwg']
        exact ⟨hle, hem, hbuf, hwg⟩
    | shutdown =>
      simp only [Sys.astep] at hstep
      cases hw : s.Shutdown with
      | blocked => rw [hw] at hstep; simp at hstep
      | panic m => rw [hw] at hstep; simp at hstep
      | ok s1 =>
        rw [hw] at hstep
        simp only [Step.ok.injEq, Prod.mk.injEq] at hstep
        rw [← hstep.1]
        obtain ⟨hacc, hemit, hjc, hwg', _⟩ := Sys.Shutdown_ok_inv hw
        rw [hacc, hemit, hjc, hwg']
        exact ⟨hle, hem, hbuf, hwg⟩

theorem areach_arun [Task τ ω] (acts : List (AtomicAction τ)) :
    ∀ {s s' : Sys τ ω}, AReach s → s.arun acts = some s' → AReach s' := by
  induction acts with
  | nil =>
    intro s s' hr h
    simp only [Sys.arun, Option.some.injEq] at h
    rw [← h]
    exact hr
  | cons a rest ih =>
    intro s s' hr h
    simp only [Sys.arun] at h
    cases hs : s.astep a with
    | blocked => rw [hs] at h; simp at h
    | panic m => rw [hs] at h; simp at h
    | ok r =>
      obtain ⟨s1, err⟩ := r
      rw [hs] at h
      exact ih (AReach.step hr hs) h

/-- C18: pool completion with atomic steps.  In every state reachable from
`NewWorkerPool` through `Start`, `SubmitJob`, atomic worker steps, collector
receives and `Shutdown`, the number of accepted jobs is the number of
`Result`s sent plus the outstanding-work counter, and the i-th `Result` sent
is the one of the i-th accepted job, so distinct `Result`s belong to distinct
accepted jobs.  `Wait` returns exactly when the counter is zero and is blocked
as long as it is not.  Hence when the counter is zero, and so whenever `Wait`
returns, the `Result`s sent are exactly those of the accepted jobs, one each,
carrying their JobIDs. -/
theorem C18_pool_completion [Task τ ω] (s : Sys τ ω) (h : AReach s) :
    (s.accepted.length : Int) = (s.emitted.length : Int) + s.pool.wg ∧
    (∀ i, i < s.emitted.length →
      ∃ job, s.accepted[i]? = some job ∧ s.emitted[i]? = some (resultOf job)) ∧
    (s.pool.wg = 0 →
      s.pool.Wait = .ok s.pool ∧
      s.emitted = s.accepted.map resultOf ∧
      s.emitted.map (fun r => r.JobID) = s.accepted.map (fun j => j.ID)) ∧
    (s.pool.wg ≠ 0 → s.pool.Wait = .blocked) ∧
    (∀ w', s.pool.Wait = .ok w' →
      w' = s.pool ∧ s.pool.wg = 0 ∧
      s.emitted = s.accepted.map resultOf ∧
      s.emitted.map (fun r => r.JobID) = s.accepted.map (fun j => j.ID)) := by
  obtain ⟨hle, hem, _, hwg⟩ := areach_inv h
  have hdone : s.pool.wg = 0 →
      s.emitted = s.accepted.map resultOf ∧
      s.emitted.map (fun r => r.JobID) = s.accepted.map (fun j => j.ID) := by
    intro hz
    have hlen : s.emitted.length = s.accepted.length := by omega
    have hall : s.emitted = s.accepted.map resultOf := by
      have hem' := hem
      rw [hlen, List.take_length] at hem'
      exact hem'
    refine ⟨hall, ?_⟩
    rw [hall, List.map_map]
    rfl
  refine ⟨by omega, ?_, ?_, ?_, ?_⟩
  rotate_left
  · intro hz
    exact ⟨by simp [WorkerPool.Wait, hz], hdone hz⟩
  · intro hnz
    simp [WorkerPool.Wait, hnz]
  · intro w' hw'
    unfold WorkerPool.Wait at hw'
    split at hw'
    · rename_i hz
      simp only [Step.ok.injEq] at hw'
      exact ⟨hw'.symm, hz, hdone hz⟩
    · simp at hw'
  · intro i hi
    have hia : i < s.accepted.length := by omega
    refine ⟨s.accepted[i], List.getElem?_eq_getElem hia, ?_⟩
    have := congrArg (fun l => l[i]?) hem
    simp only [List.getElem?_map, List.getElem?_take, hi, if_true,
      List.getElem?_eq_getElem hia, Option.map_some'] at this
    exact this

theorem demoDone_reach : AReach demoDone :=
  areach_arun [.start, .submit (squareJob 3), .submit (squareJob 7), .work 1, .work 0]
    (AReach.new 2 5) (by decide)

/-- Witness of C18: the demo pool after the jobs for 3 and 7 were accepted
and worked off; the job for 7 fails and still has its `Result`.  And the demo
pool with one job accepted and not yet worked off: `Wait` is blocked. -/
theorem C18_pool_completion_witness :
    AReach demoDone ∧
    ((demoDone.accepted.length : Int) = (demoDone.emitted.length : Int) + demoDone.pool.wg ∧
      (∀ i, i < demoDone.emitted.length →
        ∃ job, demoDone.accepted[i]? = some job ∧ demoDone.emitted[i]? = some (resultOf job)) ∧
      (demoDone.pool.wg = 0 →
        demoDone.pool.Wait = .ok demoDone.pool ∧
        demoDone.emitted = demoDone.accepted.map resultOf ∧
        demoDone.emitted.map (fun r => r.JobID) = demoDone.accepted.map (fun j => j.ID)) ∧
      (demoDone.pool.wg ≠ 0 → demoDone.pool.Wait = .blocked) ∧
      (∀ w', demoDone.pool.Wait = .ok w' →
        w' = demoDone.pool ∧ demoDone.pool.wg = 0 ∧
        demoDone.emitted = demoDone.accepted.map resultOf ∧
        demoDone.emitted.map (fun r => r.JobID) = demoDone.accepted.map (fun j => j.ID))) ∧
    (∃ s, Sys.arun (Sys.new 2 5 : Sys SquareTask Int) [.start, .submit (squareJob 3)] = some s ∧
      s.pool.wg = 1 ∧ s.pool.Wait = .blocked) :=
  ⟨demoDone_reach, C18_pool_completion demoDone demoDone_reach,
    ⟨_, rfl, rfl,
      (C18_pool_completion _
        (areach_arun [.start, .submit (squareJob 3)] (AReach.new 2 5) rfl)).2.2.2.1
        (by decide)⟩⟩

/-! ## Interleaved workers -/

theorem runningJobs_set (ws : List (Worker τ)) :
    ∀ (i : Nat) (old new : Worker τ), ws[i]? = some old →
      ((runningJobs (ws.set i new) : List (Job τ)) : Multiset (Job τ)) + ↑old.job?.toList
        = ↑(runningJobs ws) + ↑new.job?.toList := by
  induction ws with
  | nil => intro i old new h; simp at h
  | cons w rest ih =>
    intro i old new h
    cases i with
    | zero =>
      simp only [List.getElem?_cons_zero, Option.some.injEq] at h
      subst h
      simp only [List.set_cons_zero, runningJobs, ← Multiset.coe_add]
      abel
    | succ i =>
      simp only [List.getElem?_cons_succ] at h
      have := ih i old new h
      simp only [List.set_cons_succ, runningJobs, ← Multiset.coe_add]
      rw [add_assoc, this, ← add_assoc]

theorem busyCount_set (ws : List (Worker τ)) :
    ∀ (i : Nat) (old new : Worker τ), ws[i]? = some old →
      busyCount (ws.set i new) + old.busy = busyCount ws + new.busy := by
  induction ws with
  | nil => intro i old new h; simp at h
  | cons w rest ih =>
    intro i old new h
    cases i with
    | zero =>
      simp only [List.getElem?_cons_zero, Option.some.injEq] at h
      subst h
      simp only [List.set_cons_zero, busyCount]
      omega
    | succ i =>
      simp only [List.getElem?_cons_succ] at h
      have := ih i old new h
      simp only [List.set_cons_succ, busyCount]
      omega

theorem runningJobs_append_idle (ws : List (Worker τ)) (n : Nat) :
    runningJobs (ws ++ List.replicate n Worker.idle) = runningJobs ws ∧
      busyCount (ws ++ List.replicate n Worker.idle) = busyCount ws := by
  induction ws with
  | nil =>
    induction n with
    | zero => exact ⟨rfl, rfl⟩
    | succ n ih =>
      simp only [List.nil_append, List.replicate_succ, runningJobs, busyCount, Worker.job?,
        Worker.busy, Option.toList_none, List.nil_append, Nat.zero_add] at ih ⊢
      exact ih
  | cons w rest ih =>
    constructor
    · show w.job?.toList ++ runningJobs (rest ++ List.replicate n Worker.idle) = _
      rw [ih.1]
      rfl
    · show w.busy + busyCount (rest ++ List.replicate n Worker.idle) = _
      rw [ih.2]
      rfl

theorem Sys.take_ok_inv {s s' : Sys τ ω} {i : Nat} (h : s.take i = .ok s') :
    s.workers[i]? = some .idle ∧
    ((∃ job rest, s.pool.JobsChannel.buf = job :: rest ∧
        s' = { s with
          pool := { s.pool with JobsChannel := { s.pool.JobsChannel with buf := rest } },
          workers := s.workers.set i (.running job) }) ∨
      (s.pool.JobsChannel.buf = [] ∧ s.pool.JobsChannel.closed = true ∧
        s' = { s with workers := s.workers.set i .stopped })) := by
  unfold Sys.take at h
  cases hw : s.workers[i]? with
  | none => rw [hw] at h; simp at h
  | some wk =>
    rw [hw] at h
    cases wk with
    | running j => simp at h
    | emitted j => simp at h
    | stopped => simp at h
    | idle =>
      refine ⟨rfl, ?_⟩
      cases hb : s.pool.JobsChannel.buf with
      | nil =>
        rw [hb] at h
        dsimp only at h
        split at h
        · rename_i hc
          simp only [Step.ok.injEq] at h
          exact Or.inr ⟨rfl, hc, h.symm⟩
        · simp at h
      | cons job rest =>
        rw [hb] at h
        simp only [Step.ok.injEq] at h
        exact Or.inl ⟨job, rest, rfl, h.symm⟩

theorem Sys.emit_ok_inv [Task τ ω] {s s' : Sys τ ω} {i : Nat} (h : s.emit i = .ok s') :
    ∃ job, s.workers[i]? = some (.running job) ∧
      s.pool.ResultsChannel.closed = false ∧
      s.pool.ResultsChannel.buf.length < s.pool.ResultsChannel.cap ∧
      s' = { s with
        pool := { s.pool with ResultsChannel :=
          { s.pool.ResultsChannel with buf := s.pool.ResultsChannel.buf ++ [resultOf job] } },
        workers := s.workers.set i (.emitted job),
        emitted := s.emitted ++ [resultOf job] } := by
  unfold Sys.emit at h
  cases hw : s.workers[i]? with
  | none => rw [hw] at h; simp at h
  | some wk =>
    rw [hw] at h
    cases wk with
    | idle => simp at h
    | emitted j => simp at h
    | stopped => simp at h
    | running job =>
      dsimp only at h
      cases hc : s.pool.ResultsChannel.closed with
      | true => simp [hc] at h
      | false =>
        by_cases hfree : s.pool.ResultsChannel.buf.length < s.pool.ResultsChannel.cap
        · simp only [hc, Bool.false_eq_true, if_false, hfree, if_true, Step.ok.injEq] at h
          exact ⟨job, rfl, rfl, hfree, by rw [← h]; simp [hc]⟩
        · simp [hc, hfree] at h

theorem Sys.done_ok_inv {s s' : Sys τ ω} {i : Nat} (h : s.done i = .ok s') :
    ∃ job, s.workers[i]? = some (.emitted job) ∧ 0 ≤ s.pool.wg - 1 ∧
      s' = { s with pool := { s.pool with wg := s.pool.wg - 1 },
                    workers := s.workers.set i .idle } := by
  unfold Sys.done at h
  cases hw : s.workers[i]? with
  | none => rw [hw] at h; simp at h
  | some wk =>
    rw [hw] at h
    cases wk with
    | idle => simp at h
    | running j => simp at h
    | stopped => simp at h
    | emitted job =>
      dsimp only at h
      split at h
      · simp at h
      · rename_i hneg
        simp only [Step.ok.injEq] at h
        exact ⟨job, rfl, by omega, h.symm⟩

/-- One step keeps the bookkeeping of the pool: the accepted jobs are, as a
multiset, the jobs whose `Result` was sent, the jobs held by workers and the
queued jobs; the counter is the number of queued jobs plus the number of
workers between a take and their `Done`. -/
theorem step_inv [Task τ ω] {s s' : Sys τ ω} {a : Action τ} {err : Option String}
    (hstep : s.step a = .ok (s', err))
    (hm : (s.accepted : Multiset (Job τ)).map resultOf
      = ↑s.emitted + (↑(runningJobs s.workers) : Multiset (Job τ)).map resultOf
        + (↑s.pool.JobsChannel.buf : Multiset (Job τ)).map resultOf)
    (hwg : s.pool.wg = (s.pool.JobsChannel.buf.length : Int) + (busyCount s.workers : Int)) :
    ((s'.accepted : Multiset (Job τ)).map resultOf
      = ↑s'.emitted + (↑(runningJobs s'.workers) : Multiset (Job τ)).map resultOf
        + (↑s'.pool.JobsChannel.buf : Multiset (Job τ)).map resultOf) ∧
    s'.pool.wg = (s'.pool.JobsChannel.buf.length : Int) + (busyCount s'.workers : Int) := by
  cases a with
  | start =>
    simp only [Sys.step, Step.ok.injEq, Prod.mk.injEq] at hstep
    rw [← hstep.1]
    simp only [Sys.Start, (runningJobs_append_idle _ _).1, (runningJobs_append_idle _ _).2]
    exact ⟨hm, hwg⟩
  | submit job =>
    simp only [Sys.step] at hstep
    rcases Sys.SubmitJob_ok_inv hstep with ⟨_, _, _, rfl⟩ | ⟨_, _, rfl⟩
    · constructor
      · simp only [← Multiset.coe_add, Multiset.map_add, hm]
        abel
      · simp only [hwg, List.length_append, List.length_singleton, Nat.cast_add, Nat.cast_one]
        omega
    · exact ⟨hm, hwg⟩
  | take i =>
    simp only [Sys.step] at hstep
    cases ht : s.take i with
    | blocked => rw [ht] at hstep; simp at hstep
    | panic m => rw [ht] at hstep; simp at hstep
    | ok s1 =>
      rw [ht] at hstep
      simp only [Step.ok.injEq, Prod.mk.injEq] at hstep
      rw [← hstep.1]
      obtain ⟨hw, hcase⟩ := Sys.take_ok_inv ht
      rcases hcase with ⟨job, rest, hb, rfl⟩ | ⟨hb, _, rfl⟩
      · have hr := runningJobs_set s.workers i _ (.running job) hw
        have hc := busyCount_set s.workers i _ (.running job) hw
        simp only [Worker.job?, Option.toList_none, Option.toList_some, Multiset.coe_nil,
          add_zero, Worker.busy] at hr hc
        rw [hb] at hm hwg
        constructor
        · simp only [hr, Multiset.map_add, hm, ← Multiset.cons_coe, Multiset.map_cons,
            ← Multiset.singleton_add, Multiset.coe_singleton, Multiset.map_singleton]
          abel
        · simp only [hwg, List.length_cons, Nat.cast_succ]
          omega
      · have hr := runningJobs_set s.workers i _ .stopped hw
        have hc := busyCount_set s.workers i _ .stopped hw
        simp only [Worker.job?, Option.toList_none, Multiset.coe_nil, add_zero,
          Worker.busy] at hr hc
        constructor
        · simp only [hr]
          exact hm
        · simp only [hwg]
          omega
  | emit i =>
    simp only [Sys.step] at hstep
    cases ht : s.emit i with
    | blocked => rw [ht] at hstep; simp at hstep
    | panic m => rw [ht] at hstep; simp at hstep
    | ok s1 =>
      rw [ht] at hstep
      simp only [Step.ok.injEq, Prod.mk.injEq] at hstep
      rw [← hstep.1]
      obtain ⟨job, hw, _, _, rfl⟩ := Sys.emit_ok_inv ht
      have hr := runningJobs_set s.workers i _ (.emitted job) hw
      have hc := busyCount_set s.workers i _ (.emitted job) hw
      simp only [Worker.job?, Option.toList_none, Option.toList_some, Multiset.coe_nil,
        add_zero, Worker.busy] at hr hc
      constructor
      · simp only [hm, ← hr, Multiset.map_add, ← Multiset.coe_add, Multiset.coe_singleton,
          Multiset.map_singleton]
        abel
      · simp only [hwg]
        omega
  | done i =>
    simp only [Sys.step] at hstep
    cases ht : s.done i with
    | blocked => rw [ht] at hstep; simp at hstep
    | panic m => rw [ht] at hstep; simp at hstep
    | ok s1 =>
      rw [ht] at hstep
      simp only [Step.ok.injEq, Prod.mk.injEq] at hstep
      rw [← hstep.1]
      obtain ⟨job, hw, _, rfl⟩ := Sys.done_ok_inv ht
      have hr := runningJobs_set s.workers i _ .idle hw
      have hc := busyCount_set s.workers i _ .idle hw
      simp only [Worker.job?, Option.toList_none, Multiset.coe_nil, add_zero,
        Worker.busy] at hr hc
      constructor
      · simp only [hr]
        exact hm
      · simp only [hwg]
        omega
  | collect =>
    simp only [Sys.step] at hstep
    cases ht : s.collect with
    | blocked => rw [ht] at hstep; simp at hstep
    | panic m => rw [ht] at hstep; simp at hstep
    | ok s1 =>
      rw [ht] at hstep
      simp only [Step.ok.injEq, Prod.mk.injEq] at hstep
      rw [← hstep.1]
      obtain ⟨hacc, hemit, hjc, hwg', hws⟩ := Sys.collect_ok_inv ht
      rw [hacc, hemit, hjc, hwg', hws]
      exact ⟨hm, hwg⟩
  | shutdown =>
    simp only [Sys.step] at hstep
    cases ht : s.Shutdown with
    | blocked => rw [ht] at hstep; simp at hstep
    | panic m => rw [ht] at hstep; simp at hstep
    | ok s1 =>
      rw [ht] at hstep
      simp only [Step.ok.injEq, Prod.mk.injEq] at hstep
      rw [← hstep.1]
      obtain ⟨hacc, hemit, hjc, hwg', hws⟩ := Sys.Shutdown_ok_inv ht
      rw [hacc, hemit, hjc, hwg', hws]
      exact ⟨hm, hwg⟩

theorem reach_inv [Task τ ω] {s : Sys τ ω} (h : Reach s) :
    ((s.accepted : Multiset (Job τ)).map resultOf
      = ↑s.emitted + (↑(runningJobs s.workers) : Multiset (Job τ)).map resultOf
        + (↑s.pool.JobsChannel.buf : Multiset (Job τ)).map resultOf) ∧
    s.pool.wg = (s.pool.JobsChannel.buf.length : Int) + (busyCount s.workers : Int) := by
  induction h with
  | new nw cap => simp [Sys.new, NewWorkerPool, runningJobs, busyCount]
  | step _ hstep ih => exact step_inv hstep ih.1 ih.2

theorem sys_reach_run [Task τ ω] (sched : List (Action τ)) :
    ∀ {s s' : Sys τ ω} {errs : List (Option String)},
      Reach s → s.run sched = some (s', errs) → Reach s' := by
  induction sched with
  | nil =>
    intro s s' errs hr h
    simp only [Sys.run, Option.some.injEq, Prod.mk.injEq] at h
    rw [← h.1]
    exact hr
  | cons a rest ih =>
    intro s s' errs hr h
    simp only [Sys.run] at h
    cases hs : s.step a with
    | blocked => rw [hs] at h; simp at h
    | panic m => rw [hs] at h; simp at h
    | ok r =>
      obtain ⟨s1, err⟩ := r
      rw [hs] at h
      dsimp only at h
      cases hrun : Sys.run s1 rest with
      | none => rw [hrun] at h; simp at h
      | some r2 =>
        obtain ⟨s2, errs2⟩ := r2
        rw [hrun] at h
        simp only [Option.some.injEq, Prod.mk.injEq] at h
        rw [← h.1]
        exact ih (Reach.step hr hs) hrun

theorem busy_le_busyCount (ws : List (Worker τ)) :
    ∀ (i : Nat) (w : Worker τ), ws[i]? = some w → w.busy ≤ busyCount ws := by
  induction ws with
  | nil => intro i w h; simp at h
  | cons x rest ih =>
    intro i w h
    cases i with
    | zero =>
      simp only [List.getElem?_cons_zero, Option.some.injEq] at h
      subst h
      simp [busyCount]
    | succ i =>
      simp only [List.getElem?_cons_succ] at h
      have := ih i w h
      simp only [busyCount]
      omega

/-! ## A worker and its job -/

/-- With room in the result queue: a worker that has taken a job, in a reachable state where the result
queue is open and has a free slot, sends exactly one `Result`, with
`JobID = job.ID` and the `(Output, Err)` that `job.Task.Execute()` returned,
then decrements the outstanding-work counter once and is back at the head of
its loop, whatever `Err` is; no step returns an error to anyone.  If a job is
queued, the worker takes it next. -/
theorem worker_emits_one_result [Task τ ω] (s : Sys τ ω) (i : Nat) (job : Job τ)
    (hr : Reach s) (hw : s.workers[i]? = some (.running job))
    (hopen : s.pool.ResultsChannel.closed = false)
    (hfree : s.pool.ResultsChannel.buf.length < s.pool.ResultsChannel.cap) :
    ∃ s1 s2, s.step (.emit i) = .ok (s1, none) ∧
      s1.pool.ResultsChannel.buf = s.pool.ResultsChannel.buf ++
        [{ JobID := job.ID, Err := (Task.Execute job.Task).2,
           Output := (Task.Execute job.Task).1 }] ∧
      s1.emitted = s.emitted ++
        [{ JobID := job.ID, Err := (Task.Execute job.Task).2,
           Output := (Task.Execute job.Task).1 }] ∧
      s1.pool.wg = s.pool.wg ∧
      s1.step (.done i) = .ok (s2, none) ∧
      s2.pool.wg = s.pool.wg - 1 ∧
      s2.emitted = s1.emitted ∧ s2.pool.ResultsChannel = s1.pool.ResultsChannel ∧
      s2.accepted = s.accepted ∧ s2.pool.JobsChannel = s.pool.JobsChannel ∧
      s2.workers[i]? = some .idle ∧
      (∀ next rest, s.pool.JobsChannel.buf = next :: rest →
        ∃ s3, s2.step (.take i) = .ok (s3, none) ∧ s3.workers[i]? = some (.running next) ∧
          s3.pool.JobsChannel.buf = rest) := by
  have hi := OffsetBroker.getElem?_lt_of_some hw
  have hwg := (reach_inv hr).2
  have hb := busy_le_busyCount s.workers i _ hw
  simp only [Worker.busy] at hb
  refine ⟨{ s with
      pool := { s.pool with ResultsChannel :=
        { s.pool.ResultsChannel with buf := s.pool.ResultsChannel.buf ++ [resultOf job] } },
      workers := s.workers.set i (.emitted job),
      emitted := s.emitted ++ [resultOf job] },
    { s with
      pool := { s.pool with
        ResultsChannel :=
          { s.pool.ResultsChannel with buf := s.pool.ResultsChannel.buf ++ [resultOf job] },
        wg := s.pool.wg - 1 },
      workers := (s.workers.set i (.emitted job)).set i .idle,
      emitted := s.emitted ++ [resultOf job] },
    ?_, rfl, rfl, rfl, ?_, rfl, rfl, rfl, rfl, rfl, ?_, ?_⟩
  · simp [Sys.step, Sys.emit, hw, hopen, hfree]
  · have hneg : ¬ s.pool.wg - 1 < 0 := by omega
    simp [Sys.step, Sys.done, List.getElem?_set, hi, hneg]
  · simp [List.getElem?_set, hi]
  · intro next rest hq
    refine ⟨{ s with
        pool := { s.pool with
          JobsChannel := { s.pool.JobsChannel with buf := rest },
          ResultsChannel :=
            { s.pool.ResultsChannel with buf := s.pool.ResultsChannel.buf ++ [resultOf job] },
          wg := s.pool.wg - 1 },
        workers := ((s.workers.set i (.emitted job)).set i .idle).set i (.running next),
        emitted := s.emitted ++ [resultOf job] }, ?_, ?_, rfl⟩
    · simp only [Sys.step, Sys.take, List.getElem?_set, List.length_set, hi, if_true, hq]
    · simp [List.getElem?_set, hi]

theorem demoRunning_reach : Reach demoRunning :=
  sys_reach_run [.start, .submit (squareJob 7), .submit (squareJob 3), .take 0]
    (Reach.new 2 5) (show Sys.run _ _ = some (demoRunning, [none, none, none, none]) by decide)

/-- Example: worker 0 of the demo pool holds the job for 7, whose task
fails; its `Result` carries the error, the counter goes from 2 to 1, and the
worker takes the job for 3 next. -/
theorem worker_emits_one_result_example :
    (Reach demoRunning ∧ demoRunning.workers[0]? = some (.running (squareJob 7)) ∧
      (Task.Execute (squareJob 7).Task : Option Int × Option String)
        = (none, some "unlucky number 7")) ∧
    ∃ s1 s2, demoRunning.step (.emit 0) = .ok (s1, none) ∧
      s1.pool.ResultsChannel.buf = demoRunning.pool.ResultsChannel.buf ++
        [{ JobID := (squareJob 7).ID, Err := (Task.Execute (squareJob 7).Task).2,
           Output := (Task.Execute (squareJob 7).Task).1 }] ∧
      s1.emitted = demoRunning.emitted ++
        [{ JobID := (squareJob 7).ID, Err := (Task.Execute (squareJob 7).Task).2,
           Output := (Task.Execute (squareJob 7).Task).1 }] ∧
      s1.pool.wg = demoRunning.pool.wg ∧
      s1.step (.done 0) = .ok (s2, none) ∧
      s2.pool.wg = demoRunning.pool.wg - 1 ∧
      s2.emitted = s1.emitted ∧ s2.pool.ResultsChannel = s1.pool.ResultsChannel ∧
      s2.accepted = demoRunning.accepted ∧ s2.pool.JobsChannel = demoRunning.pool.JobsChannel ∧
      s2.workers[0]? = some .idle ∧
      (∀ next rest, demoRunning.pool.JobsChannel.buf = next :: rest →
        ∃ s3, s2.step (.take 0) = .ok (s3, none) ∧ s3.workers[0]? = some (.running next) ∧
          s3.pool.JobsChannel.buf = rest) :=
  ⟨⟨demoRunning_reach, by decide, by decide⟩,
    worker_emits_one_result demoRunning 0 (squareJob 7) demoRunning_reach (by decide)
      rfl (by decide)⟩

/-! ## Square tasks under any interleaving -/

theorem Sys.Shutdown_cap {s s' : Sys τ ω} (h : s.Shutdown = .ok s') :
    s'.pool.JobsChannel.cap = s.pool.JobsChannel.cap := by
  unfold Sys.Shutdown WorkerPool.Shutdown at h
  split at h
  · rename_i p hp
    split at hp
    · simp at hp
    · simp only [Step.ok.injEq] at hp h
      subst hp
      subst h
      rfl
  · simp at h
  · simp at h

/-- One step leaves the capacity of the job queue alone and changes the list
of accepted jobs only by the job of an accepted `SubmitJob`; a `SubmitJob` is
rejected only on a full queue. -/
theorem step_accepted [Task τ ω] {s s' : Sys τ ω} {a : Action τ} {err : Option String}
    (hstep : s.step a = .ok (s', err)) :
    (s'.pool.JobsChannel.cap = s.pool.JobsChannel.cap ∧
      s'.accepted = s.accepted ++ submits [a]) ∨
    ((∃ job, a = .submit job) ∧
      ¬ s.pool.JobsChannel.buf.length < s.pool.JobsChannel.cap) := by
  cases a with
  | start =>
    simp only [Sys.step, Step.ok.injEq, Prod.mk.injEq] at hstep
    rw [← hstep.1]
    exact Or.inl ⟨rfl, by simp [Sys.Start, submits]⟩
  | submit job =>
    simp only [Sys.step] at hstep
    rcases Sys.SubmitJob_ok_inv hstep with ⟨_, _, _, rfl⟩ | ⟨_, hfull, _⟩
    · exact Or.inl ⟨rfl, by simp [submits]⟩
    · exact Or.inr ⟨⟨job, rfl⟩, hfull⟩
  | take i =>
    simp only [Sys.step] at hstep
    cases ht : s.take i with
    | blocked => rw [ht] at hstep; simp at hstep
    | panic m => rw [ht] at hstep; simp at hstep
    | ok s1 =>
      rw [ht] at hstep
      simp only [Step.ok.injEq, Prod.mk.injEq] at hstep
      rw [← hstep.1]
      obtain ⟨_, hcase⟩ := Sys.take_ok_inv ht
      rcases hcase with ⟨job, rest, _, rfl⟩ | ⟨_, _, rfl⟩
      · exact Or.inl ⟨rfl, by simp [submits]⟩
      · exact Or.inl ⟨rfl, by simp [submits]⟩
  | emit i =>
    simp only [Sys.step] at hstep
    cases ht : s.emit i with
    | blocked => rw [ht] at hstep; simp at hstep
    | panic m => rw [ht] at hstep; simp at hstep
    | ok s1 =>
      rw [ht] at hstep
      simp only [Step.ok.injEq, Prod.mk.injEq] at hstep
      rw [← hstep.1]
      obtain ⟨job, _, _, _, rfl⟩ := Sys.emit_ok_inv ht
      exact Or.inl ⟨rfl, by simp [submits]⟩
  | done i =>
    simp only [Sys.step] at hstep
    cases ht : s.done i with
    | blocked => rw [ht] at hstep; simp at hstep
    | panic m => rw [ht] at hstep; simp at hstep
    | ok s1 =>
      rw [ht] at hstep
      simp only [Step.ok.injEq, Prod.mk.injEq] at hstep
      rw [← hstep.1]
      obtain ⟨job, _, _, rfl⟩ := Sys.done_ok_inv ht
      exact Or.inl ⟨rfl, by simp [submits]⟩
  | collect =>
    simp only [Sys.step] at hstep
    cases ht : s.collect with
    | blocked => rw [ht] at hstep; simp at hstep
    | panic m => rw [ht] at hstep; simp at hstep
    | ok s1 =>
      rw [ht] at hstep
      simp only [Step.ok.injEq, Prod.mk.injEq] at hstep
      rw [← hstep.1]
      obtain ⟨hacc, _, hjc, _, _⟩ := Sys.collect_ok_inv ht
      exact Or.inl ⟨by rw [hjc], by simp [submits, hacc]⟩
  | shutdown =>
    simp only [Sys.step] at hstep
    cases ht : s.Shutdown with
    | blocked => rw [ht] at hstep; simp at hstep
    | panic m => rw [ht] at hstep; simp at hstep
    | ok s1 =>
      rw [ht] at hstep
      simp only [Step.ok.injEq, Prod.mk.injEq] at hstep
      rw [← hstep.1]
      obtain ⟨hacc, _, _, _, _⟩ := Sys.Shutdown_ok_inv ht
      exact Or.inl ⟨Sys.Shutdown_cap ht, by simp [submits, hacc]⟩

theorem submits_cons (a : Action τ) (rest : List (Action τ)) :
    submits (a :: rest) = submits [a] ++ submits rest := by
  cases a <;> simp [submits]

theorem queue_le_accepted [Task τ ω] {s : Sys τ ω} (h : Reach s) :
    s.pool.JobsChannel.buf.length ≤ s.accepted.length := by
  have := congrArg Multiset.card (reach_inv h).1
  simp only [Multiset.card_map, Multiset.coe_card, Multiset.card_add] at this
  omega

/-- When the queue has room for every job of the schedule, every `SubmitJob`
of the schedule is accepted. -/
theorem run_accepted [Task τ ω] (sched : List (Action τ)) :
    ∀ {s s' : Sys τ ω} {errs : List (Option String)}, Reach s →
      s.run sched = some (s', errs) →
      s.accepted.length + (submits sched).length ≤ s.pool.JobsChannel.cap →
      s'.accepted = s.accepted ++ submits sched := by
  induction sched with
  | nil =>
    intro s s' errs _ h _
    simp only [Sys.run, Option.some.injEq, Prod.mk.injEq] at h
    rw [← h.1]
    simp [submits]
  | cons a rest ih =>
    intro s s' errs hr h hcap
    simp only [Sys.run] at h
    cases hs : s.step a with
    | blocked => rw [hs] at h; simp at h
    | panic m => rw [hs] at h; simp at h
    | ok r =>
      obtain ⟨s1, err⟩ := r
      rw [hs] at h
      dsimp only at h
      cases hrun : Sys.run s1 rest with
      | none => rw [hrun] at h; simp at h
      | some r2 =>
        obtain ⟨s2, errs2⟩ := r2
        rw [hrun] at h
        simp only [Option.some.injEq, Prod.mk.injEq] at h
        rw [← h.1]
        rw [submits_cons, List.length_append] at hcap
        have hq := queue_le_accepted hr
        rcases step_accepted hs with ⟨hc, hacc⟩ | ⟨⟨job, rfl⟩, hfull⟩
        · have := ih (Reach.step hr hs) hrun (by
            rw [hacc, hc, List.length_append]
            omega)
          rw [this, hacc, List.append_assoc, ← submits_cons]
        · simp only [submits, List.length_cons, List.length_nil] at hcap
          omega

theorem runningJobs_length_le (ws : List (Worker τ)) :
    (runningJobs ws).length ≤ busyCount ws := by
  induction ws with
  | nil => simp [runningJobs, busyCount]
  | cons w rest ih =>
    cases w <;> simp [runningJobs, busyCount, Worker.job?, Worker.busy] <;> omega

/-- Once the counter is zero, the `Result`s sent are, up to order, those of
the accepted jobs. -/
theorem emitted_perm_of_wg_zero [Task τ ω] {s : Sys τ ω} (h : Reach s) (hz : s.pool.wg = 0) :
    (s.accepted.map resultOf).Perm s.emitted := by
  obtain ⟨hm, hwg⟩ := reach_inv h
  have hlen := runningJobs_length_le s.workers
  have hb : s.pool.JobsChannel.buf = [] := List.length_eq_zero.mp (by omega)
  have hrj : runningJobs s.workers = [] := List.length_eq_zero.mp (by omega)
  rw [hb, hrj] at hm
  simp only [Multiset.coe_nil, Multiset.map_zero, add_zero, Multiset.map_coe] at hm
  exact Multiset.coe_eq_coe.mp hm

theorem SquareTask_execute_ok (n : Int) (h : ¬ (7 : Int) ∣ n) :
    (Task.Execute ({ Number := n } : SquareTask) : Option Int × Option String)
      = (some (wrapInt (n * n)), none) := by
  have ht : ¬ n.tmod 7 = 0 := fun e => h (Int.dvd_of_tmod_eq_zero e)
  simp [Task.Execute, SquareTask.Execute, ht]

theorem wrapInt_square (n : Int) (h : |n| ≤ 3037000499) : wrapInt (n * n) = n * n := by
  have h0 : 0 ≤ n * n := mul_self_nonneg n
  have h1 : n * n ≤ 3037000499 * 3037000499 := by
    have := abs_mul_abs_self n
    rw [← this]
    exact mul_le_mul h h (abs_nonneg n) (by norm_num)
  unfold wrapInt
  omega

/-- C19 (fails on the code), counterexample: the input `2^32 = 4294967296` is
not divisible by 7; the job for it is accepted and worked off by a pool of one
worker, the counter is back at zero, and the one `Result` has a nil error but
the output 0, because `Number * Number` overflows the 64-bit `int`; the output
is not the square `2^64` of the input. -/
theorem C19_square_overflow_counterexample :
    ¬ (7 : Int) ∣ 4294967296 ∧
    ∃ s errs, Sys.run (Sys.new 1 1 : Sys SquareTask Int).Start
        [.submit (squareJob 4294967296), .take 0, .emit 0, .done 0] = some (s, errs) ∧
      s.pool.wg = 0 ∧
      s.emitted = [{ JobID := 4294967296, Err := none, Output := some 0 }] ∧
      ¬ (s.emitted.map (fun r => r.Output)).Perm
        ([4294967296].map (fun n : Int => some (n * n))) := by
  refine ⟨by decide, _, _, rfl, by decide, by decide, by decide⟩

/-- C19, amended: SquareTask jobs for a list of integers, none divisible by 7,
are submitted to a started pool whose queue capacity is at least the length
of the list, the workers' steps (and any collector's) being interleaved with
the submissions in any way.  Then every job is accepted, and once the
outstanding-work counter is zero every `Result` has a nil error and the
multiset of outputs is the multiset of the values `Number * Number` in 64-bit
`int` arithmetic; these are the squares of the inputs when every input has
absolute value at most 3037000499. -/
theorem C19_square_results (ns : List Int) (numWorkers : Int) (cap : Nat)
    (sched : List (Action SquareTask)) (s : Sys SquareTask Int) (errs : List (Option String))
    (hns : ∀ n ∈ ns, ¬ (7 : Int) ∣ n)
    (hsub : (submits sched).map (fun j => j.Task.Number) = ns)
    (hcap : ns.length ≤ cap)
    (hrun : Sys.run (Sys.new numWorkers cap : Sys SquareTask Int).Start sched = some (s, errs))
    (hz : s.pool.wg = 0) :
    s.accepted = submits sched ∧
    (s.emitted.map (fun r => r.Output)).Perm (ns.map (fun n => some (wrapInt (n * n)))) ∧
    (∀ r ∈ s.emitted, r.Err = none) ∧
    ((∀ n ∈ ns, |n| ≤ 3037000499) →
      (s.emitted.map (fun r => r.Output)).Perm (ns.map (fun n => some (n * n)))) := by
  have hreach0 : Reach (Sys.new numWorkers cap : Sys SquareTask Int).Start :=
    Reach.step (Reach.new numWorkers cap)
      (show Sys.step _ Action.start = .ok (_, none) from rfl)
  have hreach := sys_reach_run sched hreach0 hrun
  have hlen : (submits sched).length = ns.length := by rw [← hsub, List.length_map]
  have hacc : s.accepted = submits sched := by
    have := run_accepted sched hreach0 hrun (by
      simp only [Sys.new, Sys.Start, NewWorkerPool, List.length_nil]
      omega)
    simpa [Sys.new, Sys.Start] using this
  have hperm := emitted_perm_of_wg_zero hreach hz
  have hexec : ∀ j ∈ submits sched,
      (resultOf j : Result Int)
        = ⟨j.ID, none, some (wrapInt (j.Task.Number * j.Task.Number))⟩ := by
    intro j hj
    have hn : j.Task.Number ∈ ns := by
      rw [← hsub]
      exact List.mem_map.mpr ⟨j, hj, rfl⟩
    have := SquareTask_execute_ok j.Task.Number (hns _ hn)
    simp only [resultOf]
    rw [show j.Task = ({ Number := j.Task.Number } : SquareTask) from rfl, this]
  have hout : (s.accepted.map resultOf).map (fun r : Result Int => r.Output)
      = ns.map (fun n => some (wrapInt (n * n))) := by
    rw [hacc, ← hsub, List.map_map, List.map_map]
    apply List.map_congr_left
    intro j hj
    simp only [Function.comp_apply, hexec j hj]
  have hp : (s.emitted.map (fun r => r.Output)).Perm
      (ns.map (fun n => some (wrapInt (n * n)))) := by
    rw [← hout]
    exact (hperm.map _).symm
  refine ⟨hacc, hp, ?_, ?_⟩
  · intro r hr
    have hr' : r ∈ s.accepted.map resultOf := hperm.symm.subset hr
    rw [hacc] at hr'
    obtain ⟨j, hj, rfl⟩ := List.mem_map.mp hr'
    rw [hexec j hj]
  · intro hbound
    have : ns.map (fun n => some (wrapInt (n * n))) = ns.map (fun n => some (n * n)) := by
      apply List.map_congr_left
      intro n hn
      rw [wrapInt_square n (hbound n hn)]
    rw [← this]
    exact hp

/-- Witness of the amended C19, scenario 4: inputs 1 to 5 on a pool of 2
workers and queue 5.  In this interleaving the `Result`s come out in the
order 4, 1, 9, 25, 16; as a multiset they are the squares 1, 4, 9, 16, 25. -/
theorem C19_square_results_witness :
    ∃ s errs, Sys.run (Sys.new 2 5 : Sys SquareTask Int).Start scenario4Schedule
        = some (s, errs) ∧
      s.pool.wg = 0 ∧
      s.emitted.map (fun r => r.Output) = [some 4, some 1, some 9, some 25, some 16] ∧
      (s.accepted = submits scenario4Schedule ∧
        (s.emitted.map (fun r => r.Output)).Perm
          ([1, 2, 3, 4, 5].map (fun n => some (wrapInt (n * n)))) ∧
        (∀ r ∈ s.emitted, r.Err = none) ∧
        ((∀ n ∈ [1, 2, 3, 4, 5], |n| ≤ (3037000499 : Int)) →
          (s.emitted.map (fun r => r.Output)).Perm
            ([1, 2, 3, 4, 5].map (fun n => some (n * n))))) := by
  refine ⟨_, _, rfl, by decide, by decide, ?_⟩
  exact C19_square_results [1, 2, 3, 4, 5] 2 5 scenario4Schedule _ _ (by decide) (by decide)
    (by decide) rfl (by decide)

/-! ## Publish of the worker-pool broker -/

/-- The delivery loop never drops a copy: when it completes, every subscriber
has received the message once per entry in the topic's list. -/
theorem deliverLoop_ok {δ : Type} (msg : Message δ) (subs : List Nat) :
    ∀ (heap heap' : List (Subscriber δ)), deliverLoop msg subs heap = .ok heap' →
      ∀ p, (heap'[p]?).map (fun sub => sub.channel.buf)
        = (heap[p]?).map (fun sub => sub.channel.buf ++ List.replicate (subs.count p) msg) := by
  induction subs with
  | nil =>
    intro heap heap' h p
    simp only [deliverLoop, Step.ok.injEq] at h
    subst h
    simp
  | cons q rest ih =>
    intro heap heap' h p
    simp only [deliverLoop] at h
    cases hs : sendTo heap q msg with
    | blocked => rw [hs] at h; simp at h
    | panic m => rw [hs] at h; simp at h
    | ok heap1 =>
      rw [hs] at h
      have := ih heap1 heap' h p
      rw [this]
      unfold sendTo at hs
      cases hq : heap[q]? with
      | none => rw [hq] at hs; simp at hs
      | some sub =>
        rw [hq] at hs
        dsimp only at hs
        split at hs
        · simp at hs
        · split at hs
          · simp only [Step.ok.injEq] at hs
            subst hs
            have hlt := OffsetBroker.getElem?_lt_of_some hq
            by_cases hqp : q = p
            · subst hqp
              simp [List.getElem?_set, hlt, hq, List.count_cons, List.replicate_succ]
            · have hpq : ¬ p = q := fun e => hqp e.symm
              simp [List.getElem?_set, hqp, List.count_cons, hpq]
          · simp at hs

/-- C15 (fails on the code): in the worker-pool broker, with the delivery
channel of the subscriber "analytics" full (10 of 10), `Publish` to the
existing topic "gaming" does not complete and return nil with the copy
dropped: its send `subscriber.channel <- msg` has no `default` branch and
cannot proceed until the subscriber receives. -/
theorem C15_publish_blocks_on_full_channel :
    (∃ t, lookupTopic fullSubscriberDemo.topics "gaming" = some t ∧ t.subscribers = [0]) ∧
    (fullSubscriberDemo.heap[0]?).map
      (fun sub => (sub.channel.buf.length, sub.channel.cap, sub.channel.closed))
      = some (10, 10, false) ∧
    Publish fullSubscriberDemo "gaming" "Message 11" = .blocked := by
  refine ⟨⟨_, rfl, rfl⟩, by decide, by decide⟩

/-! ## Shutdown -/

theorem Sys.run_append [Task τ ω] (l1 : List (Action τ)) :
    ∀ {s s1 s2 : Sys τ ω} {e1 e2 : List (Option String)} {l2 : List (Action τ)},
      s.run l1 = some (s1, e1) → s1.run l2 = some (s2, e2) →
      s.run (l1 ++ l2) = some (s2, e1 ++ e2) := by
  induction l1 with
  | nil =>
    intro s s1 s2 e1 e2 l2 h1 h2
    simp only [Sys.run, Option.some.injEq, Prod.mk.injEq] at h1
    rw [h1.1, ← h1.2]
    simpa using h2
  | cons a rest ih =>
    intro s s1 s2 e1 e2 l2 h1 h2
    simp only [Sys.run, List.cons_append] at h1 ⊢
    cases hs : s.step a with
    | blocked => rw [hs] at h1; simp at h1
    | panic m => rw [hs] at h1; simp at h1
    | ok r =>
      obtain ⟨s', err⟩ := r
      rw [hs] at h1
      dsimp only at h1 ⊢
      cases hr : Sys.run s' rest with
      | none => rw [hr] at h1; simp at h1
      | some p =>
        obtain ⟨s'', errs⟩ := p
        rw [hr] at h1
        simp only [Option.some.injEq, Prod.mk.injEq] at h1
        have h' : Sys.run s' rest = some (s1, errs) := by rw [hr, h1.1]
        show (match s'.run (rest ++ l2) with
          | some (s'', errs) => some (s'', err :: errs)
          | none => none) = _
        rw [ih h' h2, ← h1.2]
        rfl

theorem Sys.take_of_job {s : Sys τ ω} {i : Nat} {job : Job τ} {rest : List (Job τ)}
    (hw : s.workers[i]? = some .idle) (hbuf : s.pool.JobsChannel.buf = job :: rest) :
    s.take i = .ok { s with
      pool := { s.pool with JobsChannel := { s.pool.JobsChannel with buf := rest } },
      workers := s.workers.set i (.running job) } := by
  simp [Sys.take, hw, hbuf]

theorem Sys.emit_of_room [Task τ ω] {s : Sys τ ω} {i : Nat} {job : Job τ}
    (hw : s.workers[i]? = some (.running job))
    (hopen : s.pool.ResultsChannel.closed = false)
    (hroom : s.pool.ResultsChannel.buf.length < s.pool.ResultsChannel.cap) :
    s.emit i = .ok { s with
      pool := { s.pool with ResultsChannel :=
        { s.pool.ResultsChannel with buf := s.pool.ResultsChannel.buf ++ [resultOf job] } },
      workers := s.workers.set i (.emitted job),
      emitted := s.emitted ++ [resultOf job] } := by
  simp [Sys.emit, hw, hopen, hroom]

theorem Sys.done_of_emitted {s : Sys τ ω} {i : Nat} {job : Job τ}
    (hw : s.workers[i]? = some (.emitted job)) (hwg : 1 ≤ s.pool.wg) :
    s.done i = .ok { s with pool := { s.pool with wg := s.pool.wg - 1 },
                            workers := s.workers.set i .idle } := by
  have hnn : ¬ (s.pool.wg - 1 < 0) := by omega
  simp only [Sys.done, hw, hnn, if_false]

theorem Sys.collect_of_result {s : Sys τ ω} {r : Result ω} {rest : List (Result ω)}
    (h : s.pool.ResultsChannel.buf = r :: rest) :
    s.collect = .ok { s with pool := { s.pool with
      ResultsChannel := { s.pool.ResultsChannel with buf := rest } } } := by
  simp [Sys.collect, h]

theorem getElem?_set_self_of_getElem? {α : Type} {l : List α} {i : Nat} {a : α} (b : α)
    (h : l[i]? = some a) : (l.set i b)[i]? = some b := by
  have hlt := OffsetBroker.getElem?_lt_of_some h
  simp [List.getElem?_set, hlt]

/-- One turn of a worker's loop with a collector behind it: the head of the
queue is taken, its `Result` is sent, the counter goes down by one, and the
collector takes the oldest `Result` out of the result queue. -/
theorem work_cycle [Task τ ω] (s : Sys τ ω) (i : Nat) (job : Job τ) (rest : List (Job τ))
    (hbuf : s.pool.JobsChannel.buf = job :: rest) (hw : s.workers[i]? = some .idle)
    (hopen : s.pool.ResultsChannel.closed = false)
    (hroom : s.pool.ResultsChannel.buf.length < s.pool.ResultsChannel.cap)
    (hwg : 1 ≤ s.pool.wg) :
    s.run [.take i, .emit i, .done i, .collect] =
      some ({ s with
        pool := { s.pool with
          JobsChannel := { s.pool.JobsChannel with buf := rest },
          ResultsChannel := { s.pool.ResultsChannel with
            buf := (s.pool.ResultsChannel.buf ++ [resultOf job]).tail },
          wg := s.pool.wg - 1 },
        emitted := s.emitted ++ [resultOf job] }, [none, none, none, none]) := by
  have h1 := Sys.take_of_job hw hbuf
  have hw1 := getElem?_set_self_of_getElem? (Worker.running job) hw
  have h2 := Sys.emit_of_room (s := { s with
      pool := { s.pool with JobsChannel := { s.pool.JobsChannel with buf := rest } },
      workers := s.workers.set i (.running job) }) hw1 hopen hroom
  have hw2 := getElem?_set_self_of_getElem? (Worker.emitted job) hw1
  have h3 := Sys.done_of_emitted (s := { s with
      pool := { s.pool with
        JobsChannel := { s.pool.JobsChannel with buf := rest },
        ResultsChannel :=
          { s.pool.ResultsChannel with buf := s.pool.ResultsChannel.buf ++ [resultOf job] } },
      workers := (s.workers.set i (.running job)).set i (.emitted job),
      emitted := s.emitted ++ [resultOf job] }) hw2 hwg
  have hset : ((s.workers.set i (.running job)).set i (.emitted job)).set i Worker.idle
      = s.workers := by
    rw [List.set_set, List.set_set]
    exact OffsetBroker.set_eq_self_of_getElem? _ _ _ hw
  obtain ⟨r, rs, hr⟩ : ∃ r rs, s.pool.ResultsChannel.buf ++ [resultOf job] = r :: rs := by
    cases s.pool.ResultsChannel.buf with
    | nil => exact ⟨_, _, rfl⟩
    | cons x xs => exact ⟨_, _, rfl⟩
  simp only [Sys.run, Sys.step, h1]
  dsimp only at h2 h3 ⊢
  simp only [h2]
  simp only [h3, hset]
  rw [Sys.collect_of_result (s := _) (r := r) hr]
  simp [hr]

/-- Worker `i`, idle, with a collector behind it, works off the whole queue:
each queued job gets its `Result`, in queue order. -/
theorem drain_queue [Task τ ω] (i : Nat) :
    ∀ (js : List (Job τ)) (s : Sys τ ω), s.pool.JobsChannel.buf = js →
      s.workers[i]? = some .idle → s.pool.ResultsChannel.closed = false →
      s.pool.ResultsChannel.buf.length < s.pool.ResultsChannel.cap →
      (js.length : Int) ≤ s.pool.wg →
      ∃ s2 errs, s.run (drainSchedule i js.length) = some (s2, errs) ∧
        s2.emitted = s.emitted ++ js.map resultOf ∧
        s2.pool.JobsChannel.buf = [] ∧
        s2.pool.JobsChannel.closed = s.pool.JobsChannel.closed ∧
        s2.pool.wg = s.pool.wg - js.length ∧
        s2.workers = s.workers ∧ s2.accepted = s.accepted := by
  intro js
  induction js with
  | nil =>
    intro s hbuf _ _ _ _
    exact ⟨s, [], rfl, by simp, hbuf, rfl, by simp, rfl, rfl⟩
  | cons job rest ih =>
    intro s hbuf hw hopen hroom hwg
    have hwg1 : 1 ≤ s.pool.wg := by
      simp only [List.length_cons, Nat.cast_add, Nat.cast_one] at hwg
      omega
    have hcycle := work_cycle s i job rest hbuf hw hopen hroom hwg1
    have hlen : (s.pool.ResultsChannel.buf ++ [resultOf job]).tail.length
        = s.pool.ResultsChannel.buf.length := by simp
    obtain ⟨s2, errs, hrun, hem, hq, hcl, hwg2, hws, hacc⟩ := ih
      { s with
        pool := { s.pool with
          JobsChannel := { s.pool.JobsChannel with buf := rest },
          ResultsChannel := { s.pool.ResultsChannel with
            buf := (s.pool.ResultsChannel.buf ++ [resultOf job]).tail },
          wg := s.pool.wg - 1 },
        emitted := s.emitted ++ [resultOf job] }
      rfl hw hopen (by rw [hlen]; exact hroom)
      (by
        simp only [List.length_cons, Nat.cast_add, Nat.cast_one] at hwg
        show (rest.length : Int) ≤ s.pool.wg - 1
        omega)
    refine ⟨s2, [none, none, none, none] ++ errs, ?_, ?_, hq, hcl, ?_, hws, hacc⟩
    · exact Sys.run_append _ hcycle hrun
    · rw [hem]
      simp
    · rw [hwg2]
      simp only [List.length_cons, Nat.cast_add, Nat.cast_one]
      omega

/-- With a worker and a collector at hand: `Shutdown` only closes job admission.  The job queue keeps its jobs
in their order and its capacity, the result queue, the counter, the workers
and the history are unchanged.  A worker still takes a queued job from the
closed queue, and its loop ends only on an empty closed queue.  In a reachable
state, an idle worker with a collector behind it gives every queued job its
`Result`, in queue order, and only then ends its loop. -/
theorem Shutdown_with_worker_at_hand [Task τ ω] (s s' : Sys τ ω) (i : Nat)
    (hreach : Reach s) (h : s.Shutdown = .ok s') (hw : s.workers[i]? = some .idle)
    (hopen : s.pool.ResultsChannel.closed = false)
    (hroom : s.pool.ResultsChannel.buf.length < s.pool.ResultsChannel.cap) :
    (s'.pool.JobsChannel.buf = s.pool.JobsChannel.buf ∧
      s'.pool.JobsChannel.cap = s.pool.JobsChannel.cap ∧
      s'.pool.JobsChannel.closed = true ∧
      s'.pool.ResultsChannel = s.pool.ResultsChannel ∧ s'.pool.wg = s.pool.wg ∧
      s'.workers = s.workers ∧ s'.accepted = s.accepted ∧ s'.emitted = s.emitted) ∧
    (∀ job rest, s'.pool.JobsChannel.buf = job :: rest →
      ∃ s1, s'.take i = .ok s1 ∧ s1.workers[i]? = some (.running job) ∧
        s1.pool.JobsChannel.buf = rest) ∧
    (∀ (t : Sys τ ω) (k : Nat) (t' : Sys τ ω), t.take k = .ok t' →
      t'.workers[k]? = some .stopped →
      t.pool.JobsChannel.buf = [] ∧ t.pool.JobsChannel.closed = true) ∧
    (∃ s2 errs s3, s'.run (drainSchedule i s.pool.JobsChannel.buf.length) = some (s2, errs) ∧
      s2.emitted = s.emitted ++ s.pool.JobsChannel.buf.map resultOf ∧
      s2.pool.JobsChannel.buf = [] ∧
      s2.pool.wg = s.pool.wg - s.pool.JobsChannel.buf.length ∧
      s2.take i = .ok s3 ∧ s3.workers[i]? = some .stopped) := by
  obtain ⟨hacc, hem, hbuf, hwg, hws⟩ := Sys.Shutdown_ok_inv h
  have hpool : s'.pool.JobsChannel.cap = s.pool.JobsChannel.cap ∧
      s'.pool.JobsChannel.closed = true ∧ s'.pool.ResultsChannel = s.pool.ResultsChannel := by
    unfold Sys.Shutdown WorkerPool.Shutdown at h
    split at h
    · rename_i p hp
      split at hp
      · simp at hp
      · simp only [Step.ok.injEq] at hp h
        subst hp
        subst h
        exact ⟨rfl, rfl, rfl⟩
    · simp at h
    · simp at h
  have hw' : s'.workers[i]? = some .idle := by rw [hws]; exact hw
  refine ⟨⟨hbuf, hpool.1, hpool.2.1, hpool.2.2, hwg, hws, hacc, hem⟩, ?_, ?_, ?_⟩
  · intro job rest hb
    refine ⟨_, Sys.take_of_job hw' hb, ?_, rfl⟩
    exact getElem?_set_self_of_getElem? _ hw'
  · intro t k t' ht hstop
    obtain ⟨hidle, hcase⟩ := Sys.take_ok_inv ht
    rcases hcase with ⟨job, rest, _, ht'⟩ | ⟨hb, hc, _⟩
    · rw [ht'] at hstop
      have := getElem?_set_self_of_getElem? (Worker.running job) hidle
      dsimp only at hstop
      rw [this] at hstop
      simp at hstop
    · exact ⟨hb, hc⟩
  · have hinv := (reach_inv hreach).2
    have hwgle : (s'.pool.JobsChannel.buf.length : Int) ≤ s'.pool.wg := by
      rw [hwg, hbuf, hinv]
      omega
    obtain ⟨s2, errs, hrun, hem2, hq2, hcl2, hwg2, hws2, _⟩ :=
      drain_queue i s'.pool.JobsChannel.buf s' rfl hw'
        (by rw [hpool.2.2]; exact hopen) (by rw [hpool.2.2]; exact hroom) hwgle
    have hw2 : s2.workers[i]? = some .idle := by rw [hws2]; exact hw'
    refine ⟨s2, errs, { s2 with workers := s2.workers.set i .stopped }, ?_, ?_, hq2, ?_, ?_, ?_⟩
    · rw [← hbuf]; exact hrun
    · rw [hem2, hem, hbuf]
    · rw [hwg2, hwg, hbuf]
    · simp [Sys.take, hw2, hq2, hcl2, hpool.2.1]
    · exact getElem?_set_self_of_getElem? _ hw2

/-- Example on the demo pool whose worker 0 holds the job for 7 while
the job for 3 is queued and worker 1 is idle: after `Shutdown`, worker 1 still
takes the job for 3 and emits its `Result` 9. -/
theorem Shutdown_with_worker_at_hand_example :
    ∃ s', demoRunning.Shutdown = .ok s' ∧ demoRunning.workers[1]? = some .idle ∧
      s'.pool.JobsChannel.buf = [squareJob 3] ∧ s'.pool.JobsChannel.closed = true ∧
      ∃ s2 errs s3, s'.run (drainSchedule 1 demoRunning.pool.JobsChannel.buf.length)
          = some (s2, errs) ∧
        s2.emitted = demoRunning.emitted ++ demoRunning.pool.JobsChannel.buf.map resultOf ∧
        s2.pool.JobsChannel.buf = [] ∧
        s2.pool.wg = demoRunning.pool.wg - demoRunning.pool.JobsChannel.buf.length ∧
        s2.take 1 = .ok s3 ∧ s3.workers[1]? = some .stopped :=
  ⟨_, rfl, rfl, rfl, rfl,
    (Shutdown_with_worker_at_hand demoRunning _ 1 demoRunning_reach rfl rfl rfl
      (by decide)).2.2.2⟩

/-! ## Order of the results -/

theorem singleton_getElem? {α : Type} {w x : α} {i : Nat} (h : [w][i]? = some x) :
    i = 0 ∧ x = w := by
  cases i with
  | zero =>
    simp only [List.getElem?_cons_zero, Option.some.injEq] at h
    exact ⟨rfl, h.symm⟩
  | succ k => simp at h

/-- With a single worker goroutine, the results sent so far, then the job the
worker holds, then the queued jobs, are the accepted jobs in submission
order. -/
theorem step_order_inv [Task τ ω] {s s' : Sys τ ω} {a : Action τ} {err : Option String}
    {w : Worker τ} (hstep : s.step a = .ok (s', err)) (ha : a ≠ .start)
    (hws : s.workers = [w])
    (hinv : s.accepted.map resultOf
      = s.emitted ++ (runningJobs s.workers ++ s.pool.JobsChannel.buf).map resultOf) :
    (∃ w', s'.workers = [w']) ∧
    s'.accepted.map resultOf
      = s'.emitted ++ (runningJobs s'.workers ++ s'.pool.JobsChannel.buf).map resultOf := by
  cases a with
  | start => exact absurd rfl ha
  | submit job =>
    simp only [Sys.step] at hstep
    rcases Sys.SubmitJob_ok_inv hstep with ⟨_, _, _, rfl⟩ | ⟨_, _, rfl⟩
    · refine ⟨⟨w, hws⟩, ?_⟩
      simp only [List.map_append, hinv, List.append_assoc]
    · exact ⟨⟨w, hws⟩, hinv⟩
  | take i =>
    simp only [Sys.step] at hstep
    cases ht : s.take i with
    | blocked => rw [ht] at hstep; simp at hstep
    | panic m => rw [ht] at hstep; simp at hstep
    | ok s1 =>
      rw [ht] at hstep
      simp only [Step.ok.injEq, Prod.mk.injEq] at hstep
      rw [← hstep.1]
      obtain ⟨hw, hcase⟩ := Sys.take_ok_inv ht
      rw [hws] at hw
      obtain ⟨hi, hidle⟩ := singleton_getElem? hw
      subst hi
      rw [hws, ← hidle] at hinv
      rcases hcase with ⟨job, rest, hb, rfl⟩ | ⟨hb, _, rfl⟩
      · rw [hb] at hinv
        refine ⟨⟨.running job, by simp [hws]⟩, ?_⟩
        simpa [hws, runningJobs, Worker.job?] using hinv
      · refine ⟨⟨.stopped, by simp [hws]⟩, ?_⟩
        simpa [hws, runningJobs, Worker.job?] using hinv
  | emit i =>
    simp only [Sys.step] at hstep
    cases ht : s.emit i with
    | blocked => rw [ht] at hstep; simp at hstep
    | panic m => rw [ht] at hstep; simp at hstep
    | ok s1 =>
      rw [ht] at hstep
      simp only [Step.ok.injEq, Prod.mk.injEq] at hstep
      rw [← hstep.1]
      obtain ⟨job, hw, _, _, rfl⟩ := Sys.emit_ok_inv ht
      rw [hws] at hw
      obtain ⟨hi, hrun⟩ := singleton_getElem? hw
      subst hi
      rw [hws, ← hrun] at hinv
      refine ⟨⟨.emitted job, by simp [hws]⟩, ?_⟩
      simpa [hws, runningJobs, Worker.job?] using hinv
  | done i =>
    simp only [Sys.step] at hstep
    cases ht : s.done i with
    | blocked => rw [ht] at hstep; simp at hstep
    | panic m => rw [ht] at hstep; simp at hstep
    | ok s1 =>
      rw [ht] at hstep
      simp only [Step.ok.injEq, Prod.mk.injEq] at hstep
      rw [← hstep.1]
      obtain ⟨job, hw, _, rfl⟩ := Sys.done_ok_inv ht
      rw [hws] at hw
      obtain ⟨hi, hem⟩ := singleton_getElem? hw
      subst hi
      rw [hws, ← hem] at hinv
      refine ⟨⟨.idle, by simp [hws]⟩, ?_⟩
      simpa [hws, runningJobs, Worker.job?] using hinv
  | collect =>
    simp only [Sys.step] at hstep
    cases ht : s.collect with
    | blocked => rw [ht] at hstep; simp at hstep
    | panic m => rw [ht] at hstep; simp at hstep
    | ok s1 =>
      rw [ht] at hstep
      simp only [Step.ok.injEq, Prod.mk.injEq] at hstep
      rw [← hstep.1]
      obtain ⟨hacc, hemit, hjc, _, hws'⟩ := Sys.collect_ok_inv ht
      rw [hacc, hemit, hjc, hws']
      exact ⟨⟨w, hws⟩, hinv⟩
  | shutdown =>
    simp only [Sys.step] at hstep
    cases ht : s.Shutdown with
    | blocked => rw [ht] at hstep; simp at hstep
    | panic m => rw [ht] at hstep; simp at hstep
    | ok s1 =>
      rw [ht] at hstep
      simp only [Step.ok.injEq, Prod.mk.injEq] at hstep
      rw [← hstep.1]
      obtain ⟨hacc, hemit, hjc, _, hws'⟩ := Sys.Shutdown_ok_inv ht
      rw [hacc, hemit, hjc, hws']
      exact ⟨⟨w, hws⟩, hinv⟩

theorem run_order_inv [Task τ ω] (sched : List (Action τ)) :
    ∀ {s s' : Sys τ ω} {errs : List (Option String)} {w : Worker τ},
      (∀ a ∈ sched, a ≠ Action.start) → s.workers = [w] →
      s.accepted.map resultOf
        = s.emitted ++ (runningJobs s.workers ++ s.pool.JobsChannel.buf).map resultOf →
      s.run sched = some (s', errs) →
      s'.accepted.map resultOf
        = s'.emitted ++ (runningJobs s'.workers ++ s'.pool.JobsChannel.buf).map resultOf := by
  induction sched with
  | nil =>
    intro s s' errs w _ _ hinv h
    simp only [Sys.run, Option.some.injEq, Prod.mk.injEq] at h
    rw [← h.1]
    exact hinv
  | cons a rest ih =>
    intro s s' errs w hns hws hinv h
    simp only [Sys.run] at h
    cases hs : s.step a with
    | blocked => rw [hs] at h; simp at h
    | panic m => rw [hs] at h; simp at h
    | ok r =>
      obtain ⟨s1, err⟩ := r
      rw [hs] at h
      dsimp only at h
      cases hr : Sys.run s1 rest with
      | none => rw [hr] at h; simp at h
      | some p =>
        obtain ⟨s2, errs2⟩ := p
        rw [hr] at h
        simp only [Option.some.injEq, Prod.mk.injEq] at h
        obtain ⟨⟨w1, hws1⟩, hinv1⟩ :=
          step_order_inv hs (hns a (List.mem_cons_self _ _)) hws hinv
        rw [← h.1]
        exact ih (fun b hb => hns b (List.mem_cons_of_mem _ hb)) hws1 hinv1 hr

/-- A pool started with at least two workers, two accepted jobs: worker 0
takes the first, worker 1 takes the second, and worker 1 sends its `Result`
first. -/
theorem overtake_run [Task τ ω] (nw : Int) (cap : Nat) (j1 j2 : Job τ) (hnw : 2 ≤ nw)
    (hcap : 1 ≤ cap) :
    ∃ s errs, ((Sys.new nw cap : Sys τ ω).Start).run
        [.submit j1, .take 0, .submit j2, .take 1, .emit 1, .done 1, .collect, .emit 0,
          .done 0] = some (s, errs) ∧
      s.accepted = [j1, j2] ∧ s.emitted = [resultOf j2, resultOf j1] := by
  have h2 : 2 ≤ nw.toNat := by omega
  obtain ⟨n, hn⟩ := Nat.exists_eq_add_of_le h2
  have hn' : nw.toNat = n + 1 + 1 := by omega
  have hpos : 0 < cap := hcap
  refine ⟨{ pool := { NoOfWorkers := nw,
                      JobsChannel := { buf := [], cap := cap, closed := false },
                      ResultsChannel := { buf := [resultOf j1], cap := cap, closed := false },
                      wg := 0 },
            workers := .idle :: .idle :: List.replicate n .idle,
            accepted := [j1, j2], emitted := [resultOf j2, resultOf j1] },
    [none, none, none, none, none, none, none, none, none], ?_, rfl, rfl⟩
  simp [Sys.run, Sys.step, Sys.SubmitJob, WorkerPool.SubmitJob, Sys.take, Sys.emit, Sys.done,
    Sys.collect, Sys.Start, Sys.new, NewWorkerPool, hn', List.replicate_succ, hpos]

/-- C23: the order of the results need not be the order of submission.  For
a pool started with at least two workers (queues of capacity at least 1) and
any two jobs with different IDs, there is an interleaving in which both jobs
are accepted in the order `j1, j2` and their `Result`s are sent in the order
`j2, j1`.  With exactly one worker, in every run, the `Result`s sent so far
are those of the first accepted jobs, in submission order. -/
theorem C23_result_order [Task τ ω] (nw : Int) (cap : Nat) (j1 j2 : Job τ) (hnw : 2 ≤ nw)
    (hcap : 1 ≤ cap) (hid : j1.ID ≠ j2.ID) :
    (∃ sched s errs, ((Sys.new nw cap : Sys τ ω).Start).run sched = some (s, errs) ∧
      s.accepted = [j1, j2] ∧ s.emitted = [resultOf j2, resultOf j1] ∧
      s.emitted.map (fun r => r.JobID) ≠ s.accepted.map (fun j => j.ID)) ∧
    (∀ (cap1 : Nat) (sched : List (Action τ)) (s : Sys τ ω) (errs : List (Option String)),
      (∀ a ∈ sched, a ≠ Action.start) →
      ((Sys.new 1 cap1 : Sys τ ω).Start).run sched = some (s, errs) →
      s.emitted <+: s.accepted.map resultOf ∧
      s.emitted.map (fun r => r.JobID) <+: s.accepted.map (fun j => j.ID)) := by
  constructor
  · obtain ⟨s, errs, hrun, hacc, hem⟩ := overtake_run (ω := ω) nw cap j1 j2 hnw hcap
    refine ⟨_, s, errs, hrun, hacc, hem, ?_⟩
    rw [hacc, hem]
    simp only [List.map_cons, List.map_nil, resultOf]
    intro h
    simp only [List.cons.injEq, and_true] at h
    exact hid h.1.symm
  · intro cap1 sched s errs hns hrun
    have hinv := run_order_inv sched (w := Worker.idle) hns
      (show ((Sys.new 1 cap1 : Sys τ ω).Start).workers = [Worker.idle] from rfl)
      (show ((Sys.new 1 cap1 : Sys τ ω).Start).accepted.map resultOf = _ from rfl) hrun
    have hpre : s.emitted <+: s.accepted.map resultOf := ⟨_, hinv.symm⟩
    refine ⟨hpre, ?_⟩
    have := hpre.map (fun r => r.JobID)
    simpa [List.map_map, Function.comp_def, resultOf] using this

/-- Witness of C23: in the pool of 2 workers and queue 5, the jobs for 1 and 2
can come out as 4, 1; with one worker the jobs for 1 and 2 come out as 1, 4. -/
theorem C23_result_order_witness :
    ((2 : Int) ≤ 2 ∧ 1 ≤ 5 ∧ (squareJob 1).ID ≠ (squareJob 2).ID) ∧
    ((∃ sched s errs, ((Sys.new 2 5 : Sys SquareTask Int).Start).run sched = some (s, errs) ∧
        s.accepted = [squareJob 1, squareJob 2] ∧
        s.emitted = [resultOf (squareJob 2), resultOf (squareJob 1)] ∧
        s.emitted.map (fun r => r.JobID) ≠ s.accepted.map (fun j => j.ID)) ∧
      (∀ (cap1 : Nat) (sched : List (Action SquareTask)) (s : Sys SquareTask Int)
        (errs : List (Option String)),
        (∀ a ∈ sched, a ≠ Action.start) →
        ((Sys.new 1 cap1 : Sys SquareTask Int).Start).run sched = some (s, errs) →
        s.emitted <+: s.accepted.map resultOf ∧
        s.emitted.map (fun r => r.JobID) <+: s.accepted.map (fun j => j.ID))) ∧
    (∃ s errs, ((Sys.new 1 5 : Sys SquareTask Int).Start).run
        [.submit (squareJob 1), .submit (squareJob 2), .take 0, .emit 0, .done 0,
          .take 0, .emit 0, .done 0] = some (s, errs) ∧
      s.emitted.map (fun r => r.Output) = [some 1, some 4]) :=
  ⟨⟨by decide, by decide, by decide⟩,
    C23_result_order 2 5 (squareJob 1) (squareJob 2) (by decide) (by decide) (by decide),
    ⟨_, _, rfl, by decide⟩⟩

/-! ## Starting a subscriber -/

/-- C22 (fails on the code): `Subscribe` calls `subscriber.start()` on every
call.  After `Subscribe("gaming", sub1)` the subscriber "analytics" has its 5
workers and one drain loop; after `Subscribe("sports", sub1)` as well, or a
second `Subscribe("gaming", sub1)`, the same subscriber has 10 workers and two
drain loops: its pool was started twice. -/
theorem C22_subscribe_starts_pool_again :
    ∃ b1 b2 b3,
      Subscribe twoTopicBroker "gaming" 0 = .ok (b1, none) ∧
      Subscribe b1 "sports" 0 = .ok (b2, none) ∧
      Subscribe b1 "gaming" 0 = .ok (b3, none) ∧
      b1.subs.map (fun x => (x.workers.length, x.drains.length)) = [(5, 1)] ∧
      b2.subs.map (fun x => (x.workers.length, x.drains.length)) = [(10, 2)] ∧
      b3.subs.map (fun x => (x.workers.length, x.drains.length)) = [(10, 2)] ∧
      b2.subs.map (fun x => x.sub.WorkerPool.NoOfWorkers) = [5] := by
  refine ⟨_, _, _, rfl, rfl, rfl, ?_, ?_, ?_, ?_⟩ <;> decide

/-! ## Closing a subscriber -/

/-- C24 (fails on the code): `Close` shuts the job queue at once, without
waiting for the drain loop.  The subscriber "analytics" is subscribed to
"gaming" and one message is delivered and still buffered when
`Unsubscribe("gaming", "analytics")` returns nil: the delivery channel and
the job queue are both closed, the message is still in the channel and the
drain loop has not ended.  The drain loop then receives the message, builds
its job, and its `SubmitJob` on the closed job queue panics. -/
theorem C24_submit_on_closed_queue_after_unsubscribe :
    ∃ b1 b2 b4 b5,
      Subscribe twoTopicBroker "gaming" 0 = .ok (b1, none) ∧
      b1.stepSub 0 (.deliver ⟨"gaming", "m1"⟩) = .ok b2 ∧
      Unsubscribe b2 "gaming" "analytics" = .ok (closedSubscriberDemo, none) ∧
      closedSubscriberDemo.subs.map (fun x => (x.sub.channel.closed, x.sub.channel.buf,
          x.sub.WorkerPool.JobsChannel.closed, x.drains))
        = [(true, [⟨"gaming", "m1"⟩], true, [Drain.waiting])] ∧
      closedSubscriberDemo.stepSub 0 (.recv 0) = .ok b4 ∧
      b4.stepSub 0 (.build 0) = .ok b5 ∧
      b5.subs.map (fun x => x.drains)
        = [[Drain.built { ID := 1, Task := ⟨⟨"gaming", "m1"⟩⟩, Priority := 0, Attempts := 0 }]] ∧
      b5.stepSub 0 (.submit 0) = .panic "send on closed channel" := by
  refine ⟨_, _, _, _, rfl, rfl, ?_, ?_, rfl, rfl, ?_, ?_⟩ <;> decide

/-! ## The steps of a subscriber -/

theorem sumOver_set {α : Type} (f : α → Nat) (l : List α) :
    ∀ (i : Nat) (a b : α), l[i]? = some a →
      sumOver f (l.set i b) + f a = sumOver f l + f b := by
  induction l with
  | nil => intro i a b h; simp at h
  | cons x xs ih =>
    intro i a b h
    cases i with
    | zero =>
      simp only [List.getElem?_cons_zero, Option.some.injEq] at h
      subst h
      simp only [List.set_cons_zero, sumOver]
      omega
    | succ k =>
      simp only [List.getElem?_cons_succ] at h
      have := ih k a b h
      simp only [List.set_cons_succ, sumOver]
      omega

theorem gather_set {α β : Type} (f : α → List β) (l : List α) :
    ∀ (i : Nat) (a b : α), l[i]? = some a →
      ((gather f (l.set i b) : List β) : Multiset β) + ↑(f a) = ↑(gather f l) + ↑(f b) := by
  induction l with
  | nil => intro i a b h; simp at h
  | cons x xs ih =>
    intro i a b h
    cases i with
    | zero =>
      simp only [List.getElem?_cons_zero, Option.some.injEq] at h
      subst h
      simp only [List.set_cons_zero, gather, ← Multiset.coe_add]
      abel
    | succ k =>
      simp only [List.getElem?_cons_succ] at h
      have := ih k a b h
      simp only [List.set_cons_succ, gather, ← Multiset.coe_add]
      rw [add_assoc, this]
      abel

theorem sumOver_append {α : Type} (f : α → Nat) (l1 l2 : List α) :
    sumOver f (l1 ++ l2) = sumOver f l1 + sumOver f l2 := by
  induction l1 with
  | nil => simp [sumOver]
  | cons x xs ih =>
    show f x + sumOver f (xs ++ l2) = f x + sumOver f xs + sumOver f l2
    rw [ih]
    omega

theorem gather_append {α β : Type} (f : α → List β) (l1 l2 : List α) :
    gather f (l1 ++ l2) = gather f l1 ++ gather f l2 := by
  induction l1 with
  | nil => simp [gather]
  | cons x xs ih =>
    show f x ++ gather f (xs ++ l2) = (f x ++ gather f xs) ++ gather f l2
    rw [ih, List.append_assoc]

theorem sumOver_replicate_zero {α : Type} (f : α → Nat) (a : α) (h : f a = 0) (n : Nat) :
    sumOver f (List.replicate n a) = 0 := by
  induction n with
  | zero => rfl
  | succ k ih => simp only [List.replicate_succ, sumOver, ih, h]

theorem gather_replicate_nil {α β : Type} (f : α → List β) (a : α) (h : f a = []) (n : Nat) :
    gather f (List.replicate n a) = [] := by
  induction n with
  | zero => rfl
  | succ k ih => simp only [List.replicate_succ, gather, ih, h, List.append_nil]

theorem sumOver_le_length {α : Type} (f : α → Nat) (hf : ∀ x, f x ≤ 1) (l : List α) :
    sumOver f l ≤ l.length := by
  induction l with
  | nil => simp [sumOver]
  | cons x xs ih =>
    have := hf x
    simp only [sumOver, List.length_cons]
    omega

variable {δ : Type}

theorem SubSys.deliver_inv {s s' : SubSys δ} {msg : Message δ}
    (h : s.deliver msg = .ok s') :
    s.sub.channel.closed = false ∧ s.sub.channel.buf.length < s.sub.channel.cap ∧
    s' = { s with sub := { s.sub with
      channel := { s.sub.channel with buf := s.sub.channel.buf ++ [msg] } } } := by
  unfold SubSys.deliver at h
  split at h
  · simp at h
  · split at h
    · simp only [Step.ok.injEq] at h
      rename_i hc hl
      exact ⟨by simpa using hc, hl, h.symm⟩
    · simp at h

theorem SubSys.Close_inv {s s' : SubSys δ} (h : s.Close = .ok s') :
    s.sub.channel.closed = false ∧ s.sub.WorkerPool.JobsChannel.closed = false ∧
    s' = { s with sub := { s.sub with
      channel := { s.sub.channel with closed := true },
      WorkerPool := { s.sub.WorkerPool with
        JobsChannel := { s.sub.WorkerPool.JobsChannel with closed := true } } } } := by
  unfold SubSys.Close WorkerPool.Shutdown at h
  split at h
  · simp at h
  · rename_i hc
    split at h
    · rename_i p hp
      split at hp
      · simp at hp
      · rename_i hj
        simp only [Step.ok.injEq] at hp h
        subst hp
        exact ⟨by simpa using hc, by simpa using hj, h.symm⟩
    · simp at h
    · simp at h

theorem SubSys.recv_inv {s s' : SubSys δ} {d : Nat} (h : s.recv d = .ok s') :
    s.drains[d]? = some .waiting ∧
    ((∃ msg rest, s.sub.channel.buf = msg :: rest ∧
        s' = { s with
          sub := { s.sub with channel := { s.sub.channel with buf := rest } },
          drains := s.drains.set d (.received msg),
          received := s.received ++ [msg] }) ∨
      (s.sub.channel.buf = [] ∧ s.sub.channel.closed = true ∧
        s' = { s with drains := s.drains.set d .ended })) := by
  unfold SubSys.recv at h
  cases hd : s.drains[d]? with
  | none => rw [hd] at h; simp at h
  | some dr =>
    rw [hd] at h
    cases dr with
    | received m => simp at h
    | built j => simp at h
    | ended => simp at h
    | waiting =>
      refine ⟨rfl, ?_⟩
      dsimp only at h
      cases hb : s.sub.channel.buf with
      | nil =>
        rw [hb] at h
        dsimp only at h
        split at h
        · rename_i hc
          simp only [Step.ok.injEq] at h
          exact Or.inr ⟨rfl, hc, h.symm⟩
        · simp at h
      | cons msg rest =>
        rw [hb] at h
        simp only [Step.ok.injEq] at h
        exact Or.inl ⟨msg, rest, rfl, h.symm⟩

theorem SubSys.build_inv {s s' : SubSys δ} {d : Nat} (h : s.build d = .ok s') :
    ∃ msg, s.drains[d]? = some (.received msg) ∧
      s' = { s with
        sub := s.sub.generateJobID.1,
        drains := s.drains.set d
          (.built { ID := s.sub.generateJobID.2, Task := { msg := msg }, Priority := 0,
                    Attempts := 0 }),
        built := s.built ++
          [{ ID := s.sub.generateJobID.2, Task := { msg := msg }, Priority := 0,
             Attempts := 0 }] } := by
  unfold SubSys.build at h
  cases hd : s.drains[d]? with
  | none => rw [hd] at h; simp at h
  | some dr =>
    rw [hd] at h
    cases dr with
    | waiting => simp at h
    | built j => simp at h
    | ended => simp at h
    | received m =>
      simp only [Step.ok.injEq] at h
      exact ⟨m, rfl, h.symm⟩

theorem SubSys.submit_inv {s s' : SubSys δ} {d : Nat} (h : s.submit d = .ok s') :
    ∃ job, s.drains[d]? = some (.built job) ∧
      s.sub.WorkerPool.JobsChannel.closed = false ∧
      ((s.sub.WorkerPool.JobsChannel.buf.length < s.sub.WorkerPool.JobsChannel.cap ∧
        s' = { s with
          sub := { s.sub with WorkerPool := { s.sub.WorkerPool with
            JobsChannel := { s.sub.WorkerPool.JobsChannel with
              buf := s.sub.WorkerPool.JobsChannel.buf ++ [job] },
            wg := s.sub.WorkerPool.wg + 1 } },
          drains := s.drains.set d .waiting,
          accepted := s.accepted ++ [job] }) ∨
       (¬ s.sub.WorkerPool.JobsChannel.buf.length < s.sub.WorkerPool.JobsChannel.cap ∧
        s' = { s with drains := s.drains.set d .waiting })) := by
  unfold SubSys.submit at h
  cases hd : s.drains[d]? with
  | none => rw [hd] at h; simp at h
  | some dr =>
    rw [hd] at h
    cases dr with
    | waiting => simp at h
    | received m => simp at h
    | ended => simp at h
    | built job =>
      dsimp only at h
      unfold WorkerPool.SubmitJob at h
      cases hc : s.sub.WorkerPool.JobsChannel.closed with
      | true => simp [hc] at h
      | false =>
        refine ⟨job, rfl, rfl, ?_⟩
        by_cases hl : s.sub.WorkerPool.JobsChannel.buf.length < s.sub.WorkerPool.JobsChannel.cap
        · simp only [hc, Bool.false_eq_true, if_false, hl, if_true, Step.ok.injEq] at h
          refine Or.inl ⟨hl, ?_⟩
          rw [← h]
          simp [hc]
        · simp only [hc, Bool.false_eq_true, if_false, hl, Step.ok.injEq] at h
          exact Or.inr ⟨hl, h.symm⟩

theorem SubSys.take_inv {s s' : SubSys δ} {i : Nat} (h : s.take i = .ok s') :
    s.workers[i]? = some .idle ∧
    ((∃ job rest, s.sub.WorkerPool.JobsChannel.buf = job :: rest ∧
        s' = { s with
          sub := { s.sub with WorkerPool := { s.sub.WorkerPool with
            JobsChannel := { s.sub.WorkerPool.JobsChannel with buf := rest } } },
          workers := s.workers.set i (.running job) }) ∨
      (s.sub.WorkerPool.JobsChannel.buf = [] ∧ s.sub.WorkerPool.JobsChannel.closed = true ∧
        s' = { s with workers := s.workers.set i .stopped })) := by
  unfold SubSys.take at h
  cases hw : s.workers[i]? with
  | none => rw [hw] at h; simp at h
  | some wk =>
    rw [hw] at h
    cases wk with
    | running j => simp at h
    | executed j => simp at h
    | emitted j => simp at h
    | stopped => simp at h
    | idle =>
      refine ⟨rfl, ?_⟩
      dsimp only at h
      cases hb : s.sub.WorkerPool.JobsChannel.buf with
      | nil =>
        rw [hb] at h
        dsimp only at h
        split at h
        · rename_i hc
          simp only [Step.ok.injEq] at h
          exact Or.inr ⟨rfl, hc, h.symm⟩
        · simp at h
      | cons job rest =>
        rw [hb] at h
        simp only [Step.ok.injEq] at h
        exact Or.inl ⟨job, rest, rfl, h.symm⟩

theorem SubSys.exec_inv {s s' : SubSys δ} {i : Nat} (h : s.exec i = .ok s') :
    ∃ job, s.workers[i]? = some (.running job) ∧
      s' = { s with workers := s.workers.set i (.executed job),
                    handled := s.handled ++ [job.Task.msg] } := by
  unfold SubSys.exec at h
  cases hw : s.workers[i]? with
  | none => rw [hw] at h; simp at h
  | some wk =>
    rw [hw] at h
    cases wk with
    | idle => simp at h
    | executed j => simp at h
    | emitted j => simp at h
    | stopped => simp at h
    | running job =>
      simp only [Step.ok.injEq] at h
      exact ⟨job, rfl, h.symm⟩

theorem SubSys.emit_inv {s s' : SubSys δ} {i : Nat} (h : s.emit i = .ok s') :
    ∃ job, s.workers[i]? = some (.executed job) ∧
      s.sub.WorkerPool.ResultsChannel.closed = false ∧
      s.sub.WorkerPool.ResultsChannel.buf.length < s.sub.WorkerPool.ResultsChannel.cap ∧
      s' = { s with
        sub := { s.sub with WorkerPool := { s.sub.WorkerPool with
          ResultsChannel := { s.sub.WorkerPool.ResultsChannel with
            buf := s.sub.WorkerPool.ResultsChannel.buf ++ [resultOf job] } } },
        workers := s.workers.set i (.emitted job),
        emitted := s.emitted ++ [resultOf job] } := by
  unfold SubSys.emit at h
  cases hw : s.workers[i]? with
  | none => rw [hw] at h; simp at h
  | some wk =>
    rw [hw] at h
    cases wk with
    | idle => simp at h
    | running j => simp at h
    | emitted j => simp at h
    | stopped => simp at h
    | executed job =>
      dsimp only at h
      cases hc : s.sub.WorkerPool.ResultsChannel.closed with
      | true => simp [hc] at h
      | false =>
        by_cases hl : s.sub.WorkerPool.ResultsChannel.buf.length
            < s.sub.WorkerPool.ResultsChannel.cap
        · simp only [hc, Bool.false_eq_true, if_false, hl, if_true, Step.ok.injEq] at h
          refine ⟨job, rfl, rfl, hl, ?_⟩
          rw [← h]
          simp [hc]
        · simp [hc, hl] at h

theorem SubSys.done_inv {s s' : SubSys δ} {i : Nat} (h : s.done i = .ok s') :
    ∃ job, s.workers[i]? = some (.emitted job) ∧ 0 ≤ s.sub.WorkerPool.wg - 1 ∧
      s' = { s with
        sub := { s.sub with WorkerPool := { s.sub.WorkerPool with
          wg := s.sub.WorkerPool.wg - 1 } },
        workers := s.workers.set i .idle } := by
  unfold SubSys.done at h
  cases hw : s.workers[i]? with
  | none => rw [hw] at h; simp at h
  | some wk =>
    rw [hw] at h
    cases wk with
    | idle => simp at h
    | running j => simp at h
    | executed j => simp at h
    | stopped => simp at h
    | emitted job =>
      dsimp only at h
      split at h
      · simp at h
      · rename_i hn
        simp only [Step.ok.injEq] at h
        exact ⟨job, rfl, by omega, h.symm⟩

/-! ## Results nobody receives -/

/-- Counting invariant of a subscriber: the result queue holds every `Result`
ever sent, the handler has run once for each `Result` sent and once for each
worker about to send, and the counter is the number of accepted jobs minus
the number of `wg.Done()` calls. -/
theorem step_count_inv {s s' : SubSys δ} {a : SubAction δ} (h : s.step a = .ok s')
    (hr : s.sub.WorkerPool.ResultsChannel.buf = s.emitted)
    (hcap : s.sub.WorkerPool.ResultsChannel.cap = 50)
    (hle : s.emitted.length ≤ 50)
    (hh : s.handled.length = s.emitted.length + sumOver SubWorker.isExecuted s.workers)
    (hwg : s.sub.WorkerPool.wg + (s.emitted.length : Int)
      = (s.accepted.length : Int) + (sumOver SubWorker.isEmitted s.workers : Int)) :
    s'.sub.WorkerPool.ResultsChannel.buf = s'.emitted ∧
    s'.sub.WorkerPool.ResultsChannel.cap = 50 ∧
    s'.emitted.length ≤ 50 ∧
    s'.handled.length = s'.emitted.length + sumOver SubWorker.isExecuted s'.workers ∧
    s'.sub.WorkerPool.wg + (s'.emitted.length : Int)
      = (s'.accepted.length : Int) + (sumOver SubWorker.isEmitted s'.workers : Int) := by
  cases a with
  | start =>
    simp only [SubSys.step, Step.ok.injEq] at h
    subst h
    have e1 := sumOver_replicate_zero SubWorker.isExecuted (SubWorker.idle : SubWorker δ) rfl
      s.sub.WorkerPool.NoOfWorkers.toNat
    have e2 := sumOver_replicate_zero SubWorker.isEmitted (SubWorker.idle : SubWorker δ) rfl
      s.sub.WorkerPool.NoOfWorkers.toNat
    simp only [SubSys.start, sumOver_append, e1, e2, Nat.add_zero]
    exact ⟨hr, hcap, hle, hh, hwg⟩
  | deliver msg =>
    simp only [SubSys.step] at h
    obtain ⟨_, _, rfl⟩ := SubSys.deliver_inv h
    exact ⟨hr, hcap, hle, hh, hwg⟩
  | recv d =>
    simp only [SubSys.step] at h
    obtain ⟨_, hcase⟩ := SubSys.recv_inv h
    rcases hcase with ⟨msg, rest, _, rfl⟩ | ⟨_, _, rfl⟩
    · exact ⟨hr, hcap, hle, hh, hwg⟩
    · exact ⟨hr, hcap, hle, hh, hwg⟩
  | build d =>
    simp only [SubSys.step] at h
    obtain ⟨msg, _, rfl⟩ := SubSys.build_inv h
    exact ⟨hr, hcap, hle, hh, hwg⟩
  | submit d =>
    simp only [SubSys.step] at h
    obtain ⟨job, _, _, hcase⟩ := SubSys.submit_inv h
    rcases hcase with ⟨_, rfl⟩ | ⟨_, rfl⟩
    · refine ⟨hr, hcap, hle, hh, ?_⟩
      simp only [List.length_append, List.length_singleton, Nat.cast_add, Nat.cast_one]
      omega
    · exact ⟨hr, hcap, hle, hh, hwg⟩
  | take i =>
    simp only [SubSys.step] at h
    obtain ⟨hw, hcase⟩ := SubSys.take_inv h
    rcases hcase with ⟨job, rest, _, rfl⟩ | ⟨_, _, rfl⟩
    · have e1 := sumOver_set SubWorker.isExecuted s.workers i _ (.running job) hw
      have e2 := sumOver_set SubWorker.isEmitted s.workers i _ (.running job) hw
      simp only [SubWorker.isExecuted, SubWorker.isEmitted] at e1 e2
      refine ⟨hr, hcap, hle, ?_, ?_⟩
      · dsimp only
        omega
      · dsimp only
        omega
    · have e1 := sumOver_set SubWorker.isExecuted s.workers i _ .stopped hw
      have e2 := sumOver_set SubWorker.isEmitted s.workers i _ .stopped hw
      simp only [SubWorker.isExecuted, SubWorker.isEmitted] at e1 e2
      refine ⟨hr, hcap, hle, ?_, ?_⟩
      · dsimp only
        omega
      · dsimp only
        omega
  | exec i =>
    simp only [SubSys.step] at h
    obtain ⟨job, hw, rfl⟩ := SubSys.exec_inv h
    have e1 := sumOver_set SubWorker.isExecuted s.workers i _ (.executed job) hw
    have e2 := sumOver_set SubWorker.isEmitted s.workers i _ (.executed job) hw
    simp only [SubWorker.isExecuted, SubWorker.isEmitted] at e1 e2
    refine ⟨hr, hcap, hle, ?_, ?_⟩
    · dsimp only
      simp only [List.length_append, List.length_singleton]
      omega
    · dsimp only
      omega
  | emit i =>
    simp only [SubSys.step] at h
    obtain ⟨job, hw, _, hroom, rfl⟩ := SubSys.emit_inv h
    have e1 := sumOver_set SubWorker.isExecuted s.workers i _ (.emitted job) hw
    have e2 := sumOver_set SubWorker.isEmitted s.workers i _ (.emitted job) hw
    simp only [SubWorker.isExecuted, SubWorker.isEmitted] at e1 e2
    rw [hr, hcap] at hroom
    refine ⟨?_, hcap, ?_, ?_, ?_⟩
    · show s.sub.WorkerPool.ResultsChannel.buf ++ [resultOf job] = s.emitted ++ [resultOf job]
      rw [hr]
    · dsimp only
      simp only [List.length_append, List.length_singleton]
      omega
    · dsimp only
      simp only [List.length_append, List.length_singleton]
      omega
    · show s.sub.WorkerPool.wg + ((s.emitted ++ [resultOf job]).length : Int)
        = (s.accepted.length : Int) + _
      simp only [List.length_append, List.length_singleton, Nat.cast_add, Nat.cast_one]
      omega
  | done i =>
    simp only [SubSys.step] at h
    obtain ⟨job, hw, _, rfl⟩ := SubSys.done_inv h
    have e1 := sumOver_set SubWorker.isExecuted s.workers i _ .idle hw
    have e2 := sumOver_set SubWorker.isEmitted s.workers i _ .idle hw
    simp only [SubWorker.isExecuted, SubWorker.isEmitted] at e1 e2
    refine ⟨hr, hcap, hle, ?_, ?_⟩
    · dsimp only
      omega
    · dsimp only
      omega
  | close =>
    simp only [SubSys.step] at h
    obtain ⟨_, _, rfl⟩ := SubSys.Close_inv h
    exact ⟨hr, hcap, hle, hh, hwg⟩

theorem SubSys.run_induction (P : SubSys δ → Prop) (Q : SubAction δ → Prop)
    (hstep : ∀ (s s' : SubSys δ) (a : SubAction δ), Q a → P s → s.step a = .ok s' → P s')
    (sched : List (SubAction δ)) :
    ∀ (s s' : SubSys δ), (∀ a ∈ sched, Q a) → P s → s.run sched = some s' → P s' := by
  induction sched with
  | nil =>
    intro s s' _ hP h
    simp only [SubSys.run, Option.some.injEq] at h
    rw [← h]
    exact hP
  | cons a rest ih =>
    intro s s' hQ hP h
    simp only [SubSys.run] at h
    cases hs : s.step a with
    | blocked => rw [hs] at h; simp at h
    | panic m => rw [hs] at h; simp at h
    | ok s1 =>
      rw [hs] at h
      exact ih s1 s' (fun b hb => hQ b (List.mem_cons_of_mem _ hb))
        (hstep s s1 a (hQ a (List.mem_cons_self _ _)) hP hs) h

theorem SubSys.run_concat (l1 : List (SubAction δ)) :
    ∀ (s : SubSys δ) (l2 : List (SubAction δ)),
      s.run (l1 ++ l2) = (s.run l1).bind (fun s1 => s1.run l2) := by
  induction l1 with
  | nil => intro s l2; rfl
  | cons a rest ih =>
    intro s l2
    show SubSys.run s (a :: (rest ++ l2)) = _
    simp only [SubSys.run]
    cases hs : s.step a with
    | blocked => rfl
    | panic m => rfl
    | ok s1 => exact ih s1 l2

/-- What a step other than `start` leaves alone: the number of worker and
drain goroutines; and no step takes a job back out of the accepted ones. -/
theorem step_frame {s s' : SubSys δ} {a : SubAction δ} (h : s.step a = .ok s') :
    (a ≠ .start → s'.workers.length = s.workers.length ∧ s'.drains.length = s.drains.length) ∧
    s.accepted.length ≤ s'.accepted.length := by
  cases a with
  | start =>
    simp only [SubSys.step, Step.ok.injEq] at h
    subst h
    exact ⟨fun hne => absurd rfl hne, Nat.le_refl _⟩
  | deliver msg =>
    simp only [SubSys.step] at h
    obtain ⟨_, _, rfl⟩ := SubSys.deliver_inv h
    exact ⟨fun _ => ⟨rfl, rfl⟩, Nat.le_refl _⟩
  | recv d =>
    simp only [SubSys.step] at h
    obtain ⟨_, hcase⟩ := SubSys.recv_inv h
    rcases hcase with ⟨msg, rest, _, rfl⟩ | ⟨_, _, rfl⟩
    · exact ⟨fun _ => ⟨rfl, by simp⟩, Nat.le_refl _⟩
    · exact ⟨fun _ => ⟨rfl, by simp⟩, Nat.le_refl _⟩
  | build d =>
    simp only [SubSys.step] at h
    obtain ⟨msg, _, rfl⟩ := SubSys.build_inv h
    exact ⟨fun _ => ⟨rfl, by simp⟩, Nat.le_refl _⟩
  | submit d =>
    simp only [SubSys.step] at h
    obtain ⟨job, _, _, hcase⟩ := SubSys.submit_inv h
    rcases hcase with ⟨_, rfl⟩ | ⟨_, rfl⟩
    · exact ⟨fun _ => ⟨rfl, by simp⟩, by simp⟩
    · exact ⟨fun _ => ⟨rfl, by simp⟩, Nat.le_refl _⟩
  | take i =>
    simp only [SubSys.step] at h
    obtain ⟨_, hcase⟩ := SubSys.take_inv h
    rcases hcase with ⟨job, rest, _, rfl⟩ | ⟨_, _, rfl⟩
    · exact ⟨fun _ => ⟨by simp, rfl⟩, Nat.le_refl _⟩
    · exact ⟨fun _ => ⟨by simp, rfl⟩, Nat.le_refl _⟩
  | exec i =>
    simp only [SubSys.step] at h
    obtain ⟨job, _, rfl⟩ := SubSys.exec_inv h
    exact ⟨fun _ => ⟨by simp, rfl⟩, Nat.le_refl _⟩
  | emit i =>
    simp only [SubSys.step] at h
    obtain ⟨job, _, _, _, rfl⟩ := SubSys.emit_inv h
    exact ⟨fun _ => ⟨by simp, rfl⟩, Nat.le_refl _⟩
  | done i =>
    simp only [SubSys.step] at h
    obtain ⟨job, _, _, rfl⟩ := SubSys.done_inv h
    exact ⟨fun _ => ⟨by simp, rfl⟩, Nat.le_refl _⟩
  | close =>
    simp only [SubSys.step] at h
    obtain ⟨_, _, rfl⟩ := SubSys.Close_inv h
    exact ⟨fun _ => ⟨rfl, rfl⟩, Nat.le_refl _⟩

/-- In every run of a subscriber started once (no further `start`), the
counting invariant holds and there are 5 workers and one drain goroutine. -/
theorem started_once_inv (id : String) (sched : List (SubAction δ)) (s : SubSys δ)
    (hns : ∀ a ∈ sched, a ≠ SubAction.start)
    (hrun : ((SubSys.new id : SubSys δ).start).run sched = some s) :
    (s.sub.WorkerPool.ResultsChannel.buf = s.emitted ∧
      s.sub.WorkerPool.ResultsChannel.cap = 50 ∧
      s.emitted.length ≤ 50 ∧
      s.handled.length = s.emitted.length + sumOver SubWorker.isExecuted s.workers ∧
      s.sub.WorkerPool.wg + (s.emitted.length : Int)
        = (s.accepted.length : Int) + (sumOver SubWorker.isEmitted s.workers : Int)) ∧
    s.workers.length = 5 ∧ s.drains.length = 1 := by
  refine SubSys.run_induction
    (fun s => (s.sub.WorkerPool.ResultsChannel.buf = s.emitted ∧
      s.sub.WorkerPool.ResultsChannel.cap = 50 ∧
      s.emitted.length ≤ 50 ∧
      s.handled.length = s.emitted.length + sumOver SubWorker.isExecuted s.workers ∧
      s.sub.WorkerPool.wg + (s.emitted.length : Int)
        = (s.accepted.length : Int) + (sumOver SubWorker.isEmitted s.workers : Int)) ∧
      s.workers.length = 5 ∧ s.drains.length = 1)
    (fun a => a ≠ SubAction.start) ?_ sched _ s hns ?_ hrun
  · intro s1 s2 a ha hP hstep
    obtain ⟨⟨h1, h2, h3, h4, h5⟩, h6, h7⟩ := hP
    have hf := (step_frame hstep).1 ha
    exact ⟨step_count_inv hstep h1 h2 h3 h4 h5, by rw [hf.1]; exact h6, by rw [hf.2]; exact h7⟩
  · refine ⟨⟨rfl, rfl, Nat.zero_le _, ?_, ?_⟩, rfl, rfl⟩
    · exact (sumOver_replicate_zero SubWorker.isExecuted (SubWorker.idle : SubWorker δ) rfl 5).symm
    · have := sumOver_replicate_zero SubWorker.isEmitted (SubWorker.idle : SubWorker δ) rfl 5
      show (0 : Int) + 0 = 0 + ((sumOver SubWorker.isEmitted
        (List.replicate 5 (SubWorker.idle : SubWorker δ)) : Nat) : Int)
      rw [this]
      rfl

theorem run_accepted_le (sched : List (SubAction δ)) (s s' : SubSys δ)
    (hrun : s.run sched = some s') : s.accepted.length ≤ s'.accepted.length :=
  SubSys.run_induction (fun t => s.accepted.length ≤ t.accepted.length) (fun _ => True)
    (fun _ _ _ _ hP hstep => Nat.le_trans hP (step_frame hstep).2)
    sched s s' (fun _ _ => trivial) (Nat.le_refl _) hrun

/-- C30: nothing receives from the private pool's `ResultsChannel`.  In every
run of a subscriber started once, the result queue (capacity 50) holds every
`Result` ever sent, so at most 50 are sent; at most 50 jobs complete (accepted
jobs minus the counter); the handler has run for at most 55 messages; and once
more than 50 jobs are accepted the counter is positive, now and in every later
state of the run.  Once 50 `Result`s are sent no worker can send another. -/
theorem C30_results_never_received (id : String) (sched more : List (SubAction δ))
    (s s2 : SubSys δ) (hns : ∀ a ∈ sched, a ≠ SubAction.start)
    (hrun : ((SubSys.new id : SubSys δ).start).run sched = some s)
    (hns2 : ∀ a ∈ more, a ≠ SubAction.start) (hmore : s.run more = some s2) :
    s.sub.WorkerPool.ResultsChannel.buf = s.emitted ∧
    s.sub.WorkerPool.ResultsChannel.cap = 50 ∧
    s.emitted.length ≤ 50 ∧
    (s.accepted.length : Int) - s.sub.WorkerPool.wg ≤ 50 ∧
    s.handled.length ≤ 55 ∧
    (50 < s.accepted.length → 0 < s.sub.WorkerPool.wg ∧ 0 < s2.sub.WorkerPool.wg) ∧
    (s.emitted.length = 50 → ∀ (i : Nat) (s' : SubSys δ), s.emit i ≠ .ok s') := by
  obtain ⟨⟨h1, h2, h3, h4, h5⟩, h6, _⟩ := started_once_inv id sched s hns hrun
  have hrun2 : ((SubSys.new id : SubSys δ).start).run (sched ++ more) = some s2 := by
    rw [SubSys.run_concat, hrun]
    exact hmore
  have hns12 : ∀ a ∈ sched ++ more, a ≠ SubAction.start := by
    intro a ha
    rcases List.mem_append.mp ha with h | h
    · exact hns a h
    · exact hns2 a h
  obtain ⟨⟨_, _, k3, _, k5⟩, _, _⟩ := started_once_inv id (sched ++ more) s2 hns12 hrun2
  have hacc := run_accepted_le more s s2 hmore
  have hex := sumOver_le_length SubWorker.isExecuted
    (fun w => by cases w <;> simp [SubWorker.isExecuted]) s.workers
  refine ⟨h1, h2, h3, by omega, by omega, ?_, ?_⟩
  · intro hgt
    constructor
    · omega
    · omega
  · intro hfull i s' hemit
    obtain ⟨_, _, _, hroom, _⟩ := SubSys.emit_inv hemit
    rw [h1, h2] at hroom
    omega

/-- Witness of C30: one message is delivered to the started subscriber
"analytics", drained, submitted, handled, its `Result` sent and the counter
decremented; the `Result` stays in the result queue. -/
theorem C30_results_never_received_witness :
    ∃ s : SubSys String,
      ((SubSys.new "analytics" : SubSys String).start).run
        [.deliver ⟨"gaming", "m1"⟩, .recv 0, .build 0, .submit 0, .take 0, .exec 0, .emit 0,
          .done 0] = some s ∧
      s.emitted = [{ JobID := 1, Err := none, Output := none }] ∧
      s.sub.WorkerPool.ResultsChannel.buf = s.emitted ∧
      s.sub.WorkerPool.ResultsChannel.cap = 50 ∧
      s.emitted.length ≤ 50 ∧
      (s.accepted.length : Int) - s.sub.WorkerPool.wg ≤ 50 ∧
      s.handled.length ≤ 55 ∧
      (50 < s.accepted.length → 0 < s.sub.WorkerPool.wg ∧ 0 < s.sub.WorkerPool.wg) ∧
      (s.emitted.length = 50 → ∀ (i : Nat) (s' : SubSys String), s.emit i ≠ .ok s') :=
  ⟨_, rfl, rfl,
    C30_results_never_received "analytics"
      [.deliver ⟨"gaming", "m1"⟩, .recv 0, .build 0, .submit 0, .take 0, .exec 0, .emit 0,
        .done 0] [] _ _ (by decide) rfl (by decide) rfl⟩

/-! ## One job and one run of the handler per received message -/

/-- Bookkeeping of the messages of a subscriber, as multisets: an accepted
job or a message held by a drain goroutine stands for a received message; a
built job or a message awaiting its job stands for exactly one received
message; a run of the handler, a job held by a worker before `Execute`, or a
queued job stands for exactly one accepted job. -/
theorem step_msg_inv {s s' : SubSys δ} {a : SubAction δ} (h : s.step a = .ok s')
    (hB : (↑(s.accepted.map (fun j => j.Task.msg)) : Multiset (Message δ))
      + ↑(gather Drain.held s.drains) ≤ ↑s.received)
    (hI : (↑(s.built.map (fun j => j.Task.msg)) : Multiset (Message δ))
      + ↑(gather Drain.unbuilt s.drains) = ↑s.received)
    (hH : (↑s.handled : Multiset (Message δ)) + ↑(gather SubWorker.pending s.workers)
      + ↑(s.sub.WorkerPool.JobsChannel.buf.map (fun j => j.Task.msg))
      = ↑(s.accepted.map (fun j => j.Task.msg))) :
    ((↑(s'.accepted.map (fun j => j.Task.msg)) : Multiset (Message δ))
      + ↑(gather Drain.held s'.drains) ≤ ↑s'.received) ∧
    ((↑(s'.built.map (fun j => j.Task.msg)) : Multiset (Message δ))
      + ↑(gather Drain.unbuilt s'.drains) = ↑s'.received) ∧
    ((↑s'.handled : Multiset (Message δ)) + ↑(gather SubWorker.pending s'.workers)
      + ↑(s'.sub.WorkerPool.JobsChannel.buf.map (fun j => j.Task.msg))
      = ↑(s'.accepted.map (fun j => j.Task.msg))) := by
  cases a with
  | start =>
    simp only [SubSys.step, Step.ok.injEq] at h
    subst h
    have e1 := gather_replicate_nil SubWorker.pending (SubWorker.idle : SubWorker δ) rfl
      s.sub.WorkerPool.NoOfWorkers.toNat
    simp only [SubSys.start, gather_append, e1, List.append_nil, gather, Drain.held,
      Drain.unbuilt]
    exact ⟨hB, hI, hH⟩
  | deliver msg =>
    simp only [SubSys.step] at h
    obtain ⟨_, _, rfl⟩ := SubSys.deliver_inv h
    exact ⟨hB, hI, hH⟩
  | recv d =>
    simp only [SubSys.step] at h
    obtain ⟨hd, hcase⟩ := SubSys.recv_inv h
    rcases hcase with ⟨msg, rest, _, rfl⟩ | ⟨_, _, rfl⟩
    · have e1 := gather_set Drain.held s.drains d _ (.received msg) hd
      have e2 := gather_set Drain.unbuilt s.drains d _ (.received msg) hd
      simp only [Drain.held, Drain.unbuilt, Multiset.coe_nil, add_zero] at e1 e2
      refine ⟨?_, ?_, hH⟩
      · dsimp only
        rw [e1, ← Multiset.coe_add s.received [msg], ← add_assoc]
        exact add_le_add_right hB _
      · dsimp only
        rw [e2, ← Multiset.coe_add s.received [msg], ← add_assoc, hI]
    · have e1 := gather_set Drain.held s.drains d _ .ended hd
      have e2 := gather_set Drain.unbuilt s.drains d _ .ended hd
      simp only [Drain.held, Drain.unbuilt, Multiset.coe_nil, add_zero] at e1 e2
      refine ⟨?_, ?_, hH⟩
      · dsimp only
        rw [e1]
        exact hB
      · dsimp only
        rw [e2]
        exact hI
  | build d =>
    simp only [SubSys.step] at h
    obtain ⟨msg, hd, rfl⟩ := SubSys.build_inv h
    have e1 := gather_set Drain.held s.drains d _
      (.built { ID := s.sub.generateJobID.2, Task := { msg := msg }, Priority := 0,
                Attempts := 0 }) hd
    have e2 := gather_set Drain.unbuilt s.drains d _
      (.built { ID := s.sub.generateJobID.2, Task := { msg := msg }, Priority := 0,
                Attempts := 0 }) hd
    simp only [Drain.held, Drain.unbuilt, Multiset.coe_nil, add_zero] at e1 e2
    have e1' := add_right_cancel e1
    refine ⟨?_, ?_, hH⟩
    · dsimp only
      rw [e1']
      exact hB
    · dsimp only
      rw [List.map_append, ← Multiset.coe_add, ← hI, ← e2]
      simp only [List.map_cons, List.map_nil]
      abel
  | submit d =>
    simp only [SubSys.step] at h
    obtain ⟨job, hd, _, hcase⟩ := SubSys.submit_inv h
    have e1 := gather_set Drain.held s.drains d _ .waiting hd
    have e2 := gather_set Drain.unbuilt s.drains d _ .waiting hd
    simp only [Drain.held, Drain.unbuilt, Multiset.coe_nil, add_zero] at e1 e2
    rcases hcase with ⟨_, rfl⟩ | ⟨_, rfl⟩
    · refine ⟨?_, ?_, ?_⟩
      · dsimp only
        rw [List.map_append, ← Multiset.coe_add]
        simp only [List.map_cons, List.map_nil]
        rw [← e1] at hB
        have : (↑(s.accepted.map (fun j => j.Task.msg)) : Multiset (Message δ))
            + ↑[job.Task.msg] + ↑(gather Drain.held (s.drains.set d Drain.waiting))
          = ↑(s.accepted.map (fun j => j.Task.msg))
            + (↑(gather Drain.held (s.drains.set d Drain.waiting)) + ↑[job.Task.msg]) := by
          abel
        rw [this]
        exact hB
      · dsimp only
        rw [e2]
        exact hI
      · dsimp only
        rw [List.map_append, List.map_append, ← Multiset.coe_add, ← Multiset.coe_add, ← hH]
        abel
    · refine ⟨?_, ?_, hH⟩
      · dsimp only
        rw [← e1] at hB
        refine le_trans ?_ hB
        rw [← add_assoc]
        exact Multiset.le_add_right _ _
      · dsimp only
        rw [e2]
        exact hI
  | take i =>
    simp only [SubSys.step] at h
    obtain ⟨hw, hcase⟩ := SubSys.take_inv h
    rcases hcase with ⟨job, rest, hb, rfl⟩ | ⟨_, _, rfl⟩
    · have e1 := gather_set SubWorker.pending s.workers i _ (.running job) hw
      simp only [SubWorker.pending, Multiset.coe_nil, add_zero] at e1
      refine ⟨hB, hI, ?_⟩
      dsimp only
      rw [e1, ← hH, hb]
      simp only [List.map_cons, ← Multiset.cons_coe, ← Multiset.singleton_add,
        Multiset.coe_singleton]
      abel
    · have e1 := gather_set SubWorker.pending s.workers i _ .stopped hw
      simp only [SubWorker.pending, Multiset.coe_nil, add_zero] at e1
      refine ⟨hB, hI, ?_⟩
      dsimp only
      rw [e1]
      exact hH
  | exec i =>
    simp only [SubSys.step] at h
    obtain ⟨job, hw, rfl⟩ := SubSys.exec_inv h
    have e1 := gather_set SubWorker.pending s.workers i _ (.executed job) hw
    simp only [SubWorker.pending, Multiset.coe_nil, add_zero] at e1
    refine ⟨hB, hI, ?_⟩
    dsimp only
    rw [← hH, ← e1, ← Multiset.coe_add s.handled [job.Task.msg]]
    abel
  | emit i =>
    simp only [SubSys.step] at h
    obtain ⟨job, hw, _, _, rfl⟩ := SubSys.emit_inv h
    have e1 := gather_set SubWorker.pending s.workers i _ (.emitted job) hw
    simp only [SubWorker.pending, Multiset.coe_nil, add_zero] at e1
    refine ⟨hB, hI, ?_⟩
    dsimp only
    rw [e1]
    exact hH
  | done i =>
    simp only [SubSys.step] at h
    obtain ⟨job, hw, _, rfl⟩ := SubSys.done_inv h
    have e1 := gather_set SubWorker.pending s.workers i _ .idle hw
    simp only [SubWorker.pending, Multiset.coe_nil, add_zero] at e1
    refine ⟨hB, hI, ?_⟩
    dsimp only
    rw [e1]
    exact hH
  | close =>
    simp only [SubSys.step] at h
    obtain ⟨_, _, rfl⟩ := SubSys.Close_inv h
    exact ⟨hB, hI, hH⟩

theorem run_msg_inv (id : String) (sched : List (SubAction δ)) (s : SubSys δ)
    (hrun : (SubSys.new id : SubSys δ).run sched = some s) :
    ((↑(s.accepted.map (fun j => j.Task.msg)) : Multiset (Message δ))
      + ↑(gather Drain.held s.drains) ≤ ↑s.received) ∧
    ((↑(s.built.map (fun j => j.Task.msg)) : Multiset (Message δ))
      + ↑(gather Drain.unbuilt s.drains) = ↑s.received) ∧
    ((↑s.handled : Multiset (Message δ)) + ↑(gather SubWorker.pending s.workers)
      + ↑(s.sub.WorkerPool.JobsChannel.buf.map (fun j => j.Task.msg))
      = ↑(s.accepted.map (fun j => j.Task.msg))) := by
  refine SubSys.run_induction
    (fun s => ((↑(s.accepted.map (fun j => j.Task.msg)) : Multiset (Message δ))
        + ↑(gather Drain.held s.drains) ≤ ↑s.received) ∧
      ((↑(s.built.map (fun j => j.Task.msg)) : Multiset (Message δ))
        + ↑(gather Drain.unbuilt s.drains) = ↑s.received) ∧
      ((↑s.handled : Multiset (Message δ)) + ↑(gather SubWorker.pending s.workers)
        + ↑(s.sub.WorkerPool.JobsChannel.buf.map (fun j => j.Task.msg))
        = ↑(s.accepted.map (fun j => j.Task.msg))))
    (fun _ => True) ?_ sched _ s (fun _ _ => trivial) ?_ hrun
  · intro s1 s2 a _ hP hstep
    exact step_msg_inv hstep hP.1 hP.2.1 hP.2.2
  · simp [SubSys.new, NewSubscriber, NewWorkerPool, gather]

/-- C21: in every run of a subscriber, each message a drain loop has received
has exactly one job built for it or is about to get it; `build` makes one job
around the received message; `submit` is one `SubmitJob` call after which the
drain goroutine is back at the head of its loop, the job being accepted or
dropped; `Execute` returns `(nil, nil)` and one `exec` step runs the handler
once on the job's message.  So the handler has run on each message at most as
often as the message was received. -/
theorem C21_handler_once_per_message [DecidableEq δ] (id : String)
    (sched : List (SubAction δ)) (s : SubSys δ)
    (hrun : (SubSys.new id : SubSys δ).run sched = some s) :
    ((↑(s.built.map (fun j => j.Task.msg)) : Multiset (Message δ))
      + ↑(gather Drain.unbuilt s.drains) = ↑s.received) ∧
    ((↑s.handled : Multiset (Message δ)) ≤ ↑(s.accepted.map (fun j => j.Task.msg))) ∧
    ((↑(s.accepted.map (fun j => j.Task.msg)) : Multiset (Message δ)) ≤ ↑s.received) ∧
    (∀ m : Message δ, s.handled.count m ≤ s.received.count m) ∧
    (∀ t : ProcessMessageTask δ, Task.Execute t = ((none : Option Unit), (none : Option String))) ∧
    (∀ (d : Nat) (t : SubSys δ), s.build d = .ok t →
      ∃ msg job, s.drains[d]? = some (.received msg) ∧ job.Task.msg = msg ∧
        t.drains[d]? = some (.built job) ∧ t.built = s.built ++ [job]) ∧
    (∀ (d : Nat) (t : SubSys δ), s.submit d = .ok t →
      ∃ job, s.drains[d]? = some (.built job) ∧ t.drains[d]? = some .waiting ∧
        (t.accepted = s.accepted ++ [job] ∨
          (t.accepted = s.accepted ∧ t.sub.WorkerPool = s.sub.WorkerPool))) ∧
    (∀ (i : Nat) (t : SubSys δ), s.exec i = .ok t →
      ∃ job, s.workers[i]? = some (.running job) ∧ t.workers[i]? = some (.executed job) ∧
        t.handled = s.handled ++ [job.Task.msg]) := by
  obtain ⟨hB, hI, hH⟩ := run_msg_inv id sched s hrun
  have h1 : (↑s.handled : Multiset (Message δ)) ≤ ↑(s.accepted.map (fun j => j.Task.msg)) := by
    rw [← hH, add_assoc]
    exact Multiset.le_add_right _ _
  have h2 : (↑(s.accepted.map (fun j => j.Task.msg)) : Multiset (Message δ)) ≤ ↑s.received :=
    le_trans (Multiset.le_add_right _ _) hB
  refine ⟨hI, h1, h2, ?_, fun _ => rfl, ?_, ?_, ?_⟩
  · intro m
    have := Multiset.count_le_of_le m (le_trans h1 h2)
    simpa using this
  · intro d t ht
    obtain ⟨msg, hd, rfl⟩ := SubSys.build_inv ht
    exact ⟨msg, _, hd, rfl, getElem?_set_self_of_getElem? _ hd, rfl⟩
  · intro d t ht
    obtain ⟨job, hd, _, hcase⟩ := SubSys.submit_inv ht
    rcases hcase with ⟨_, rfl⟩ | ⟨_, rfl⟩
    · exact ⟨job, hd, getElem?_set_self_of_getElem? _ hd, Or.inl rfl⟩
    · exact ⟨job, hd, getElem?_set_self_of_getElem? _ hd, Or.inr ⟨rfl, rfl⟩⟩
  · intro i t ht
    obtain ⟨job, hw, rfl⟩ := SubSys.exec_inv ht
    exact ⟨job, hw, getElem?_set_self_of_getElem? _ hw, rfl⟩

/-- Witness of C21: the subscriber "analytics" is started, receives the one
delivered message, builds job 1 for it, has it accepted, and a worker runs the
handler on it once. -/
theorem C21_handler_once_per_message_witness :
    ∃ s : SubSys String,
      (SubSys.new "analytics" : SubSys String).run
        [.start, .deliver ⟨"gaming", "m1"⟩, .recv 0, .build 0, .submit 0, .take 0, .exec 0]
        = some s ∧
      s.received = [⟨"gaming", "m1"⟩] ∧ s.handled = [⟨"gaming", "m1"⟩] ∧
      s.built = [{ ID := 1, Task := ⟨⟨"gaming", "m1"⟩⟩, Priority := 0, Attempts := 0 }] ∧
      ((↑(s.built.map (fun j => j.Task.msg)) : Multiset (Message String))
        + ↑(gather Drain.unbuilt s.drains) = ↑s.received) ∧
      ((↑s.handled : Multiset (Message String)) ≤ ↑(s.accepted.map (fun j => j.Task.msg))) ∧
      ((↑(s.accepted.map (fun j => j.Task.msg)) : Multiset (Message String)) ≤ ↑s.received) ∧
      (∀ m : Message String, s.handled.count m ≤ s.received.count m) :=
  ⟨_, rfl, rfl, rfl, rfl,
    (C21_handler_once_per_message "analytics"
      [.start, .deliver ⟨"gaming", "m1"⟩, .recv 0, .build 0, .submit 0, .take 0, .exec 0]
      _ rfl).1,
    (C21_handler_once_per_message "analytics"
      [.start, .deliver ⟨"gaming", "m1"⟩, .recv 0, .build 0, .submit 0, .take 0, .exec 0]
      _ rfl).2.1,
    (C21_handler_once_per_message "analytics"
      [.start, .deliver ⟨"gaming", "m1"⟩, .recv 0, .build 0, .submit 0, .take 0, .exec 0]
      _ rfl).2.2.1,
    (C21_handler_once_per_message "analytics"
      [.start, .deliver ⟨"gaming", "m1"⟩, .recv 0, .build 0, .submit 0, .take 0, .exec 0]
      _ rfl).2.2.2.1⟩

/-! ## Job IDs -/

theorem wrapInt_succ (n : Nat) (h : (n : Int) < 9223372036854775807) :
    wrapInt ((n : Int) + 1) = (n : Int) + 1 := by
  unfold wrapInt
  omega

/-- The counter of a subscriber is the number of jobs built so far, and the
jobs built carry the IDs 1, 2, 3, ... in the order they were built, as long
as the counter stays below the largest Go `int`. -/
theorem step_id_inv {s s' : SubSys δ} {a : SubAction δ} (h : s.step a = .ok s')
    (hP : (s.built.length : Int) ≤ 9223372036854775807 →
      s.sub.jobIDCounter = s.built.length ∧
      s.built.map (fun j => j.ID)
        = (List.range s.built.length).map (fun (k : Nat) => (k : Int) + 1)) :
    (s'.built.length : Int) ≤ 9223372036854775807 →
      s'.sub.jobIDCounter = s'.built.length ∧
      s'.built.map (fun j => j.ID)
        = (List.range s'.built.length).map (fun (k : Nat) => (k : Int) + 1) := by
  cases a with
  | start =>
    simp only [SubSys.step, Step.ok.injEq] at h
    subst h
    exact hP
  | deliver msg =>
    simp only [SubSys.step] at h
    obtain ⟨_, _, rfl⟩ := SubSys.deliver_inv h
    exact hP
  | recv d =>
    simp only [SubSys.step] at h
    obtain ⟨_, hcase⟩ := SubSys.recv_inv h
    rcases hcase with ⟨msg, rest, _, rfl⟩ | ⟨_, _, rfl⟩
    · exact hP
    · exact hP
  | build d =>
    simp only [SubSys.step] at h
    obtain ⟨msg, _, rfl⟩ := SubSys.build_inv h
    intro hb
    dsimp only at hb ⊢
    simp only [List.length_append, List.length_singleton, Nat.cast_add, Nat.cast_one] at hb
    obtain ⟨hc, hids⟩ := hP (by omega)
    have hw : wrapInt (s.sub.jobIDCounter + 1) = (s.built.length : Int) + 1 := by
      rw [hc]
      exact wrapInt_succ _ (by omega)
    constructor
    · simp only [Subscriber.generateJobID, hw, List.length_append, List.length_singleton,
        Nat.cast_add, Nat.cast_one]
    · simp only [Subscriber.generateJobID, hw, List.map_append, List.map_cons, List.map_nil,
        List.length_append, List.length_singleton, List.range_succ, hids]
  | submit d =>
    simp only [SubSys.step] at h
    obtain ⟨job, _, _, hcase⟩ := SubSys.submit_inv h
    rcases hcase with ⟨_, rfl⟩ | ⟨_, rfl⟩
    · exact hP
    · exact hP
  | take i =>
    simp only [SubSys.step] at h
    obtain ⟨_, hcase⟩ := SubSys.take_inv h
    rcases hcase with ⟨job, rest, _, rfl⟩ | ⟨_, _, rfl⟩
    · exact hP
    · exact hP
  | exec i =>
    simp only [SubSys.step] at h
    obtain ⟨job, _, rfl⟩ := SubSys.exec_inv h
    exact hP
  | emit i =>
    simp only [SubSys.step] at h
    obtain ⟨job, _, _, _, rfl⟩ := SubSys.emit_inv h
    exact hP
  | done i =>
    simp only [SubSys.step] at h
    obtain ⟨job, _, _, rfl⟩ := SubSys.done_inv h
    exact hP
  | close =>
    simp only [SubSys.step] at h
    obtain ⟨_, _, rfl⟩ := SubSys.Close_inv h
    exact hP

/-- With one drain goroutine, jobs are built in the order the messages were
received: the messages of the jobs built, then the message the drain goroutine
holds without a job, are the received messages in order. -/
theorem step_order_of_receipt {s s' : SubSys δ} {a : SubAction δ} {dr : Drain δ}
    (h : s.step a = .ok s') (ha : a ≠ .start) (hd : s.drains = [dr])
    (hP : s.built.map (fun j => j.Task.msg) ++ gather Drain.unbuilt s.drains = s.received) :
    (∃ dr', s'.drains = [dr']) ∧
    s'.built.map (fun j => j.Task.msg) ++ gather Drain.unbuilt s'.drains = s'.received := by
  cases a with
  | start => exact absurd rfl ha
  | deliver msg =>
    simp only [SubSys.step] at h
    obtain ⟨_, _, rfl⟩ := SubSys.deliver_inv h
    exact ⟨⟨dr, hd⟩, hP⟩
  | recv d =>
    simp only [SubSys.step] at h
    obtain ⟨hdr, hcase⟩ := SubSys.recv_inv h
    rw [hd] at hdr
    obtain ⟨hi, hw⟩ := singleton_getElem? hdr
    subst hi
    rw [hd, ← hw] at hP
    rcases hcase with ⟨msg, rest, _, rfl⟩ | ⟨_, _, rfl⟩
    · refine ⟨⟨.received msg, by simp [hd]⟩, ?_⟩
      simp only [hd, List.set_cons_zero, gather, Drain.unbuilt, List.append_nil] at hP ⊢
      rw [hP]
    · refine ⟨⟨.ended, by simp [hd]⟩, ?_⟩
      simp only [hd, List.set_cons_zero, gather, Drain.unbuilt, List.append_nil] at hP ⊢
      exact hP
  | build d =>
    simp only [SubSys.step] at h
    obtain ⟨msg, hdr, rfl⟩ := SubSys.build_inv h
    rw [hd] at hdr
    obtain ⟨hi, hw⟩ := singleton_getElem? hdr
    subst hi
    rw [hd, ← hw] at hP
    refine ⟨⟨.built ⟨s.sub.generateJobID.2, ⟨msg⟩, 0, 0⟩, by simp [hd]⟩, ?_⟩
    simp only [hd, List.set_cons_zero, gather, Drain.unbuilt, List.append_nil, List.map_append,
      List.map_cons, List.map_nil] at hP ⊢
    exact hP
  | submit d =>
    simp only [SubSys.step] at h
    obtain ⟨job, hdr, _, hcase⟩ := SubSys.submit_inv h
    rw [hd] at hdr
    obtain ⟨hi, hw⟩ := singleton_getElem? hdr
    subst hi
    rw [hd, ← hw] at hP
    rcases hcase with ⟨_, rfl⟩ | ⟨_, rfl⟩
    · refine ⟨⟨.waiting, by simp [hd]⟩, ?_⟩
      simp only [hd, List.set_cons_zero, gather, Drain.unbuilt, List.append_nil] at hP ⊢
      exact hP
    · refine ⟨⟨.waiting, by simp [hd]⟩, ?_⟩
      simp only [hd, List.set_cons_zero, gather, Drain.unbuilt, List.append_nil] at hP ⊢
      exact hP
  | take i =>
    simp only [SubSys.step] at h
    obtain ⟨_, hcase⟩ := SubSys.take_inv h
    rcases hcase with ⟨job, rest, _, rfl⟩ | ⟨_, _, rfl⟩
    · exact ⟨⟨dr, hd⟩, hP⟩
    · exact ⟨⟨dr, hd⟩, hP⟩
  | exec i =>
    simp only [SubSys.step] at h
    obtain ⟨job, _, rfl⟩ := SubSys.exec_inv h
    exact ⟨⟨dr, hd⟩, hP⟩
  | emit i =>
    simp only [SubSys.step] at h
    obtain ⟨job, _, _, _, rfl⟩ := SubSys.emit_inv h
    exact ⟨⟨dr, hd⟩, hP⟩
  | done i =>
    simp only [SubSys.step] at h
    obtain ⟨job, _, _, rfl⟩ := SubSys.done_inv h
    exact ⟨⟨dr, hd⟩, hP⟩
  | close =>
    simp only [SubSys.step] at h
    obtain ⟨_, _, rfl⟩ := SubSys.Close_inv h
    exact ⟨⟨dr, hd⟩, hP⟩

/-- The job IDs: in every run of a subscriber, as long as fewer than `2^63 - 1` jobs
were built, the counter is the number of `generateJobID` calls made, the next
call returns that number plus one, and the k-th job built has ID k: the IDs
are 1, 2, 3, ... in the order of the calls, strictly increasing and never
reused.  For a subscriber started once (one drain loop) the jobs are built in
the order the messages were received. -/
theorem job_ids_sequential (id : String) (sched : List (SubAction δ)) (s : SubSys δ)
    (hrun : (SubSys.new id : SubSys δ).run sched = some s)
    (hbound : (s.built.length : Int) < 9223372036854775807) :
    s.sub.jobIDCounter = s.built.length ∧
    s.sub.generateJobID.2 = (s.built.length : Int) + 1 ∧
    s.built.map (fun j => j.ID)
      = (List.range s.built.length).map (fun (k : Nat) => (k : Int) + 1) ∧
    (s.built.map (fun j => j.ID)).Pairwise (fun x y => x < y) ∧
    (s.built.map (fun j => j.ID)).Nodup ∧
    (∀ rest : List (SubAction δ), sched = SubAction.start :: rest →
      (∀ a ∈ rest, a ≠ SubAction.start) →
      s.built.map (fun j => j.Task.msg) ++ gather Drain.unbuilt s.drains = s.received) := by
  have hG := SubSys.run_induction
    (fun (s : SubSys δ) => (s.built.length : Int) ≤ 9223372036854775807 →
      s.sub.jobIDCounter = s.built.length ∧
      s.built.map (fun j => j.ID)
        = (List.range s.built.length).map (fun (k : Nat) => (k : Int) + 1))
    (fun _ => True) (fun _ _ _ _ hP hstep => step_id_inv hstep hP)
    sched (SubSys.new id) s (fun _ _ => trivial) (fun _ => ⟨rfl, rfl⟩) hrun
  obtain ⟨hc, hids⟩ := hG (by omega)
  have hpw : (s.built.map (fun j => j.ID)).Pairwise (fun x y => x < y) := by
    rw [hids]
    exact List.Pairwise.map _ (fun a b hab => by omega) (List.pairwise_lt_range _)
  refine ⟨hc, ?_, hids, hpw, ?_, ?_⟩
  · show wrapInt (s.sub.jobIDCounter + 1) = _
    rw [hc]
    exact wrapInt_succ _ hbound
  · exact hpw.imp (fun hab => ne_of_lt hab)
  · intro rest hsched hns
    subst hsched
    have hrun' : ((SubSys.new id : SubSys δ).start).run rest = some s := hrun
    have := SubSys.run_induction
      (fun (s : SubSys δ) => (∃ dr, s.drains = [dr]) ∧
        s.built.map (fun j => j.Task.msg) ++ gather Drain.unbuilt s.drains = s.received)
      (fun a => a ≠ SubAction.start)
      (fun s1 s2 a ha hP hstep => by
        obtain ⟨⟨dr, hd⟩, hord⟩ := hP
        exact step_order_of_receipt hstep ha hd hord)
      rest ((SubSys.new id : SubSys δ).start) s hns ⟨⟨Drain.waiting, rfl⟩, rfl⟩ hrun'
    exact this.2

/-- Example: the started subscriber "analytics" receives two messages
one after the other; the jobs built for them have the IDs 1 and 2. -/
theorem job_ids_sequential_example :
    ∃ s : SubSys String,
      (SubSys.new "analytics" : SubSys String).run
        [.start, .deliver ⟨"gaming", "m1"⟩, .deliver ⟨"gaming", "m2"⟩, .recv 0, .build 0,
          .submit 0, .recv 0, .build 0] = some s ∧
      (s.built.length : Int) < 9223372036854775807 ∧
      s.built.map (fun j => (j.ID, j.Task.msg.Data)) = [(1, "m1"), (2, "m2")] ∧
      s.sub.jobIDCounter = s.built.length ∧
      s.sub.generateJobID.2 = (s.built.length : Int) + 1 ∧
      s.built.map (fun j => j.ID)
        = (List.range s.built.length).map (fun (k : Nat) => (k : Int) + 1) ∧
      (s.built.map (fun j => j.ID)).Pairwise (fun x y => x < y) ∧
      (s.built.map (fun j => j.ID)).Nodup ∧
      (∀ rest : List (SubAction String),
        [.start, .deliver ⟨"gaming", "m1"⟩, .deliver ⟨"gaming", "m2"⟩, .recv 0, .build 0,
          .submit 0, .recv 0, .build 0] = SubAction.start :: rest →
        (∀ a ∈ rest, a ≠ SubAction.start) →
        s.built.map (fun j => j.Task.msg) ++ gather Drain.unbuilt s.drains = s.received) :=
  ⟨_, rfl, by decide, by decide,
    job_ids_sequential "analytics"
      [.start, .deliver ⟨"gaming", "m1"⟩, .deliver ⟨"gaming", "m2"⟩, .recv 0, .build 0,
        .submit 0, .recv 0, .build 0] _ rfl (by decide)⟩

/-! ## SubmitJob, statement by statement -/

/-- C16 (fails on the code), counterexample: the pool `NewWorkerPool(1, 0)` is
started and its worker is blocked in the receive of its loop.  The job queue
has no free slot (capacity 0), yet `SubmitJob` returns nil: the job goes to
the worker and the counter becomes 1. -/
theorem C16_unbuffered_queue_counterexample :
    (Conc.new 1 0 : Conc SquareTask Int).step .start = .ok (unbufferedDemo, none) ∧
    ¬ unbufferedDemo.sys.pool.JobsChannel.buf.length
        < unbufferedDemo.sys.pool.JobsChannel.cap ∧
    unbufferedDemo.sys.pool.JobsChannel.closed = false ∧
    unbufferedDemo.SubmitJob (squareJob 3) (some 0) = .ok (unbufferedHanded, none) ∧
    unbufferedDemo.SubmitJob (squareJob 3) (some 0)
      ≠ .ok (unbufferedDemo, some "job queue is full or pool is shut down") ∧
    unbufferedHanded.sys.pool.wg = unbufferedDemo.sys.pool.wg + 1 := by
  refine ⟨?_, ?_, ?_, ?_, ?_, ?_⟩ <;> decide

/-- C16, amended: on an open pool `SubmitJob(job)` never blocks and never
panics.  With a free slot in the job queue the send puts the job at the tail
of the queue and `wg.Add(1)` then adds exactly one to the counter; the call
returns nil and changes nothing else.  With no free slot and no worker blocked
in its receive it returns the error at once and leaves the pool as it was.
With no free slot, an empty queue and worker `i` blocked in its receive (a
queue of capacity 0), the job is handed to that worker, the counter is
incremented by one and the call returns nil. -/
theorem C16_submit_job_statements (c : Conc τ ω) (job : Job τ) (parked : Option Nat)
    (hopen : c.sys.pool.JobsChannel.closed = false) :
    (c.sys.pool.JobsChannel.buf.length < c.sys.pool.JobsChannel.cap →
      ∃ c1 c2, c.send job parked = .ok (c1, none) ∧ c1.add = .ok c2 ∧
        c.SubmitJob job parked = .ok (c2, none) ∧
        c1.sys.pool.JobsChannel.buf = c.sys.pool.JobsChannel.buf ++ [job] ∧
        c1.sys.pool.wg = c.sys.pool.wg ∧
        c2.sys.pool.JobsChannel.buf = c.sys.pool.JobsChannel.buf ++ [job] ∧
        c2.sys.pool.wg = c.sys.pool.wg + 1 ∧
        c2.sys.pool.JobsChannel.cap = c.sys.pool.JobsChannel.cap ∧
        c2.sys.pool.JobsChannel.closed = false ∧
        c2.sys.pool.ResultsChannel = c.sys.pool.ResultsChannel ∧
        c2.sys.workers = c.sys.workers ∧ c2.adding = c.adding) ∧
    (¬ c.sys.pool.JobsChannel.buf.length < c.sys.pool.JobsChannel.cap →
      (∀ i, parked = some i →
        ¬ (c.sys.pool.JobsChannel.buf = [] ∧ c.sys.workers[i]? = some Worker.idle)) →
      c.send job parked = .ok (c, some "job queue is full or pool is shut down") ∧
      c.SubmitJob job parked = .ok (c, some "job queue is full or pool is shut down")) ∧
    (¬ c.sys.pool.JobsChannel.buf.length < c.sys.pool.JobsChannel.cap →
      ∀ i, parked = some i → c.sys.pool.JobsChannel.buf = [] →
        c.sys.workers[i]? = some Worker.idle →
        c.sys.pool.JobsChannel.cap = 0 ∧
        ∃ c2, c.SubmitJob job parked = .ok (c2, none) ∧
          c2.sys.workers = c.sys.workers.set i (Worker.running job) ∧
          c2.sys.pool.wg = c.sys.pool.wg + 1 ∧
          c2.sys.pool.JobsChannel = c.sys.pool.JobsChannel ∧
          c2.sys.pool.ResultsChannel = c.sys.pool.ResultsChannel ∧
          c2.adding = c.adding) ∧
    (∃ c2 err, c.SubmitJob job parked = .ok (c2, err)) := by
  have h1 : c.sys.pool.JobsChannel.buf.length < c.sys.pool.JobsChannel.cap →
      ∃ c1 c2, c.send job parked = .ok (c1, none) ∧ c1.add = .ok c2 ∧
        c.SubmitJob job parked = .ok (c2, none) ∧
        c1.sys.pool.JobsChannel.buf = c.sys.pool.JobsChannel.buf ++ [job] ∧
        c1.sys.pool.wg = c.sys.pool.wg ∧
        c2.sys.pool.JobsChannel.buf = c.sys.pool.JobsChannel.buf ++ [job] ∧
        c2.sys.pool.wg = c.sys.pool.wg + 1 ∧
        c2.sys.pool.JobsChannel.cap = c.sys.pool.JobsChannel.cap ∧
        c2.sys.pool.JobsChannel.closed = false ∧
        c2.sys.pool.ResultsChannel = c.sys.pool.ResultsChannel ∧
        c2.sys.workers = c.sys.workers ∧ c2.adding = c.adding := by
    intro hfree
    have hsend : c.send job parked = .ok (⟨{ c.sys with
        pool := { c.sys.pool with JobsChannel :=
          { c.sys.pool.JobsChannel with buf := c.sys.pool.JobsChannel.buf ++ [job] } },
        accepted := c.sys.accepted ++ [job] }, c.adding + 1⟩, none) := by
      simp [Conc.send, hopen, hfree]
    have hadd : Conc.add (⟨{ c.sys with
        pool := { c.sys.pool with JobsChannel :=
          { c.sys.pool.JobsChannel with buf := c.sys.pool.JobsChannel.buf ++ [job] } },
        accepted := c.sys.accepted ++ [job] }, c.adding + 1⟩ : Conc τ ω)
        = .ok ⟨{ c.sys with
          pool := { c.sys.pool with
            JobsChannel :=
              { c.sys.pool.JobsChannel with buf := c.sys.pool.JobsChannel.buf ++ [job] },
            wg := c.sys.pool.wg + 1 },
          accepted := c.sys.accepted ++ [job] }, c.adding⟩ := by
      simp [Conc.add]
    refine ⟨_, _, hsend, hadd, ?_, rfl, rfl, rfl, rfl, rfl, hopen, rfl, rfl, rfl⟩
    simp only [Conc.SubmitJob, hsend, hadd]
  have h2 : ¬ c.sys.pool.JobsChannel.buf.length < c.sys.pool.JobsChannel.cap →
      (∀ i, parked = some i →
        ¬ (c.sys.pool.JobsChannel.buf = [] ∧ c.sys.workers[i]? = some Worker.idle)) →
      c.send job parked = .ok (c, some "job queue is full or pool is shut down") ∧
      c.SubmitJob job parked = .ok (c, some "job queue is full or pool is shut down") := by
    intro hfull hnone
    have hsend : c.send job parked
        = .ok (c, some "job queue is full or pool is shut down") := by
      cases parked with
      | none => simp [Conc.send, hopen, hfull]
      | some i =>
        have hn := hnone i rfl
        simp only [Conc.send, hopen, Bool.false_eq_true, if_false, hfull]
        cases hb : c.sys.pool.JobsChannel.buf with
        | cons x xs => rfl
        | nil =>
          cases hw : c.sys.workers[i]? with
          | none => rfl
          | some w =>
            cases w with
            | idle => exact absurd ⟨hb, hw⟩ hn
            | running j => rfl
            | emitted j => rfl
            | stopped => rfl
    exact ⟨hsend, by simp only [Conc.SubmitJob, hsend]⟩
  have h3 : ¬ c.sys.pool.JobsChannel.buf.length < c.sys.pool.JobsChannel.cap →
      ∀ i, parked = some i → c.sys.pool.JobsChannel.buf = [] →
        c.sys.workers[i]? = some Worker.idle →
        c.sys.pool.JobsChannel.cap = 0 ∧
        ∃ c2, c.SubmitJob job parked = .ok (c2, none) ∧
          c2.sys.workers = c.sys.workers.set i (Worker.running job) ∧
          c2.sys.pool.wg = c.sys.pool.wg + 1 ∧
          c2.sys.pool.JobsChannel = c.sys.pool.JobsChannel ∧
          c2.sys.pool.ResultsChannel = c.sys.pool.ResultsChannel ∧
          c2.adding = c.adding := by
    intro hfull i hp hbuf hw
    subst hp
    have hcap0 : c.sys.pool.JobsChannel.cap = 0 := by
      rw [hbuf] at hfull
      simp only [List.length_nil, not_lt, Nat.le_zero_eq] at hfull
      exact hfull
    refine ⟨hcap0, ?_⟩
    have hsend : c.send job (some i) = .ok (⟨{ c.sys with
        workers := c.sys.workers.set i (Worker.running job),
        accepted := c.sys.accepted ++ [job] }, c.adding + 1⟩, none) := by
      simp [Conc.send, hopen, hbuf, hcap0, hw]
    have hadd : Conc.add (⟨{ c.sys with
        workers := c.sys.workers.set i (Worker.running job),
        accepted := c.sys.accepted ++ [job] }, c.adding + 1⟩ : Conc τ ω)
        = .ok ⟨{ c.sys with
          pool := { c.sys.pool with wg := c.sys.pool.wg + 1 },
          workers := c.sys.workers.set i (Worker.running job),
          accepted := c.sys.accepted ++ [job] }, c.adding⟩ := by
      simp [Conc.add]
    refine ⟨⟨{ c.sys with
          pool := { c.sys.pool with wg := c.sys.pool.wg + 1 },
          workers := c.sys.workers.set i (Worker.running job),
          accepted := c.sys.accepted ++ [job] }, c.adding⟩, ?_, rfl, rfl, rfl, rfl, rfl⟩
    simp only [Conc.SubmitJob, hsend, hadd]
  refine ⟨h1, h2, h3, ?_⟩
  by_cases hfree : c.sys.pool.JobsChannel.buf.length < c.sys.pool.JobsChannel.cap
  · obtain ⟨_, c2, _, _, hs, _⟩ := h1 hfree
    exact ⟨c2, none, hs⟩
  · by_cases hpark : ∀ i, parked = some i →
        ¬ (c.sys.pool.JobsChannel.buf = [] ∧ c.sys.workers[i]? = some Worker.idle)
    · exact ⟨c, _, (h2 hfree hpark).2⟩
    · push_neg at hpark
      obtain ⟨i, hp, hb, hw⟩ := hpark
      obtain ⟨_, c2, hs, _⟩ := h3 hfree i hp hb hw
      exact ⟨c2, none, hs⟩

/-- Witness of C16: the unbuffered demo pool hands the job to its waiting
worker; the demo pool with a free slot queues it. -/
theorem C16_submit_job_statements_witness :
    unbufferedDemo.sys.pool.JobsChannel.closed = false ∧
    (unbufferedDemo.sys.pool.JobsChannel.cap = 0 ∧
      ∃ c2, unbufferedDemo.SubmitJob (squareJob 3) (some 0) = .ok (c2, none) ∧
        c2.sys.workers = unbufferedDemo.sys.workers.set 0 (Worker.running (squareJob 3)) ∧
        c2.sys.pool.wg = unbufferedDemo.sys.pool.wg + 1 ∧
        c2.sys.pool.JobsChannel = unbufferedDemo.sys.pool.JobsChannel ∧
        c2.sys.pool.ResultsChannel = unbufferedDemo.sys.pool.ResultsChannel ∧
        c2.adding = unbufferedDemo.adding) ∧
    (∃ c1 c2, (⟨demoRunning, 0⟩ : Conc SquareTask Int).send (squareJob 5) none = .ok (c1, none) ∧
      c1.add = .ok c2 ∧ c2.sys.pool.JobsChannel.buf = [squareJob 3, squareJob 5] ∧
      c2.sys.pool.wg = 3) :=
  ⟨rfl,
    (C16_submit_job_statements unbufferedDemo (squareJob 3) (some 0) rfl).2.2.1
      (by decide) 0 rfl rfl rfl,
    ⟨_, _, rfl, rfl, rfl, rfl⟩⟩

/-! ## A worker that cannot finish its job -/

set_option maxRecDepth 100000 in
theorem resultsFullDemo_run :
    ((SubSys.new "analytics" : SubSys String).start).run
        ((List.replicate 50 handleOne).flatten ++ handleUpToSend 0) = some resultsFullDemo := by
  decide

/-- With the result queue full and nobody receiving from it, a worker that has
run the handler stays where it is: no step of any goroutine sends a `Result`
or moves that worker. -/
theorem results_full_step {t t' : SubSys δ} {a : SubAction δ} {i0 : Nat}
    {j0 : Job (ProcessMessageTask δ)} (h : t.step a = .ok t') (ha : a ≠ .start)
    (hfull : t.sub.WorkerPool.ResultsChannel.cap ≤ t.sub.WorkerPool.ResultsChannel.buf.length)
    (hw : t.workers[i0]? = some (.executed j0)) :
    t'.sub.WorkerPool.ResultsChannel = t.sub.WorkerPool.ResultsChannel ∧
    t'.workers[i0]? = some (.executed j0) ∧ t'.emitted = t.emitted := by
  have hset : ∀ (i : Nat) (w w' : SubWorker δ), t.workers[i]? = some w →
      w ≠ .executed j0 → (t.workers.set i w')[i0]? = some (.executed j0) := by
    intro i w w' hi hne
    have hii : i ≠ i0 := by
      intro hEq
      rw [hEq, hw] at hi
      exact hne (Option.some.inj hi).symm
    rw [List.getElem?_set_ne hii]
    exact hw
  cases a with
  | start => exact absurd rfl ha
  | deliver msg =>
    simp only [SubSys.step] at h
    obtain ⟨_, _, rfl⟩ := SubSys.deliver_inv h
    exact ⟨rfl, hw, rfl⟩
  | recv d =>
    simp only [SubSys.step] at h
    obtain ⟨_, hcase⟩ := SubSys.recv_inv h
    rcases hcase with ⟨msg, rest, _, rfl⟩ | ⟨_, _, rfl⟩
    · exact ⟨rfl, hw, rfl⟩
    · exact ⟨rfl, hw, rfl⟩
  | build d =>
    simp only [SubSys.step] at h
    obtain ⟨msg, _, rfl⟩ := SubSys.build_inv h
    exact ⟨rfl, hw, rfl⟩
  | submit d =>
    simp only [SubSys.step] at h
    obtain ⟨job, _, _, hcase⟩ := SubSys.submit_inv h
    rcases hcase with ⟨_, rfl⟩ | ⟨_, rfl⟩
    · exact ⟨rfl, hw, rfl⟩
    · exact ⟨rfl, hw, rfl⟩
  | take i =>
    simp only [SubSys.step] at h
    obtain ⟨hi, hcase⟩ := SubSys.take_inv h
    rcases hcase with ⟨job, rest, _, rfl⟩ | ⟨_, _, rfl⟩
    · exact ⟨rfl, hset i _ _ hi (by simp), rfl⟩
    · exact ⟨rfl, hset i _ _ hi (by simp), rfl⟩
  | exec i =>
    simp only [SubSys.step] at h
    obtain ⟨job, hi, rfl⟩ := SubSys.exec_inv h
    exact ⟨rfl, hset i _ _ hi (by simp), rfl⟩
  | emit i =>
    simp only [SubSys.step] at h
    obtain ⟨job, _, _, hroom, _⟩ := SubSys.emit_inv h
    omega
  | done i =>
    simp only [SubSys.step] at h
    obtain ⟨job, hi, _, rfl⟩ := SubSys.done_inv h
    exact ⟨rfl, hset i _ _ hi (by simp), rfl⟩
  | close =>
    simp only [SubSys.step] at h
    obtain ⟨_, _, rfl⟩ := SubSys.Close_inv h
    exact ⟨rfl, hw, rfl⟩

theorem results_full_run {t0 : SubSys δ} {i0 : Nat} {j0 : Job (ProcessMessageTask δ)}
    (hfull : t0.sub.WorkerPool.ResultsChannel.cap ≤ t0.sub.WorkerPool.ResultsChannel.buf.length)
    (hopen : t0.sub.WorkerPool.ResultsChannel.closed = false)
    (hw : t0.workers[i0]? = some (.executed j0))
    (more : List (SubAction δ)) (t : SubSys δ) (hns : ∀ a ∈ more, a ≠ SubAction.start)
    (hrun : t0.run more = some t) :
    t.emitted = t0.emitted ∧ t.workers[i0]? = some (.executed j0) ∧ t.emit i0 = .blocked := by
  have hP := SubSys.run_induction
    (fun (t : SubSys δ) =>
      t.sub.WorkerPool.ResultsChannel = t0.sub.WorkerPool.ResultsChannel ∧
      t.workers[i0]? = some (.executed j0) ∧ t.emitted = t0.emitted)
    (fun a => a ≠ SubAction.start)
    (fun s1 s2 a ha hP hstep => by
      obtain ⟨h1, h2, h3⟩ := hP
      obtain ⟨k1, k2, k3⟩ := results_full_step hstep ha (by rw [h1]; exact hfull) h2
      exact ⟨by rw [k1, h1], k2, by rw [k3, h3]⟩)
    more t0 t hns ⟨rfl, hw, rfl⟩ hrun
  obtain ⟨h1, h2, h3⟩ := hP
  refine ⟨h3, h2, ?_⟩
  have hnr : ¬ t.sub.WorkerPool.ResultsChannel.buf.length
      < t.sub.WorkerPool.ResultsChannel.cap := by
    rw [h1]
    omega
  have hop : t.sub.WorkerPool.ResultsChannel.closed = false := by rw [h1]; exact hopen
  simp [SubSys.emit, h2, hop, hnr]

/-- C20 (fails on the code): a worker that has taken a job does not always
send its `Result` and decrement the counter once.  First, `SubmitJob` sends
the job before `wg.Add(1)`: in the started pool `NewWorkerPool(1, 1)` the
worker takes the job, executes it and sends the `Result` before the `Add`, and
its `wg.Done()` panics on the zero counter.  Second, in the subscriber of
`pubsub_with_worker_pool.go`, started once, nothing receives the `Result`s:
after 50 messages were handled, worker 0 has taken job 51 and run the
handler, and its send is blocked in this state and in every later state of
every run, so job 51 never gets a `Result` and the worker never takes another
job. -/
theorem C20_worker_done_panics_or_send_blocks :
    (Conc.run (Conc.new 1 1 : Conc SquareTask Int)
        [.start, .send (squareJob 3) none, .take 0, .emit 0]
      = some (doneBeforeAddDemo, [none, none, none, none]) ∧
      doneBeforeAddDemo.step (.done 0) = .panic "sync: negative WaitGroup counter") ∧
    (((SubSys.new "analytics" : SubSys String).start).run
        ((List.replicate 50 handleOne).flatten ++ handleUpToSend 0) = some resultsFullDemo ∧
      resultsFullDemo.workers[0]? = some (.executed (demoJob 51)) ∧
      resultsFullDemo.emitted.length = 50 ∧
      ∀ (more : List (SubAction String)) (t : SubSys String),
        (∀ a ∈ more, a ≠ SubAction.start) → resultsFullDemo.run more = some t →
        t.emitted = resultsFullDemo.emitted ∧
        t.workers[0]? = some (.executed (demoJob 51)) ∧ t.emit 0 = .blocked) := by
  refine ⟨⟨by decide, by decide⟩, resultsFullDemo_run, rfl, by decide, ?_⟩
  intro more t hns hrun
  exact results_full_run (by decide) rfl rfl more t hns hrun

/-! ## Queued jobs after Close -/

theorem shutdownStuckDemo_run :
    resultsFullDemo.run
        (handleUpToSend 1 ++ handleUpToSend 2 ++ handleUpToSend 3 ++ handleUpToSend 4
          ++ [.deliver demoMsg, .recv 0, .build 0, .submit 0, .close])
      = some shutdownStuckDemo := by
  decide

theorem mem_of_getElem?_some {α : Type} {l : List α} :
    ∀ {i : Nat} {a : α}, l[i]? = some a → a ∈ l := by
  induction l with
  | nil => intro i a h; simp at h
  | cons x xs ih =>
    intro i a h
    cases i with
    | zero =>
      simp only [List.getElem?_cons_zero, Option.some.injEq] at h
      rw [← h]
      exact List.mem_cons_self _ _
    | succ k =>
      simp only [List.getElem?_cons_succ] at h
      exact List.mem_cons_of_mem _ (ih h)

/-- With the job queue shut, the result queue full and every worker at the
send of its `Result`, no step of any goroutine changes the pool, the workers
or what was handled. -/
theorem all_blocked_step {t t' : SubSys δ} {a : SubAction δ} (h : t.step a = .ok t')
    (ha : a ≠ .start)
    (hfull : t.sub.WorkerPool.ResultsChannel.cap ≤ t.sub.WorkerPool.ResultsChannel.buf.length)
    (hshut : t.sub.WorkerPool.JobsChannel.closed = true)
    (hall : ∀ w ∈ t.workers, ∃ j, w = SubWorker.executed j) :
    t'.sub.WorkerPool = t.sub.WorkerPool ∧ t'.workers = t.workers ∧
    t'.emitted = t.emitted ∧ t'.handled = t.handled ∧ t'.accepted = t.accepted := by
  have hno : ∀ (i : Nat) (w : SubWorker δ), t.workers[i]? = some w →
      (∀ j, w ≠ SubWorker.executed j) → False := by
    intro i w hi hne
    obtain ⟨j, hj⟩ := hall w (mem_of_getElem?_some hi)
    exact hne j hj
  cases a with
  | start => exact absurd rfl ha
  | deliver msg =>
    simp only [SubSys.step] at h
    obtain ⟨_, _, rfl⟩ := SubSys.deliver_inv h
    exact ⟨rfl, rfl, rfl, rfl, rfl⟩
  | recv d =>
    simp only [SubSys.step] at h
    obtain ⟨_, hcase⟩ := SubSys.recv_inv h
    rcases hcase with ⟨msg, rest, _, rfl⟩ | ⟨_, _, rfl⟩
    · exact ⟨rfl, rfl, rfl, rfl, rfl⟩
    · exact ⟨rfl, rfl, rfl, rfl, rfl⟩
  | build d =>
    simp only [SubSys.step] at h
    obtain ⟨msg, _, rfl⟩ := SubSys.build_inv h
    exact ⟨rfl, rfl, rfl, rfl, rfl⟩
  | submit d =>
    simp only [SubSys.step] at h
    obtain ⟨job, _, hopen, _⟩ := SubSys.submit_inv h
    rw [hshut] at hopen
    exact absurd hopen (by simp)
  | take i =>
    simp only [SubSys.step] at h
    obtain ⟨hi, _⟩ := SubSys.take_inv h
    exact (hno i _ hi (by simp)).elim
  | exec i =>
    simp only [SubSys.step] at h
    obtain ⟨job, hi, _⟩ := SubSys.exec_inv h
    exact (hno i _ hi (by simp)).elim
  | emit i =>
    simp only [SubSys.step] at h
    obtain ⟨job, _, _, hroom, _⟩ := SubSys.emit_inv h
    omega
  | done i =>
    simp only [SubSys.step] at h
    obtain ⟨job, hi, _⟩ := SubSys.done_inv h
    exact (hno i _ hi (by simp)).elim
  | close =>
    simp only [SubSys.step] at h
    obtain ⟨_, hopen, _⟩ := SubSys.Close_inv h
    rw [hshut] at hopen
    exact absurd hopen (by simp)

theorem all_blocked_run {t0 : SubSys δ}
    (hfull : t0.sub.WorkerPool.ResultsChannel.cap ≤ t0.sub.WorkerPool.ResultsChannel.buf.length)
    (hshut : t0.sub.WorkerPool.JobsChannel.closed = true)
    (hall : ∀ w ∈ t0.workers, ∃ j, w = SubWorker.executed j)
    (more : List (SubAction δ)) (t : SubSys δ) (hns : ∀ a ∈ more, a ≠ SubAction.start)
    (hrun : t0.run more = some t) :
    t.sub.WorkerPool = t0.sub.WorkerPool ∧ t.workers = t0.workers ∧
    t.emitted = t0.emitted ∧ t.handled = t0.handled ∧ t.accepted = t0.accepted :=
  SubSys.run_induction
    (fun (t : SubSys δ) => t.sub.WorkerPool = t0.sub.WorkerPool ∧ t.workers = t0.workers ∧
      t.emitted = t0.emitted ∧ t.handled = t0.handled ∧ t.accepted = t0.accepted)
    (fun a => a ≠ SubAction.start)
    (fun s1 s2 a ha hP hstep => by
      obtain ⟨h1, h2, h3, h4, h5⟩ := hP
      obtain ⟨k1, k2, k3, k4, k5⟩ := all_blocked_step hstep ha
        (by rw [h1]; exact hfull) (by rw [h1]; exact hshut) (by rw [h2]; exact hall)
      exact ⟨by rw [k1, h1], by rw [k2, h2], by rw [k3, h3], by rw [k4, h4], by rw [k5, h5]⟩)
    more t0 t hns ⟨rfl, rfl, rfl, rfl, rfl⟩ hrun

/-- C25 (fails on the code): a job queued at `Shutdown` is not always executed.
The subscriber "analytics", started once, has had 56 messages delivered and
drained: 50 `Result`s fill the result queue, which nothing receives from, the
five workers have run the handler on the messages 51 to 55 and are at the send
of their `Result`, and job 56 is in the job queue when `Unsubscribe` calls
`Close()`, which shuts the pool.  `Shutdown` leaves job 56 queued, and in every
later state of every run it is still there: no worker takes it, the handler
never runs on it, it gets no `Result`, and no worker's loop ends. -/
theorem C25_queued_job_never_executed_after_shutdown :
    ((SubSys.new "analytics" : SubSys String).start).run
        ((List.replicate 50 handleOne).flatten ++ handleUpToSend 0 ++
          (handleUpToSend 1 ++ handleUpToSend 2 ++ handleUpToSend 3 ++ handleUpToSend 4
            ++ [.deliver demoMsg, .recv 0, .build 0, .submit 0, .close]))
      = some shutdownStuckDemo ∧
    shutdownStuckDemo.sub.WorkerPool.JobsChannel
      = { buf := [demoJob 56], cap := 50, closed := true } ∧
    shutdownStuckDemo.emitted.length = 50 ∧ shutdownStuckDemo.handled.length = 55 ∧
    ∀ (more : List (SubAction String)) (t : SubSys String),
      (∀ a ∈ more, a ≠ SubAction.start) → shutdownStuckDemo.run more = some t →
      t.sub.WorkerPool.JobsChannel.buf = [demoJob 56] ∧
      t.workers = shutdownStuckDemo.workers ∧
      t.emitted = shutdownStuckDemo.emitted ∧ t.handled = shutdownStuckDemo.handled := by
  refine ⟨?_, rfl, by decide, by decide, ?_⟩
  · rw [SubSys.run_concat, resultsFullDemo_run]
    exact shutdownStuckDemo_run
  · intro more t hns hrun
    have hall : ∀ w ∈ shutdownStuckDemo.workers, ∃ j, w = SubWorker.executed j := by
      intro w hw
      simp only [shutdownStuckDemo, List.mem_cons, List.mem_singleton, List.not_mem_nil,
        or_false] at hw
      rcases hw with rfl | rfl | rfl | rfl | rfl <;> exact ⟨_, rfl⟩
    obtain ⟨h1, h2, h3, h4, _⟩ := all_blocked_run (by decide) rfl hall more t hns hrun
    exact ⟨by rw [h1]; rfl, h2, h3, h4⟩

/-! ## Job IDs with two drain loops -/

/-- C27 (fails on the code): the subscriber "analytics" is subscribed to
"gaming" and to "sports", so `start()` ran twice and two drain loops share its
channel and its counter.  Message "m1" is received first, by loop 0, and "m2"
second, by loop 1; loop 1 calls `generateJobID` first.  The calls return 1
and 2 in the order they are made, but the job of "m1", received first, has
ID 2 and the job of "m2" has ID 1; loop 0 submits first, so the jobs reach the
pool with the IDs 2, 1. -/
theorem C27_job_ids_out_of_receipt_order :
    ∃ b1 b2 b3 b4 b5 b6 b7 b8 b9 b10,
      Subscribe twoTopicBroker "gaming" 0 = .ok (b1, none) ∧
      Subscribe b1 "sports" 0 = .ok (b2, none) ∧
      b2.stepSub 0 (.deliver ⟨"gaming", "m1"⟩) = .ok b3 ∧
      b3.stepSub 0 (.deliver ⟨"sports", "m2"⟩) = .ok b4 ∧
      b4.stepSub 0 (.recv 0) = .ok b5 ∧
      b5.stepSub 0 (.recv 1) = .ok b6 ∧
      b6.stepSub 0 (.build 1) = .ok b7 ∧
      b7.stepSub 0 (.build 0) = .ok b8 ∧
      b8.stepSub 0 (.submit 0) = .ok b9 ∧
      b9.stepSub 0 (.submit 1) = .ok b10 ∧
      b10.subs.map (fun x => x.received.map (fun m => m.Data)) = [["m1", "m2"]] ∧
      b10.subs.map (fun x => x.built.map (fun j => (j.ID, j.Task.msg.Data)))
        = [[(1, "m2"), (2, "m1")]] ∧
      b10.subs.map (fun x => x.accepted.map (fun j => (j.ID, j.Task.msg.Data)))
        = [[(2, "m1"), (1, "m2")]] ∧
      b10.subs.map (fun x => x.sub.WorkerPool.JobsChannel.buf.map (fun j => j.ID))
        = [[2, 1]] := by
  refine ⟨_, _, _, _, _, _, _, _, _, _, rfl, rfl, rfl, rfl, rfl, rfl, rfl, rfl, rfl, rfl,
    ?_, ?_, ?_, ?_⟩ <;> decide

/-- Witness of C20: while worker 0 is blocked with job 51, a 52nd message is
delivered and drained and worker 1 runs the handler on it; worker 0 is still
blocked and no `Result` was sent. -/
theorem C20_worker_done_panics_or_send_blocks_witness :
    ∃ t : SubSys String,
      (∀ a ∈ handleUpToSend 1, a ≠ SubAction.start) ∧
      resultsFullDemo.run (handleUpToSend 1) = some t ∧
      t.handled.length = 52 ∧
      t.emitted = resultsFullDemo.emitted ∧
      t.workers[0]? = some (.executed (demoJob 51)) ∧ t.emit 0 = .blocked :=
  ⟨_, by decide, rfl, rfl,
    C20_worker_done_panics_or_send_blocks.2.2.2.2 (handleUpToSend 1) _ (by decide) rfl⟩

/-- Witness of C25: after the shutdown the drain loop finds its channel closed
and empty and ends; job 56 is still queued and nothing else has changed. -/
theorem C25_queued_job_never_executed_after_shutdown_witness :
    ∃ t : SubSys String,
      (∀ a ∈ [SubAction.recv 0], a ≠ (SubAction.start : SubAction String)) ∧
      shutdownStuckDemo.run [.recv 0] = some t ∧
      t.drains = [Drain.ended] ∧
      t.sub.WorkerPool.JobsChannel.buf = [demoJob 56] ∧
      t.workers = shutdownStuckDemo.workers ∧
      t.emitted = shutdownStuckDemo.emitted ∧ t.handled = shutdownStuckDemo.handled :=
  ⟨_, by decide, rfl, rfl,
    C25_queued_job_never_executed_after_shutdown.2.2.2.2 [.recv 0] _ (by decide) rfl⟩

end Pool
